import Mathlib

/-!
DCEL: geometry kernel, builder and validator.

A shallow embedding of `geometry.cpp` and `DCEL.cpp`.

* C++ `int` values are `Int`; where the source computes with them the 32-bit and
  64-bit operations wrap (`wrap32`, `wrap64`).
* Pointers into the three owned collections are `Option Nat`: `none` is
  `nullptr`, `some i` is the record at position `i` of the collection.
* `printf` output is the list of the lines printed.
* The collections hold fewer than `2^31` records, so the `int` half-edge
  counter, the cast `(int)vertices.size()` and the per-edge counts do not wrap.
-/

namespace Subdivision

/-! ## Geometry kernel (`geometry.h`, `geometry.cpp`) -/

/-- Integer coordinate pair, `struct Point` of `DCEL.h`. -/
structure Point where
  x : Int
  y : Int
deriving DecidableEq, Repr

/-- Result of the orientation test, `enum class Orientation` of `geometry.h`. -/
inductive Orientation where
  | COLINEAR
  | HORARIO
  | ANTIHORARIO
deriving DecidableEq, Repr

/-- Value of a signed 32-bit result after wrapping modulo `2^32`. -/
def wrap32 (z : Int) : Int := (z + 2147483648) % 4294967296 - 2147483648

/-- Value of a signed 64-bit result after wrapping modulo `2^64`. -/
def wrap64 (z : Int) : Int :=
  (z + 9223372036854775808) % 18446744073709551616 - 9223372036854775808

/-- The `long long val` of `Geometry::orientation`: the two differences of each
product are computed in `int`, the products and their difference in `long long`. -/
def orientationVal (a b c : Point) : Int :=
  wrap64 (wrap64 (wrap32 (b.y - a.y) * wrap32 (c.x - b.x)) -
          wrap64 (wrap32 (b.x - a.x) * wrap32 (c.y - b.y)))

/-- Embedding of `Geometry::orientation`. -/
def orientation (a b c : Point) : Orientation :=
  let val := orientationVal a b c
  if val = 0 then Orientation.COLINEAR
  else if val > 0 then Orientation.ANTIHORARIO else Orientation.HORARIO

/-- Embedding of `Geometry::onSegment`. -/
def onSegment (p q r : Point) : Bool :=
  decide (q.x ≤ max p.x r.x) && decide (q.x ≥ min p.x r.x) &&
  decide (q.y ≤ max p.y r.y) && decide (q.y ≥ min p.y r.y)

/-- Embedding of `Geometry::segmentsIntersect`. -/
def segmentsIntersect (p1 q1 p2 q2 : Point) : Bool :=
  if p1 = p2 ∨ p1 = q2 ∨ q1 = p2 ∨ q1 = q2 then false
  else
    let o1 := orientation p1 q1 p2
    let o2 := orientation p1 q1 q2
    let o3 := orientation p2 q2 p1
    let o4 := orientation p2 q2 q1
    if o1 ≠ o2 ∧ o3 ≠ o4 then true
    else if o1 = Orientation.COLINEAR ∧ onSegment p1 p2 q1 = true then true
    else if o2 = Orientation.COLINEAR ∧ onSegment p1 q2 q1 = true then true
    else if o3 = Orientation.COLINEAR ∧ onSegment p2 p1 q2 = true then true
    else if o4 = Orientation.COLINEAR ∧ onSegment p2 q1 q2 = true then true
    else false

/-! ## Data model (`DCEL.h`) -/

/-- Record of `struct Vertex`; `incidentEdge` points into the half-edge collection. -/
structure Vertex where
  position : Point
  index : Int
  incidentEdge : Option Nat
deriving DecidableEq, Repr

/-- Record of `struct Face`; `outerComponent` points into the half-edge collection. -/
structure Face where
  index : Int
  outerComponent : Option Nat
deriving DecidableEq, Repr

/-- Record of `struct HalfEdge`: `origin` points into the vertex collection,
`incidentFace` into the face collection, `twin`, `next` and `prev` into the
half-edge collection. -/
structure HalfEdge where
  index : Int
  origin : Option Nat
  twin : Option Nat
  incidentFace : Option Nat
  next : Option Nat
  prev : Option Nat
deriving DecidableEq, Repr

/-- Key of `DCEL::EdgeKey`: `lo` and `hi` are the fields `from` and `to` of the
source (`from` is a reserved word here). -/
structure EdgeKey where
  lo : Int
  hi : Int
deriving DecidableEq, Repr

/-- Constructor `EdgeKey(f, t)`: `from = min(f, t)`, `to = max(f, t)`. -/
def EdgeKey.mk2 (f t : Int) : EdgeKey := ⟨min f t, max f t⟩

/-- Comparison `EdgeKey::operator<`. -/
def EdgeKey.less (a b : EdgeKey) : Bool :=
  decide (a.lo < b.lo) || (decide (a.lo = b.lo) && decide (a.hi < b.hi))

/-- Keys a `std::map` treats as the same: neither is less than the other. -/
def EdgeKey.equiv (a b : EdgeKey) : Bool := !a.less b && !b.less a

/-- Lookup `std::map::find` in a map kept as a list of entries in key order. -/
def mapFind {V : Type} (k : EdgeKey) : List (EdgeKey × V) → Option V
  | [] => none
  | (k', v) :: rest => if k.equiv k' then some v else mapFind k rest

/-- Assignment `m[k] = v` in a map kept as a list of entries in key order. -/
def mapInsert {V : Type} (k : EdgeKey) (v : V) : List (EdgeKey × V) → List (EdgeKey × V)
  | [] => [(k, v)]
  | (k', v') :: rest =>
    if k.less k' then (k, v) :: (k', v') :: rest
    else if k'.less k then (k', v') :: mapInsert k v rest
    else (k', v) :: rest

/-- State of `class DCEL`: the three owned collections, the face loops read
from the input and the twin-pairing map. -/
structure DCEL where
  vertices : List Vertex
  faces : List Face
  halfEdges : List HalfEdge
  faceVertexIndices : List (List Int)
  edgeMap : List (EdgeKey × (Option Nat × Option Nat))
deriving DecidableEq, Repr

namespace DCEL

/-- Conversion `DCEL::inputToInternal`, an `int` subtraction. -/
def inputToInternal (inputIndex : Int) : Int := wrap32 (inputIndex - 1)

/-- Conversion `DCEL::internalToOutput`, an `int` addition. -/
def internalToOutput (internalIndex : Int) : Int := wrap32 (internalIndex + 1)

def getVertexCount (d : DCEL) : Nat := d.vertices.length
def getFaceCount (d : DCEL) : Nat := d.faces.length
def getHalfEdgeCount (d : DCEL) : Nat := d.halfEdges.length
def getEdgeCount (d : DCEL) : Nat := d.halfEdges.length / 2

/-- Dereference of a `HalfEdge*`: `none` for `nullptr` (and for a position
outside the collection, which no pointer of the source can hold). -/
def heAt (d : DCEL) (r : Option Nat) : Option HalfEdge :=
  match r with
  | none => none
  | some i => d.halfEdges[i]?

/-- Dereference of a `Vertex*`. -/
def vertexAt (d : DCEL) (r : Option Nat) : Option Vertex :=
  match r with
  | none => none
  | some i => d.vertices[i]?

/-- Dereference of a `Face*`. -/
def faceAt (d : DCEL) (r : Option Nat) : Option Face :=
  match r with
  | none => none
  | some i => d.faces[i]?

/-- Method `HalfEdge::destination`: `twin ? twin->origin : nullptr`. -/
def destination (d : DCEL) (he : HalfEdge) : Option Nat :=
  match d.heAt he.twin with
  | some tw => tw.origin
  | none => none

/-- Method `HalfEdge::getSegmentStart`. -/
def getSegmentStart (d : DCEL) (he : HalfEdge) : Point :=
  match d.vertexAt he.origin with
  | some v => v.position
  | none => ⟨0, 0⟩

/-- Method `HalfEdge::getSegmentEnd`. -/
def getSegmentEnd (d : DCEL) (he : HalfEdge) : Point :=
  match d.vertexAt (d.destination he) with
  | some v => v.position
  | none => ⟨0, 0⟩

/-- Update of the half-edge record at position `i`. -/
def modifyHalfEdge (d : DCEL) (i : Nat) (f : HalfEdge → HalfEdge) : DCEL :=
  match d.halfEdges[i]? with
  | some he => { d with halfEdges := d.halfEdges.set i (f he) }
  | none => d

/-! ## Builder (`DCEL::createHalfEdges`, `DCEL::linkHalfEdgeChains`) -/

/-- Body of the inner loop of `createHalfEdges` for the pair `(fromIdx, toIdx)`
of face `faceIdx`. The half-edge counter `halfEdgeIndex` of the source always
equals `halfEdges.size()`. -/
def createHalfEdge (faceIdx : Nat) (fromIdx toIdx : Int) (d : DCEL) : DCEL :=
  if fromIdx < 0 ∨ fromIdx ≥ (d.vertices.length : Int) ∨
     toIdx < 0 ∨ toIdx ≥ (d.vertices.length : Int) then d
  else
    let key := EdgeKey.mk2 fromIdx toIdx
    let hePtr := d.halfEdges.length
    let halfEdge : HalfEdge :=
      { index := (d.halfEdges.length : Int), origin := some fromIdx.toNat, twin := none,
        incidentFace := some faceIdx, next := none, prev := none }
    let vertices :=
      match d.vertices[fromIdx.toNat]? with
      | some v =>
        if v.incidentEdge = none then
          d.vertices.set fromIdx.toNat { v with incidentEdge := some hePtr }
        else d.vertices
      | none => d.vertices
    let faces :=
      match d.faces[faceIdx]? with
      | some f =>
        if f.outerComponent = none then
          d.faces.set faceIdx { f with outerComponent := some hePtr }
        else d.faces
      | none => d.faces
    let halfEdges := d.halfEdges ++ [halfEdge]
    let edgeMap :=
      match mapFind key d.edgeMap with
      | none => mapInsert key (some hePtr, none) d.edgeMap
      | some edgePair =>
        let firstOriginIndex : Option Int :=
          match d.heAt edgePair.1 with
          | some fst =>
            match d.vertexAt fst.origin with
            | some v => some v.index
            | none => none
          | none => none
        if firstOriginIndex = some fromIdx then
          mapInsert key (edgePair.1, some hePtr) d.edgeMap
        else
          mapInsert key (some hePtr, edgePair.1) d.edgeMap
    { d with vertices := vertices, faces := faces, halfEdges := halfEdges, edgeMap := edgeMap }

/-- Body of the outer loop of `createHalfEdges` for face `faceIdx`. -/
def createFaceHalfEdges (d : DCEL) (faceIdx : Nat) : DCEL :=
  let faceVertices := d.faceVertexIndices.getD faceIdx []
  let numVertices := faceVertices.length
  if numVertices < 3 then d
  else
    (List.range numVertices).foldl
      (fun s i =>
        createHalfEdge faceIdx (faceVertices.getD i 0)
          (faceVertices.getD ((i + 1) % numVertices) 0) s)
      d

/-- Body of the twin-linking loop of `createHalfEdges` for one map entry. -/
def linkTwins (d : DCEL) (entry : EdgeKey × (Option Nat × Option Nat)) : DCEL :=
  match entry.2.1, entry.2.2 with
  | some fst, some snd =>
    (d.modifyHalfEdge fst (fun he => { he with twin := some snd })).modifyHalfEdge snd
      (fun he => { he with twin := some fst })
  | _, _ => d

/-- Embedding of `DCEL::createHalfEdges`: the state after it, and its result. -/
def createHalfEdges (d : DCEL) : DCEL × Bool :=
  let s := (List.range d.faces.length).foldl createFaceHalfEdges d
  (s.edgeMap.foldl linkTwins s, true)

/-- Search loop of `linkHalfEdgeChains`: the first half-edge of face `face`
whose origin is `targetVertex`. -/
def findNext (d : DCEL) (face : Nat) (targetVertex : Option Nat) : Option Nat :=
  d.halfEdges.findIdx? (fun he => decide (he.incidentFace = some face ∧ he.origin = targetVertex))

/-- The call `current->destination()` for the half-edge at position `current`. -/
def destinationAt (d : DCEL) (current : Nat) : Option Nat :=
  match d.heAt (some current) with
  | some he => d.destination he
  | none => none

/-- Body of the `do ... while` loop of `linkHalfEdgeChains` for face `face`
started at `start`: the state after it, and the new `current` when the tests
`current && current != start` of the loop condition hold. -/
def walkStep (face start current : Nat) (d : DCEL) : DCEL × Option Nat :=
  let next := findNext d face (destinationAt d current)
  let d1 := d.modifyHalfEdge current (fun he => { he with next := next })
  match next with
  | none => (d1, none)
  | some nx =>
    let d2 := d1.modifyHalfEdge nx (fun he => { he with prev := some current })
    if nx = start then (d2, none) else (d2, some nx)

/-- The `do ... while` loop of `linkHalfEdgeChains` for face `face` started at
`start`. The argument `remaining` is `halfEdges.size() - faceEdges.size()` on
entry of the iteration, so the test `faceEdges.size() < halfEdges.size()` after
the `push_back` holds when it is at least 2. -/
def walkFace (face start : Nat) (remaining current : Nat) (d : DCEL) : DCEL :=
  match remaining, walkStep face start current d with
  | r + 2, (d2, some nx) => walkFace face start (r + 1) nx d2
  | _, (d2, _) => d2

/-- Body of the loop over the faces of `linkHalfEdgeChains`. -/
def linkFaceChain (d : DCEL) (faceIdx : Nat) : DCEL :=
  match d.faces[faceIdx]? with
  | none => d
  | some face =>
    match face.outerComponent with
    | none => d
    | some start => walkFace faceIdx start d.halfEdges.length start d

/-- Embedding of `DCEL::linkHalfEdgeChains`. -/
def linkHalfEdgeChains (d : DCEL) : DCEL :=
  (List.range d.faces.length).foldl linkFaceChain d

/-- Embedding of `DCEL::constructDCEL`: the state after it, and its result. -/
def constructDCEL (d : DCEL) : DCEL × Bool :=
  let r := createHalfEdges d
  if r.2 = false then (r.1, false)
  else (linkHalfEdgeChains r.1, true)

/-- The reading loops of `DCEL::loadFromInput` on an input that parsed:
`points` are the vertex rows and `loops` the face records with their 1-based
indices. -/
def readInput (points : List Point) (loops : List (List Int)) : DCEL :=
  { vertices := points.enum.map
      (fun p => { position := p.2, index := (p.1 : Int), incidentEdge := none }),
    faces := loops.enum.map (fun p => { index := (p.1 : Int), outerComponent := none }),
    halfEdges := [],
    faceVertexIndices := loops.map (fun l => l.map inputToInternal),
    edgeMap := [] }

/-- Embedding of `DCEL::loadFromInput` on an input that parsed. -/
def loadFromInput (points : List Point) (loops : List (List Int)) : DCEL × Bool :=
  constructDCEL (readInput points loops)

/-! ## Validator (`DCEL::isValidDCEL` and its three checks) -/

/-- Body of the loop of `hasOpenEdges` for the half-edge `he` stored at
position `i`: `true` is `return true`, `false` goes on to the next one. -/
def openAt (d : DCEL) (i : Nat) (he : HalfEdge) : Bool :=
  match d.heAt he.twin with
  | none => true
  | some tw =>
    if tw.twin ≠ some i then true
    else if he.incidentFace = tw.incidentFace then true
    else false

/-- Embedding of `DCEL::hasOpenEdges`. -/
def hasOpenEdges (d : DCEL) : Bool :=
  d.halfEdges.enum.any (fun p => openAt d p.1 p.2)

/-- Body of the counting loop of `isNonPlanarSubdivision`: `edgeFaceCount[key]++`
for a half-edge with an origin and a destination, `continue` otherwise. -/
def countEdge (d : DCEL) (edgeFaceCount : List (EdgeKey × Int)) (he : HalfEdge) :
    List (EdgeKey × Int) :=
  match d.vertexAt he.origin, d.vertexAt (d.destination he) with
  | some o, some t =>
    let key := EdgeKey.mk2 o.index t.index
    mapInsert key ((mapFind key edgeFaceCount).getD 0 + 1) edgeFaceCount
  | _, _ => edgeFaceCount

/-- The map `edgeFaceCount` after the counting loop of `isNonPlanarSubdivision`. -/
def edgeFaceCount (d : DCEL) : List (EdgeKey × Int) :=
  d.halfEdges.foldl (countEdge d) []

/-- Embedding of `DCEL::isNonPlanarSubdivision`. -/
def isNonPlanarSubdivision (d : DCEL) : Bool :=
  (edgeFaceCount d).any (fun entry => decide (entry.2 ≠ 2))

/-- Body of the inner loop of `hasIntersectingFaces` for the half-edges `he1`
at position `i` and `he2` at position `j`: `true` is `return true`, `false`
goes on to the next pair. -/
def intersectAt (d : DCEL) (i j : Nat) (he1 he2 : HalfEdge) : Bool :=
  if he1.twin = some j ∨ he2.twin = some i then false
  else if he1.origin = he2.origin then false
  else if he1.origin = d.destination he2 then false
  else if d.destination he1 = he2.origin then false
  else if d.destination he1 = d.destination he2 then false
  else segmentsIntersect (d.getSegmentStart he1) (d.getSegmentEnd he1)
         (d.getSegmentStart he2) (d.getSegmentEnd he2)

/-- Embedding of `DCEL::hasIntersectingFaces`: the pairs `i < j` in the order
of the two nested loops. -/
def hasIntersectingFaces (d : DCEL) : Bool :=
  d.halfEdges.enum.any (fun p =>
    d.halfEdges.enum.any (fun q => decide (p.1 < q.1) && intersectAt d p.1 q.1 p.2 q.2))

/-- Embedding of `DCEL::isValidDCEL`: its result and the lines it prints. -/
def isValidDCEL (d : DCEL) : Bool × List String :=
  if hasOpenEdges d then (false, ["aberta"])
  else if isNonPlanarSubdivision d then (false, ["não subdivisão planar"])
  else if hasIntersectingFaces d then (false, ["superposta"])
  else (true, [])

/-! ## Emitter (`DCEL::printDCEL`) and driver (`main`) -/

/-- The `ptr ? internalToOutput(ptr->index) : 1` of `printDCEL`. -/
def outputIndex (index : Option Int) : Int :=
  match index with
  | some i => internalToOutput i
  | none => 1

/-- Embedding of `DCEL::printDCEL`: the rows printed, each the list of its numbers. -/
def printDCEL (d : DCEL) : List (List Int) :=
  [[(getVertexCount d : Int), (getEdgeCount d : Int), (getFaceCount d : Int)]] ++
  d.vertices.map (fun vertex =>
    [vertex.position.x, vertex.position.y,
     outputIndex ((d.heAt vertex.incidentEdge).map (fun he => he.index))]) ++
  d.faces.map (fun face =>
    [outputIndex ((d.heAt face.outerComponent).map (fun he => he.index))]) ++
  d.halfEdges.map (fun he =>
    [outputIndex ((d.vertexAt he.origin).map (fun v => v.index)),
     outputIndex ((d.heAt he.twin).map (fun t => t.index)),
     outputIndex ((d.faceAt he.incidentFace).map (fun f => f.index)),
     outputIndex ((d.heAt he.next).map (fun n => n.index)),
     outputIndex ((d.heAt he.prev).map (fun n => n.index))])

/-- Embedding of `main` on an input that parsed: the diagnostic lines of the
validator and, when it accepts, the rows of `printDCEL`. -/
def main (points : List Point) (loops : List (List Int)) : List String × Option (List (List Int)) :=
  let r := loadFromInput points loops
  if r.2 = false then (["erro: falha ao carregar entrada"], none)
  else
    let v := isValidDCEL r.1
    if v.1 then (v.2, some (printDCEL r.1)) else (v.2, none)

end DCEL

/-! ## Words of the specification -/

/-- The cross product `(b - a) x (c - b)` over the integers. -/
def crossProduct (a b c : Point) : Int :=
  (b.x - a.x) * (c.y - b.y) - (b.y - a.y) * (c.x - b.x)

/-- The exact value of the expression `orientation` evaluates. -/
def exactVal (a b c : Point) : Int :=
  (b.y - a.y) * (c.x - b.x) - (b.x - a.x) * (c.y - b.y)

/-- A point whose coordinates are `int` values. -/
def Point.isInt32 (p : Point) : Prop :=
  -2147483648 ≤ p.x ∧ p.x ≤ 2147483647 ∧ -2147483648 ≤ p.y ∧ p.y ≤ 2147483647

/-- A point whose coordinates are below `2^30` in absolute value: no difference
of two such coordinates leaves the range of `int`. -/
def Point.small (p : Point) : Prop :=
  -1073741824 < p.x ∧ p.x < 1073741824 ∧ -1073741824 < p.y ∧ p.y < 1073741824

instance (p : Point) : Decidable p.isInt32 := by unfold Point.isInt32; infer_instance
instance (p : Point) : Decidable p.small := by unfold Point.small; infer_instance

/-! ## The pairs the builder visits -/

/-- The pairs `(fromIdx, toIdx)` the inner loop of `createHalfEdges` visits for
one face loop, in order: none for a loop of fewer than 3 entries. -/
def loopPairs (loop : List Int) : List (Int × Int) :=
  if loop.length < 3 then []
  else (List.range loop.length).map
    (fun i => (loop.getD i 0, loop.getD ((i + 1) % loop.length) 0))

/-- The triples `(faceIdx, fromIdx, toIdx)` the two nested loops of
`createHalfEdges` visit, in order. -/
def visitedPairs (faceCount : Nat) (loops : List (List Int)) : List (Nat × Int × Int) :=
  (List.range faceCount).flatMap
    (fun f => (loopPairs (loops.getD f [])).map (fun p => (f, p.1, p.2)))

/-- The range test of `createHalfEdges` passes for the triple. -/
def pairInRange (vertexCount : Nat) (p : Nat × Int × Int) : Bool :=
  decide (0 ≤ p.2.1 ∧ p.2.1 < (vertexCount : Int) ∧ 0 ≤ p.2.2 ∧ p.2.2 < (vertexCount : Int))

/-- The triples for which `createHalfEdges` creates a half-edge, in order of
creation. -/
def createdPairs (vertexCount faceCount : Nat) (loops : List (List Int)) :
    List (Nat × Int × Int) :=
  (visitedPairs faceCount loops).filter (pairInRange vertexCount)

/-- The map key of the half-edge created for a triple. -/
def pairKey (p : Nat × Int × Int) : EdgeKey := EdgeKey.mk2 p.2.1 p.2.2

/-- One iteration of the inner loop of `createHalfEdges` on a triple. -/
def createStep (d : DCEL) (p : Nat × Int × Int) : DCEL :=
  DCEL.createHalfEdge p.1 p.2.1 p.2.2 d

/-! ## Invariants of the builder -/

/-- Entries in strictly increasing key order, as `std::map` keeps them. -/
def MapSorted {V : Type} (m : List (EdgeKey × V)) : Prop :=
  m.Pairwise (fun a b => a.1.less b.1 = true)

/-- The record `createHalfEdges` pushes for a triple when `i` half-edges exist. -/
def newHalfEdge (i : Nat) (p : Nat × Int × Int) : HalfEdge :=
  { index := (i : Int), origin := some p.2.1.toNat, twin := none, incidentFace := some p.1,
    next := none, prev := none }

/-- What the entry of `edgeMap` for key `k` holds when `ks` lists the keys of
the half-edges created so far, by position: no entry when no half-edge has the
key, the only half-edge of the key as `first`, or two different half-edges of
the key as `first` and `second`. -/
def EntryOK (ks : List EdgeKey) (k : EdgeKey) : Option (Option Nat × Option Nat) → Prop
  | none => k ∉ ks
  | some (some a, none) => ∀ i, ks[i]? = some k ↔ i = a
  | some (some a, some b) => a ≠ b ∧ ks[a]? = some k ∧ ks[b]? = some k
  | some (none, _) => False

/-- State of the builder after the creation loops have created the half-edges
of the triples `ps`. -/
structure Phase1 (d : DCEL) (ps : List (Nat × Int × Int)) : Prop where
  halfEdges : d.halfEdges = ps.enum.map (fun e => newHalfEdge e.1 e.2)
  sorted : MapSorted d.edgeMap
  entry : ∀ k, EntryOK (ps.map pairKey) k (mapFind k d.edgeMap)

/-- The twin the linking loop of `createHalfEdges` gives the half-edge at
position `i` when it handles a map value: the other half-edge of a complete
pair holding `i`. -/
def twinFromEntry (i : Nat) (v : Option Nat × Option Nat) : Option Nat :=
  match v with
  | (some a, some b) => if i = a then some b else if i = b then some a else none
  | _ => none

/-- The twin of the half-edge at position `i` by the first map entry holding it. -/
def lookupTwin (m : List (EdgeKey × (Option Nat × Option Nat))) (i : Nat) : Option Nat :=
  m.findSome? (fun e => twinFromEntry i e.2)

/-- Assignment of `twin` when a twin is given. -/
def setTwin (t : Option Nat) (he : HalfEdge) : HalfEdge :=
  match t with
  | some j => { he with twin := some j }
  | none => he

/-- State of the builder after `constructDCEL` has created the half-edges of
the triples `ps`: half-edge `i` is the one of the `i`-th triple and its twin is
the one the map gives. -/
structure Built (d : DCEL) (ps : List (Nat × Int × Int)) : Prop where
  length : d.halfEdges.length = ps.length
  he : ∀ (i : Nat) (p : Nat × Int × Int), ps[i]? = some p →
    ∃ he : HalfEdge, d.halfEdges[i]? = some he ∧ he.index = (i : Int) ∧
    he.origin = some p.2.1.toNat ∧ he.incidentFace = some p.1 ∧
    he.twin = lookupTwin d.edgeMap i
  sorted : MapSorted d.edgeMap
  entry : ∀ k, EntryOK (ps.map pairKey) k (mapFind k d.edgeMap)

/-- A property of the DCEL that the assignments to `next` and `prev` keep. -/
def ChainStable (P : DCEL → Prop) : Prop :=
  (∀ d i nx, P d → P (d.modifyHalfEdge i (fun he => { he with next := nx }))) ∧
  (∀ d i pv, P d → P (d.modifyHalfEdge i (fun he => { he with prev := pv })))

/-- The key `isNonPlanarSubdivision` counts a half-edge under: the pair of the
vertex indices of its origin and of its destination, `none` when the loop
skips the half-edge because it has no origin or no destination. -/
def countedKey (d : DCEL) (he : HalfEdge) : Option EdgeKey :=
  match d.vertexAt he.origin, d.vertexAt (d.destination he) with
  | some o, some t => some (EdgeKey.mk2 o.index t.index)
  | _, _ => none

/-- The keys `isNonPlanarSubdivision` counts, one per half-edge it does not skip. -/
def countedKeys (d : DCEL) : List EdgeKey :=
  d.halfEdges.filterMap (countedKey d)

/-- Two numbers have the same sign (both zero, both positive or both negative). -/
def SameSign (x y : ℝ) : Prop := (x = 0 ∧ y = 0) ∨ (0 < x ∧ 0 < y) ∨ (x < 0 ∧ y < 0)

/-- The point `(e, f)` lies in the bounding box of `(a, b)` and `(c, d)`. -/
def InBox (a b e f c d : ℝ) : Prop :=
  (e ≤ a ∨ e ≤ c) ∧ (a ≤ e ∨ c ≤ e) ∧ (f ≤ b ∨ f ≤ d) ∧ (b ≤ f ∨ d ≤ f)

/-- The closed segments from `p1` to `q1` and from `p2` to `q2` have a point of
the plane in common. -/
def SegmentsMeet (p1 q1 p2 q2 : Point) : Prop :=
  ∃ s t : ℝ, 0 ≤ s ∧ s ≤ 1 ∧ 0 ≤ t ∧ t ≤ 1 ∧
    (p1.x : ℝ) + s * ((q1.x : ℝ) - (p1.x : ℝ)) = (p2.x : ℝ) + t * ((q2.x : ℝ) - (p2.x : ℝ)) ∧
    (p1.y : ℝ) + s * ((q1.y : ℝ) - (p1.y : ℝ)) = (p2.y : ℝ) + t * ((q2.y : ℝ) - (p2.y : ℝ))

/-! ## The exact state of the builder -/

/-- The half-edges of key `k` among the created pairs, in order of creation:
the position and the `fromIdx` of each. -/
def occurrences (ps : List (Nat × Int × Int)) (k : EdgeKey) : List (Nat × Int) :=
  (ps.enum.filter (fun e => decide (pairKey e.2 = k))).map (fun e => (e.1, e.2.2.1))

/-- The update of a map entry by `createHalfEdges` when the half-edge at
position `x.1` with `fromIdx = x.2` arrives: the entry holds `first` with the
vertex index of its origin, and `second`. -/
def slotStep (s : Option ((Nat × Int) × Option Nat)) (x : Nat × Int) :
    Option ((Nat × Int) × Option Nat) :=
  match s with
  | none => some (x, none)
  | some (fst, _) => if fst.2 = x.2 then some (fst, some x.1) else some (x, some fst.1)

/-- The map entry of a key after its half-edges `occ` arrived in order. -/
def twinSlots (occ : List (Nat × Int)) : Option ((Nat × Int) × Option Nat) :=
  occ.foldl slotStep none

/-- The pair `(first, second)` stored for an entry. -/
def slotsEntry (s : Option ((Nat × Int) × Option Nat)) : Option (Option Nat × Option Nat) :=
  s.map (fun t => (some t.1.1, t.2))

/-- The vertex records, the face records and the map entries after the
half-edges of the triples `ps` were created from the input `points`, `loops`:
every vertex and face keeps its position and index and refers to the first
half-edge created for it, and every map entry holds the pair of its key. -/
structure RecordsOK (points : List Point) (loops : List (List Int))
    (ps : List (Nat × Int × Int)) (d : DCEL) : Prop where
  vertices : ∀ v : Nat, d.vertices[v]? = (points[v]?).map (fun pt =>
    { position := pt, index := (v : Int),
      incidentEdge := ps.findIdx? (fun p => decide (p.2.1.toNat = v)) })
  faces : ∀ f : Nat, d.faces[f]? = (loops[f]?).map (fun _ =>
    { index := (f : Int), outerComponent := ps.findIdx? (fun p => decide (p.1 = f)) })
  slots : ∀ k, mapFind k d.edgeMap = slotsEntry (twinSlots (occurrences ps k))

/-- State of the builder after the creation loops have created the half-edges
of the triples `ps` from the input `points`, `loops`. -/
structure Created (points : List Point) (loops : List (List Int)) (d : DCEL)
    (ps : List (Nat × Int × Int)) : Prop where
  phase1 : Phase1 d ps
  inRange : ∀ p ∈ ps, pairInRange points.length p = true ∧ p.1 < loops.length
  records : RecordsOK points loops ps d
  loopsEq : d.faceVertexIndices = loops.map (fun l => l.map DCEL.inputToInternal)

/-- State of the DCEL `constructDCEL` leaves for the input `points`, `loops`,
with `ps` the created triples: the half-edges and their twins (`Built`), the
vertex and face records, and the map entries. -/
structure Constructed (points : List Point) (loops : List (List Int)) (d : DCEL)
    (ps : List (Nat × Int × Int)) : Prop where
  built : Built d ps
  inRange : ∀ p ∈ ps, pairInRange points.length p = true ∧ p.1 < loops.length
  records : RecordsOK points loops ps d

/-! ## Half-edge creation in the words of the specification -/

/-- The consecutive pairs `(from, to)` of a loop, wrapping from the last entry
to the first, in the words of the specification. -/
def consecutivePairs (loop : List Int) : List (Int × Int) :=
  loop.zip (loop.rotate 1)

/-- The half-edges the specification says are created: in order of faces and
then of position in the loop, the consecutive pairs of the loops having at
least 3 entries, for which both indices lie in `[0, vertexCount)`, each with
the index of its face. -/
def specHalfEdges (vertexCount : Nat) (loops : List (List Int)) : List (Nat × Int × Int) :=
  loops.enum.flatMap (fun e =>
    if 3 ≤ e.2.length then
      ((consecutivePairs e.2).filter (fun q =>
        decide (0 ≤ q.1 ∧ q.1 < (vertexCount : Int) ∧ 0 ≤ q.2 ∧ q.2 < (vertexCount : Int)))).map
        (fun q => (e.1, q.1, q.2))
    else [])

/-! ## The creation loops with their accesses checked -/

/-- Body of the inner loop of `createHalfEdges` with its accesses checked:
`none` when `vertices[fromIdx]` or `faces[faceIdx]` is out of range, or when
the pointer `first` of the map entry or the origin of its half-edge does not
point to a record; otherwise the state `createHalfEdge` gives. -/
def createHalfEdgeChecked (faceIdx : Nat) (fromIdx toIdx : Int) (d : DCEL) : Option DCEL :=
  if fromIdx < 0 ∨ fromIdx ≥ (d.vertices.length : Int) ∨
     toIdx < 0 ∨ toIdx ≥ (d.vertices.length : Int) then some d
  else
    match d.vertices[fromIdx.toNat]?, d.faces[faceIdx]? with
    | some _, some _ =>
      match mapFind (EdgeKey.mk2 fromIdx toIdx) d.edgeMap with
      | none => some (DCEL.createHalfEdge faceIdx fromIdx toIdx d)
      | some edgePair =>
        match d.heAt edgePair.1 with
        | some fst =>
          match d.vertexAt fst.origin with
          | some _ => some (DCEL.createHalfEdge faceIdx fromIdx toIdx d)
          | none => none
        | none => none
    | _, _ => none

/-- Body of the outer loop of `createHalfEdges` with its accesses checked:
`none` when `faceVertexIndices[faceIdx]`, `faceVertices[i]` or
`faceVertices[(i + 1) % numVertices]` is out of range. -/
def createFaceHalfEdgesChecked (d : DCEL) (faceIdx : Nat) : Option DCEL :=
  match d.faceVertexIndices[faceIdx]? with
  | none => none
  | some faceVertices =>
    if faceVertices.length < 3 then some d
    else
      (List.range faceVertices.length).foldlM
        (fun s i =>
          match faceVertices[i]?, faceVertices[(i + 1) % faceVertices.length]? with
          | some fromIdx, some toIdx => createHalfEdgeChecked faceIdx fromIdx toIdx s
          | _, _ => none)
        d

/-- The creation loops of `createHalfEdges` with their accesses checked. -/
def createLoopsChecked (d : DCEL) : Option DCEL :=
  (List.range d.faces.length).foldlM createFaceHalfEdgesChecked d

/-! ## Crossing segments -/

/-- The open segments from `p1` to `q1` and from `p2` to `q2` cross: they have
a common point that is interior to both. -/
def CrossInside (p1 q1 p2 q2 : Point) : Prop :=
  ∃ s t : ℝ, 0 < s ∧ s < 1 ∧ 0 < t ∧ t < 1 ∧
    (p1.x : ℝ) + s * ((q1.x : ℝ) - (p1.x : ℝ)) = (p2.x : ℝ) + t * ((q2.x : ℝ) - (p2.x : ℝ)) ∧
    (p1.y : ℝ) + s * ((q1.y : ℝ) - (p1.y : ℝ)) = (p2.y : ℝ) + t * ((q2.y : ℝ) - (p2.y : ℝ))

/-! ## The chain linking on a built DCEL -/

/-- The vertex `current->destination()` points to for the half-edge at
position `c`, read from the created triples `ps` and the map `m`: the origin
of the twin the map gives that half-edge. -/
def destOf (ps : List (Nat × Int × Int)) (m : List (EdgeKey × (Option Nat × Option Nat)))
    (c : Nat) : Option Nat :=
  match ps[c]? with
  | none => none
  | some _ =>
    match lookupTwin m c with
    | none => none
    | some t => (ps[t]?).map (fun p => p.2.1.toNat)

/-- The half-edge the search loop of `linkHalfEdgeChains` finds for the
half-edge at position `c` of face `face`, read from the created triples. -/
def nextOf (ps : List (Nat × Int × Int)) (m : List (EdgeKey × (Option Nat × Option Nat)))
    (face c : Nat) : Option Nat :=
  ps.findIdx? (fun p => decide (p.1 = face ∧ some p.2.1.toNat = destOf ps m c))

/-- The field `next` of the half-edge at position `i`. -/
def nextAt (d : DCEL) (i : Nat) : Option Nat := (d.halfEdges[i]?).bind (fun he => he.next)

/-- The field `prev` of the half-edge at position `i`. -/
def prevAt (d : DCEL) (i : Nat) : Option Nat := (d.halfEdges[i]?).bind (fun he => he.prev)

/-- The half-edges at the positions `base`, ..., `base + k - 1` are those of
face `f`, and the search loop of `linkHalfEdgeChains` finds for each of them
the one that follows it cyclically. -/
structure FaceBlock (ps : List (Nat × Int × Int))
    (m : List (EdgeKey × (Option Nat × Option Nat))) (f base k : Nat) : Prop where
  len : base + k ≤ ps.length
  face : ∀ i p, ps[i]? = some p → (p.1 = f ↔ (base ≤ i ∧ i < base + k))
  next : ∀ i, i < k → nextOf ps m f (base + i) = some (base + (i + 1) % k)

/-- The half-edges at the positions `base + j` for `j < upto` have their
`next` set to the half-edge that follows cyclically in the block of length `k`,
and that one has its `prev` set back. -/
def Cycle (d : DCEL) (base k upto : Nat) : Prop :=
  ∀ j, j < upto → nextAt d (base + j) = some (base + (j + 1) % k) ∧
    prevAt d (base + (j + 1) % k) = some (base + j)

/-- State of the builder while `linkHalfEdgeChains` runs: the half-edges of
the triples `ps` with their twins, the vertex and face records of the creation
loops, and the map `m`. -/
structure Linking (points : List Point) (loops : List (List Int))
    (ps : List (Nat × Int × Int)) (m : List (EdgeKey × (Option Nat × Option Nat)))
    (d : DCEL) : Prop where
  built : Built d ps
  records : RecordsOK points loops ps d
  edgeMap : d.edgeMap = m

/-- A property of the DCEL that the walk of `linkHalfEdgeChains` over face `g`
keeps: it holds on built states only, and it is kept when `next` of a
half-edge of face `g` is assigned a half-edge of face `g` or nothing, and when
`prev` of a half-edge of face `g` is assigned a half-edge of face `g`. -/
def WalkStable (P : DCEL → Prop) (points : List Point) (loops : List (List Int))
    (ps : List (Nat × Int × Int)) (g : Nat) : Prop :=
  (∀ d, P d → Built d ps ∧ RecordsOK points loops ps d) ∧
  (∀ d i nx, P d → (∃ p, ps[i]? = some p ∧ p.1 = g) →
    (∀ j, nx = some j → ∃ p, ps[j]? = some p ∧ p.1 = g) →
    P (d.modifyHalfEdge i (fun he => { he with next := nx }))) ∧
  (∀ d i c, P d → (∃ p, ps[i]? = some p ∧ p.1 = g) →
    (∃ p, ps[c]? = some p ∧ p.1 = g) →
    P (d.modifyHalfEdge i (fun he => { he with prev := some c })))

/-- Every `next` and every `prev` that is set points to a half-edge. -/
def LinksInRange (n : Nat) (d : DCEL) : Prop :=
  ∀ i, (∀ j, nextAt d i = some j → j < n) ∧ (∀ j, prevAt d i = some j → j < n)

/-- The half-edge reached from the reference `r` by following `next` `n`
times; `none` once a `next` is unset. -/
def followNext (d : DCEL) : Nat → Option Nat → Option Nat
  | 0, r => r
  | n + 1, r => (followNext d n r).bind (nextAt d)

/-! ## The codes of `printDCEL` -/

/-- The number `printDCEL` prints for a reference: the position of the record
plus 1, and 1 for a reference that is unset. -/
def refCode (r : Option Nat) : Int :=
  match r with
  | some i => (i : Int) + 1
  | none => 1

/-! ## The links and the walk of the chain linking -/

/-- The links `linkHalfEdgeChains` has set so far are those of its search
loop: a `next` that is set is the half-edge the search loop finds for the
half-edge, and a `prev` that is set points to a half-edge whose `next` points
back. -/
def LinksExact (ps : List (Nat × Int × Int)) (m : List (EdgeKey × (Option Nat × Option Nat)))
    (d : DCEL) : Prop :=
  (∀ i p, ps[i]? = some p → nextAt d i = none ∨ nextAt d i = nextOf ps m p.1 i) ∧
  (∀ e c, prevAt d e = some c → nextAt d c = some e)

/-- The `do ... while` loop of `linkHalfEdgeChains` with its vector
`faceEdges`: the state and `faceEdges` at the exit of the loop. Every iteration
pushes `current`; `remaining` is as in `walkFace`. -/
def walkFaceEdges (face start : Nat) (remaining current : Nat) (d : DCEL)
    (faceEdges : List Nat) : DCEL × List Nat :=
  match remaining, DCEL.walkStep face start current d with
  | r + 2, (d2, some nx) => walkFaceEdges face start (r + 1) nx d2 (faceEdges ++ [current])
  | _, (d2, _) => (d2, faceEdges ++ [current])

/-! ## The overlap condition in the words of the specification -/

/-- Two created triples share no endpoint vertex, the endpoints of a triple
being its `from` and its `to` vertex: not the same origin, the origin of
neither the destination of the other, not the same destination. -/
def shareNoEndpoint (p q : Nat × Int × Int) : Bool :=
  decide (p.2.1 ≠ q.2.1 ∧ p.2.1 ≠ q.2.2 ∧ p.2.2 ≠ q.2.1 ∧ p.2.2 ≠ q.2.2)

/-- The segments of two created triples, each from the position of `from` to
the position of `to`, make `segmentsIntersect` return true. -/
def pairSegmentsIntersect (points : List Point) (p q : Nat × Int × Int) : Bool :=
  segmentsIntersect (points.getD p.2.1.toNat ⟨0, 0⟩) (points.getD p.2.2.toNat ⟨0, 0⟩)
    (points.getD q.2.1.toNat ⟨0, 0⟩) (points.getD q.2.2.toNat ⟨0, 0⟩)

/-- The condition of the specification for an overlap verdict: some two created
half-edges share no endpoint vertex and their segments intersect. Two such
half-edges are distinct and are not twins, since a twin has the same two
endpoints. -/
def specOverlap (points : List Point) (ps : List (Nat × Int × Int)) : Bool :=
  ps.any (fun p => ps.any (fun q => shareNoEndpoint p q && pairSegmentsIntersect points p q))

/-! ## Geometry kernel: lemmas -/

theorem wrap32_eq (z : Int) (h1 : -2147483648 ≤ z) (h2 : z < 2147483648) : wrap32 z = z := by
  unfold wrap32; omega

theorem wrap64_eq (z : Int) (h1 : -9223372036854775808 ≤ z) (h2 : z < 9223372036854775808) :
    wrap64 z = z := by
  unfold wrap64; omega

theorem mul_bound (u v : Int) (hu1 : -2147483648 < u) (hu2 : u < 2147483648)
    (hv1 : -2147483648 < v) (hv2 : v < 2147483648) :
    -4611686018427387904 < u * v ∧ u * v < 4611686018427387904 := by
  have hu : |u| ≤ 2147483647 := abs_le.mpr ⟨by omega, by omega⟩
  have hv : |v| ≤ 2147483647 := abs_le.mpr ⟨by omega, by omega⟩
  have h : |u * v| ≤ 2147483647 * 2147483647 := by
    rw [abs_mul]; exact mul_le_mul hu hv (abs_nonneg v) (by norm_num)
  have h2 := abs_le.mp h
  constructor <;> omega

/-- Without overflow the value `orientation` tests is the exact one. -/
theorem orientationVal_eq (a b c : Point) (ha : a.small) (hb : b.small) (hc : c.small) :
    orientationVal a b c = exactVal a b c := by
  obtain ⟨a1, a2, a3, a4⟩ := ha
  obtain ⟨b1, b2, b3, b4⟩ := hb
  obtain ⟨c1, c2, c3, c4⟩ := hc
  unfold orientationVal exactVal
  rw [wrap32_eq (b.y - a.y) (by omega) (by omega), wrap32_eq (c.x - b.x) (by omega) (by omega),
    wrap32_eq (b.x - a.x) (by omega) (by omega), wrap32_eq (c.y - b.y) (by omega) (by omega)]
  have m1 := mul_bound (b.y - a.y) (c.x - b.x) (by omega) (by omega) (by omega) (by omega)
  have m2 := mul_bound (b.x - a.x) (c.y - b.y) (by omega) (by omega) (by omega) (by omega)
  rw [wrap64_eq ((b.y - a.y) * (c.x - b.x)) (by omega) (by omega),
    wrap64_eq ((b.x - a.x) * (c.y - b.y)) (by omega) (by omega)]
  exact wrap64_eq _ (by omega) (by omega)

theorem exactVal_eq_neg_cross (a b c : Point) : exactVal a b c = - crossProduct a b c := by
  unfold exactVal crossProduct; ring

/-- What `orientation` returns without overflow, by the sign of the cross
product `(b - a) x (c - b)`. -/
theorem orientation_by_cross (a b c : Point) (ha : a.small) (hb : b.small) (hc : c.small) :
    (orientation a b c = Orientation.COLINEAR ↔ crossProduct a b c = 0) ∧
    (orientation a b c = Orientation.ANTIHORARIO ↔ crossProduct a b c < 0) ∧
    (orientation a b c = Orientation.HORARIO ↔ 0 < crossProduct a b c) := by
  have h := orientationVal_eq a b c ha hb hc
  rw [exactVal_eq_neg_cross] at h
  unfold orientation
  simp only [h]
  refine ⟨?_, ?_, ?_⟩
  · split_ifs <;> simp <;> omega
  · split_ifs <;> simp <;> omega
  · split_ifs <;> simp <;> omega

/-! ## Orientation (C8, C9) -/

/-- C8: at the left turn `(0,0), (1,0), (1,1)`, where the cross product
`(b - a) x (c - b)` is `1 > 0`, `orientation` returns `HORARIO` (clockwise),
not `ANTIHORARIO` (counter-clockwise). -/
theorem orientation_left_turn_is_horario :
    crossProduct ⟨0, 0⟩ ⟨1, 0⟩ ⟨1, 1⟩ = 1 ∧
    orientation ⟨0, 0⟩ ⟨1, 0⟩ ⟨1, 1⟩ = Orientation.HORARIO := by
  decide

/-- C9: at `a = (0, -2^31)`, `b = (1, 2^31 - 1)`, `c = (2, 2^31 - 2)`, three
points with `int` coordinates, the exact value of the expression is `2^32`,
yet `orientation` returns `COLINEAR`: the difference `b.y - a.y` wraps in
`int` before it is widened. -/
theorem orientation_wraps_before_widening :
    Point.isInt32 ⟨0, -2147483648⟩ ∧ Point.isInt32 ⟨1, 2147483647⟩ ∧
    Point.isInt32 ⟨2, 2147483646⟩ ∧
    exactVal ⟨0, -2147483648⟩ ⟨1, 2147483647⟩ ⟨2, 2147483646⟩ = 4294967296 ∧
    orientation ⟨0, -2147483648⟩ ⟨1, 2147483647⟩ ⟨2, 2147483646⟩ = Orientation.COLINEAR := by
  decide

/-! ## Validator: order of the checks (C3) and closure check (C4) -/

/-- C3: `isValidDCEL` reports the first failing check in the order closure,
planarity, overlap: "aberta" exactly when the closure check fails, "não
subdivisão planar" exactly when closure passes and planarity fails,
"superposta" exactly when closure and planarity pass and overlap fails, valid
with no diagnostic exactly when all three pass; at most one line is printed. -/
theorem isValidDCEL_first_failing_check (d : DCEL) :
    (DCEL.isValidDCEL d = (false, ["aberta"]) ↔ DCEL.hasOpenEdges d = true) ∧
    (DCEL.isValidDCEL d = (false, ["não subdivisão planar"]) ↔
      DCEL.hasOpenEdges d = false ∧ DCEL.isNonPlanarSubdivision d = true) ∧
    (DCEL.isValidDCEL d = (false, ["superposta"]) ↔
      DCEL.hasOpenEdges d = false ∧ DCEL.isNonPlanarSubdivision d = false ∧
      DCEL.hasIntersectingFaces d = true) ∧
    (DCEL.isValidDCEL d = (true, []) ↔
      DCEL.hasOpenEdges d = false ∧ DCEL.isNonPlanarSubdivision d = false ∧
      DCEL.hasIntersectingFaces d = false) ∧
    ((DCEL.isValidDCEL d).1 = true ↔ DCEL.isValidDCEL d = (true, [])) ∧
    (DCEL.isValidDCEL d).2.length ≤ 1 := by
  unfold DCEL.isValidDCEL
  cases DCEL.hasOpenEdges d <;> cases DCEL.isNonPlanarSubdivision d <;>
    cases DCEL.hasIntersectingFaces d <;> simp

theorem openAt_eq_true (d : DCEL) (i : Nat) (he : HalfEdge) :
    DCEL.openAt d i he = true ↔
      (d.heAt he.twin = none ∨
        ∃ tw, d.heAt he.twin = some tw ∧ (tw.twin ≠ some i ∨ he.incidentFace = tw.incidentFace)) := by
  unfold DCEL.openAt
  cases h : d.heAt he.twin with
  | none => simp
  | some tw =>
    by_cases h1 : tw.twin = some i <;> by_cases h2 : he.incidentFace = tw.incidentFace <;>
      simp [h1, h2]

theorem enum_any_iff {α : Type} (l : List α) (f : Nat × α → Bool) :
    l.enum.any f = true ↔ ∃ i x, l[i]? = some x ∧ f (i, x) = true := by
  rw [List.any_eq_true]
  constructor
  · rintro ⟨⟨i, x⟩, hm, hf⟩
    exact ⟨i, x, (List.mk_mem_enum_iff_getElem?).mp hm, hf⟩
  · rintro ⟨i, x, hm, hf⟩
    exact ⟨(i, x), (List.mk_mem_enum_iff_getElem?).mpr hm, hf⟩

theorem hasOpenEdges_true_iff (d : DCEL) :
    DCEL.hasOpenEdges d = true ↔
      ∃ i he, d.halfEdges[i]? = some he ∧
        (d.heAt he.twin = none ∨
          ∃ tw, d.heAt he.twin = some tw ∧
            (tw.twin ≠ some i ∨ he.incidentFace = tw.incidentFace)) := by
  unfold DCEL.hasOpenEdges
  rw [enum_any_iff]
  constructor
  · rintro ⟨i, he, hm, hf⟩
    exact ⟨i, he, hm, (openAt_eq_true d i he).mp hf⟩
  · rintro ⟨i, he, hm, hf⟩
    exact ⟨i, he, hm, (openAt_eq_true d i he).mpr hf⟩

theorem hasOpenEdges_false_iff (d : DCEL) :
    DCEL.hasOpenEdges d = false ↔
      ∀ i he, d.halfEdges[i]? = some he →
        ∃ tw, d.heAt he.twin = some tw ∧ tw.twin = some i ∧
          he.incidentFace ≠ tw.incidentFace := by
  rw [← Bool.not_eq_true, hasOpenEdges_true_iff]
  constructor
  · intro h i he hm
    cases htw : d.heAt he.twin with
    | none => exact absurd ⟨i, he, hm, Or.inl htw⟩ h
    | some tw =>
      refine ⟨tw, rfl, ?_, ?_⟩
      · by_contra hc
        exact h ⟨i, he, hm, Or.inr ⟨tw, htw, Or.inl hc⟩⟩
      · intro hc
        exact h ⟨i, he, hm, Or.inr ⟨tw, htw, Or.inr hc⟩⟩
  · rintro h ⟨i, he, hm, hcase⟩
    obtain ⟨tw, htw, h1, h2⟩ := h i he hm
    rcases hcase with hn | ⟨tw2, htw2, hc⟩
    · rw [hn] at htw; cases htw
    · rw [htw2] at htw; cases htw
      rcases hc with hc | hc
      · exact hc h1
      · exact h2 hc

/-- C4: the closure check reports invalid exactly when some half-edge has no
twin, or its twin's twin is not itself, or it has the incident face of its
twin; it passes exactly when every half-edge has a twin whose twin is that
half-edge and whose incident face is another one. -/
theorem hasOpenEdges_iff (d : DCEL) :
    (DCEL.hasOpenEdges d = true ↔
      ∃ i he, d.halfEdges[i]? = some he ∧
        (d.heAt he.twin = none ∨
          ∃ tw, d.heAt he.twin = some tw ∧
            (tw.twin ≠ some i ∨ he.incidentFace = tw.incidentFace))) ∧
    (DCEL.hasOpenEdges d = false ↔
      ∀ i he, d.halfEdges[i]? = some he →
        ∃ tw, d.heAt he.twin = some tw ∧ tw.twin = some i ∧
          he.incidentFace ≠ tw.incidentFace) :=
  ⟨hasOpenEdges_true_iff d, hasOpenEdges_false_iff d⟩

/-! ## The two-triangle scenario (C1) -/

/-- C1, as stated, fails: for the vertices `(0,0), (2,0), (1,2), (3,2)` and the
loops `1 2 3` and `2 4 3` the builder does not create 10 half-edges and the
validator does not accept. -/
theorem two_triangles_not_ten_half_edges_nor_valid :
    ¬ (DCEL.getHalfEdgeCount (DCEL.loadFromInput [⟨0, 0⟩, ⟨2, 0⟩, ⟨1, 2⟩, ⟨3, 2⟩]
          [[1, 2, 3], [2, 4, 3]]).1 = 10 ∨
       DCEL.getEdgeCount (DCEL.loadFromInput [⟨0, 0⟩, ⟨2, 0⟩, ⟨1, 2⟩, ⟨3, 2⟩]
          [[1, 2, 3], [2, 4, 3]]).1 = 5 ∨
       (DCEL.isValidDCEL (DCEL.loadFromInput [⟨0, 0⟩, ⟨2, 0⟩, ⟨1, 2⟩, ⟨3, 2⟩]
          [[1, 2, 3], [2, 4, 3]]).1).1 = true) := by
  decide

/-- C1, amended: for the vertices `(0,0), (2,0), (1,2), (3,2)` and the loops
`1 2 3` and `2 4 3` the builder yields 4 vertices, 2 faces and 6 half-edges
(one per loop entry), `getEdgeCount` is 3, only the two half-edges of the
shared edge are twins, and the validator rejects the mesh as open: `main`
prints "aberta" and emits no DCEL. -/
theorem two_triangles_without_outer_face :
    DCEL.getVertexCount (DCEL.loadFromInput [⟨0, 0⟩, ⟨2, 0⟩, ⟨1, 2⟩, ⟨3, 2⟩]
      [[1, 2, 3], [2, 4, 3]]).1 = 4 ∧
    DCEL.getFaceCount (DCEL.loadFromInput [⟨0, 0⟩, ⟨2, 0⟩, ⟨1, 2⟩, ⟨3, 2⟩]
      [[1, 2, 3], [2, 4, 3]]).1 = 2 ∧
    DCEL.getHalfEdgeCount (DCEL.loadFromInput [⟨0, 0⟩, ⟨2, 0⟩, ⟨1, 2⟩, ⟨3, 2⟩]
      [[1, 2, 3], [2, 4, 3]]).1 = 6 ∧
    DCEL.getEdgeCount (DCEL.loadFromInput [⟨0, 0⟩, ⟨2, 0⟩, ⟨1, 2⟩, ⟨3, 2⟩]
      [[1, 2, 3], [2, 4, 3]]).1 = 3 ∧
    (DCEL.loadFromInput [⟨0, 0⟩, ⟨2, 0⟩, ⟨1, 2⟩, ⟨3, 2⟩]
      [[1, 2, 3], [2, 4, 3]]).1.halfEdges.map (fun he => he.twin) =
      [none, some 5, none, none, none, some 1] ∧
    DCEL.hasOpenEdges (DCEL.loadFromInput [⟨0, 0⟩, ⟨2, 0⟩, ⟨1, 2⟩, ⟨3, 2⟩]
      [[1, 2, 3], [2, 4, 3]]).1 = true ∧
    DCEL.main [⟨0, 0⟩, ⟨2, 0⟩, ⟨1, 2⟩, ⟨3, 2⟩] [[1, 2, 3], [2, 4, 3]] = (["aberta"], none) := by
  decide

/-! ## The ordered map: lemmas -/

theorem EdgeKey.equiv_iff (a b : EdgeKey) : a.equiv b = true ↔ a = b := by
  cases a with | mk al ah => cases b with | mk bl bh =>
  simp only [EdgeKey.equiv, EdgeKey.less, Bool.and_eq_true, Bool.not_eq_true', Bool.or_eq_false_iff,
    Bool.and_eq_false_imp, decide_eq_false_iff_not, decide_eq_true_eq, EdgeKey.mk.injEq]
  constructor
  · rintro ⟨⟨h1, h2⟩, h3, h4⟩
    have hl : al = bl := by omega
    exact ⟨hl, by have := h2 hl; have := h4 hl.symm; omega⟩
  · rintro ⟨rfl, rfl⟩
    simp

theorem EdgeKey.less_irrefl (a : EdgeKey) : a.less a = false := by
  simp [EdgeKey.less]

theorem EdgeKey.less_trans {a b c : EdgeKey} (h1 : a.less b = true) (h2 : b.less c = true) :
    a.less c = true := by
  simp only [EdgeKey.less, Bool.or_eq_true, Bool.and_eq_true, decide_eq_true_eq] at *
  omega

theorem EdgeKey.eq_of_not_less {a b : EdgeKey} (h1 : a.less b = false) (h2 : b.less a = false) :
    a = b := by
  apply (EdgeKey.equiv_iff a b).mp
  simp [EdgeKey.equiv, h1, h2]

theorem EdgeKey.ne_of_less {a b : EdgeKey} (h : a.less b = true) : a ≠ b := by
  rintro rfl
  rw [EdgeKey.less_irrefl] at h
  cases h

theorem mapFind_mapInsert_self {V : Type} (k : EdgeKey) (v : V) (m : List (EdgeKey × V)) :
    mapFind k (mapInsert k v m) = some v := by
  induction m with
  | nil => simp [mapInsert, mapFind, (EdgeKey.equiv_iff k k).mpr rfl]
  | cons e rest ih =>
    obtain ⟨k', v'⟩ := e
    unfold mapInsert
    by_cases h1 : k.less k' = true
    · simp [h1, mapFind, (EdgeKey.equiv_iff k k).mpr rfl]
    · by_cases h2 : k'.less k = true
      · have hne : k.equiv k' = false := by
          rw [← Bool.not_eq_true, EdgeKey.equiv_iff]
          exact fun h => EdgeKey.ne_of_less h2 h.symm
        simp [h1, h2, mapFind, hne, ih]
      · have heq : k = k' := EdgeKey.eq_of_not_less (by simpa using h1) (by simpa using h2)
        simp [h1, h2, mapFind, (EdgeKey.equiv_iff k k').mpr heq]

theorem mapFind_mapInsert_ne {V : Type} (k k2 : EdgeKey) (v : V) (m : List (EdgeKey × V))
    (hne : k2 ≠ k) : mapFind k2 (mapInsert k v m) = mapFind k2 m := by
  have hk : k2.equiv k = false := by
    rw [← Bool.not_eq_true, EdgeKey.equiv_iff]; exact hne
  induction m with
  | nil => simp [mapInsert, mapFind, hk]
  | cons e rest ih =>
    obtain ⟨k', v'⟩ := e
    unfold mapInsert
    by_cases h1 : k.less k' = true
    · simp [h1, mapFind, hk]
    · by_cases h2 : k'.less k = true
      · simp [h1, h2, mapFind, ih]
      · have heq : k = k' := EdgeKey.eq_of_not_less (by simpa using h1) (by simpa using h2)
        subst heq
        simp [h1, mapFind, hk]

theorem mapInsert_keys_bound {V : Type} (k k0 : EdgeKey) (v : V) (m : List (EdgeKey × V))
    (h0 : k0.less k = true) (hm : ∀ e ∈ m, k0.less e.1 = true) :
    ∀ e ∈ mapInsert k v m, k0.less e.1 = true := by
  induction m with
  | nil => intro e he; simp [mapInsert] at he; subst he; exact h0
  | cons e0 rest ih =>
    obtain ⟨k', v'⟩ := e0
    intro e he
    unfold mapInsert at he
    have hk' : k0.less k' = true := hm (k', v') (List.mem_cons_self _ _)
    have hrest : ∀ e ∈ rest, k0.less e.1 = true := fun e he => hm e (List.mem_cons_of_mem _ he)
    by_cases h1 : k.less k' = true
    · rw [if_pos h1] at he
      rcases List.mem_cons.mp he with he | he
      · rw [he]; exact h0
      · rcases List.mem_cons.mp he with he | he
        · rw [he]; exact hk'
        · exact hrest e he
    · rw [if_neg h1] at he
      by_cases h2 : k'.less k = true
      · rw [if_pos h2] at he
        rcases List.mem_cons.mp he with he | he
        · rw [he]; exact hk'
        · exact ih hrest e he
      · rw [if_neg h2] at he
        rcases List.mem_cons.mp he with he | he
        · rw [he]; exact hk'
        · exact hrest e he

theorem mapSorted_mapInsert {V : Type} (k : EdgeKey) (v : V) (m : List (EdgeKey × V))
    (hs : MapSorted m) : MapSorted (mapInsert k v m) := by
  induction m with
  | nil => simp [mapInsert, MapSorted]
  | cons e0 rest ih =>
    obtain ⟨k', v'⟩ := e0
    unfold MapSorted at hs ih ⊢
    rw [List.pairwise_cons] at hs
    obtain ⟨hhead, htail⟩ := hs
    unfold mapInsert
    by_cases h1 : k.less k' = true
    · rw [if_pos h1, List.pairwise_cons, List.pairwise_cons]
      refine ⟨?_, hhead, htail⟩
      intro e he
      rcases List.mem_cons.mp he with he | he
      · rw [he]; exact h1
      · exact EdgeKey.less_trans h1 (hhead e he)
    · rw [if_neg h1]
      by_cases h2 : k'.less k = true
      · rw [if_pos h2, List.pairwise_cons]
        exact ⟨mapInsert_keys_bound k k' v rest h2 hhead, ih htail⟩
      · rw [if_neg h2, List.pairwise_cons]
        exact ⟨hhead, htail⟩

theorem mem_iff_mapFind {V : Type} (m : List (EdgeKey × V)) (hs : MapSorted m) (k : EdgeKey)
    (v : V) : (k, v) ∈ m ↔ mapFind k m = some v := by
  induction m with
  | nil => simp [mapFind]
  | cons e0 rest ih =>
    obtain ⟨k', v'⟩ := e0
    unfold MapSorted at hs ih
    rw [List.pairwise_cons] at hs
    obtain ⟨hhead, htail⟩ := hs
    unfold mapFind
    by_cases hk : k = k'
    · subst hk
      simp only [(EdgeKey.equiv_iff k k).mpr rfl, if_true, List.mem_cons, Prod.mk.injEq, true_and,
        Option.some.injEq]
      constructor
      · rintro (h | h)
        · exact h.symm
        · exact absurd rfl (EdgeKey.ne_of_less (hhead (k, v) h))
      · intro h; exact Or.inl h.symm
    · have hne : k.equiv k' = false := by
        rw [← Bool.not_eq_true, EdgeKey.equiv_iff]; exact hk
      simp only [hne, List.mem_cons, Prod.mk.injEq, hk, false_and, false_or]
      simpa using ih htail

/-! ## Builder: the loops as a fold over the created pairs -/

theorem createHalfEdge_faceVertexIndices (f : Nat) (a b : Int) (d : DCEL) :
    (DCEL.createHalfEdge f a b d).faceVertexIndices = d.faceVertexIndices := by
  unfold DCEL.createHalfEdge
  split_ifs <;> rfl

theorem createHalfEdge_vertices_length (f : Nat) (a b : Int) (d : DCEL) :
    (DCEL.createHalfEdge f a b d).vertices.length = d.vertices.length := by
  unfold DCEL.createHalfEdge
  split_ifs
  · rfl
  · simp only
    split
    · split_ifs <;> simp
    · rfl

theorem createHalfEdge_faces_length (f : Nat) (a b : Int) (d : DCEL) :
    (DCEL.createHalfEdge f a b d).faces.length = d.faces.length := by
  unfold DCEL.createHalfEdge
  split_ifs
  · rfl
  · simp only
    split
    · split_ifs <;> simp
    · rfl

theorem foldl_createStep_faceVertexIndices (ps : List (Nat × Int × Int)) (d : DCEL) :
    (ps.foldl createStep d).faceVertexIndices = d.faceVertexIndices := by
  induction ps generalizing d with
  | nil => rfl
  | cons p ps ih =>
    rw [List.foldl_cons, ih]
    exact createHalfEdge_faceVertexIndices _ _ _ _

theorem foldl_createStep_vertices_length (ps : List (Nat × Int × Int)) (d : DCEL) :
    (ps.foldl createStep d).vertices.length = d.vertices.length := by
  induction ps generalizing d with
  | nil => rfl
  | cons p ps ih =>
    rw [List.foldl_cons, ih]
    exact createHalfEdge_vertices_length _ _ _ _

theorem foldl_createStep_faces_length (ps : List (Nat × Int × Int)) (d : DCEL) :
    (ps.foldl createStep d).faces.length = d.faces.length := by
  induction ps generalizing d with
  | nil => rfl
  | cons p ps ih =>
    rw [List.foldl_cons, ih]
    exact createHalfEdge_faces_length _ _ _ _

theorem createFaceHalfEdges_eq (d : DCEL) (f : Nat) :
    DCEL.createFaceHalfEdges d f =
      ((loopPairs (d.faceVertexIndices.getD f [])).map (fun p => (f, p.1, p.2))).foldl
        createStep d := by
  unfold DCEL.createFaceHalfEdges loopPairs
  simp only
  split_ifs
  · rfl
  · rw [List.map_map, List.foldl_map]
    rfl

theorem foldl_createFaceHalfEdges_eq (fs : List Nat) (d : DCEL) :
    fs.foldl DCEL.createFaceHalfEdges d =
      (fs.flatMap (fun f =>
        (loopPairs (d.faceVertexIndices.getD f [])).map (fun p => (f, p.1, p.2)))).foldl
        createStep d := by
  induction fs generalizing d with
  | nil => rfl
  | cons f fs ih =>
    rw [List.foldl_cons, List.flatMap_cons, List.foldl_append, ih, createFaceHalfEdges_eq,
      foldl_createStep_faceVertexIndices]

theorem createStep_out_of_range (d : DCEL) (p : Nat × Int × Int)
    (h : pairInRange d.vertices.length p = false) : createStep d p = d := by
  unfold pairInRange at h
  unfold createStep DCEL.createHalfEdge
  rw [if_pos]
  simp only [decide_eq_false_iff_not] at h
  omega

theorem foldl_createStep_filter (ps : List (Nat × Int × Int)) (d : DCEL) :
    ps.foldl createStep d = (ps.filter (pairInRange d.vertices.length)).foldl createStep d := by
  induction ps generalizing d with
  | nil => rfl
  | cons p ps ih =>
    rw [List.foldl_cons, List.filter_cons]
    cases h : pairInRange d.vertices.length p with
    | false =>
      rw [createStep_out_of_range d p h]
      simpa using ih d
    | true =>
      simp only [if_true, List.foldl_cons]
      rw [ih (createStep d p)]
      unfold createStep
      rw [createHalfEdge_vertices_length]

/-- The first phase of `createHalfEdges` creates one half-edge per created pair. -/
theorem createLoops_eq (d : DCEL) :
    (List.range d.faces.length).foldl DCEL.createFaceHalfEdges d =
      (createdPairs d.vertices.length d.faces.length d.faceVertexIndices).foldl createStep d := by
  rw [foldl_createFaceHalfEdges_eq, foldl_createStep_filter]
  rfl

/-! ## Builder: state after the creation loops -/

theorem getElem?_snoc_eq_some {α : Type} (l : List α) (x y : α) (i : Nat) :
    (l ++ [x])[i]? = some y ↔ l[i]? = some y ∨ (i = l.length ∧ x = y) := by
  by_cases h : i < l.length
  · rw [List.getElem?_append_left h]
    constructor
    · exact fun h' => Or.inl h'
    · rintro (h' | ⟨h', _⟩)
      · exact h'
      · omega
  · rw [List.getElem?_append_right (by omega)]
    have hnone : l[i]? = none := List.getElem?_eq_none (by omega)
    rw [hnone]
    by_cases hi : i = l.length
    · subst hi; simp
    · have : i - l.length ≠ 0 := by omega
      obtain ⟨j, hj⟩ := Nat.exists_eq_succ_of_ne_zero this
      simp [hj, hi]

theorem entryOK_first {ks : List EdgeKey} {k : EdgeKey} {e : Option Nat × Option Nat}
    (h : EntryOK ks k (some e)) : ∃ a, e.1 = some a ∧ ks[a]? = some k := by
  obtain ⟨x, y⟩ := e
  cases x with
  | none => exact absurd h (by simp [EntryOK])
  | some a =>
    cases y with
    | none => exact ⟨a, rfl, (h a).mpr rfl⟩
    | some b => exact ⟨a, rfl, h.2.1⟩

theorem entryOK_snoc_ne {ks : List EdgeKey} {k k0 : EdgeKey}
    {e : Option (Option Nat × Option Nat)} (hne : k0 ≠ k) (h : EntryOK ks k e) :
    EntryOK (ks ++ [k0]) k e := by
  match e, h with
  | none, h =>
    show k ∉ ks ++ [k0]
    simp only [List.mem_append, List.mem_singleton, not_or]
    exact ⟨h, fun hk => hne hk.symm⟩
  | some (some a, none), h =>
    intro i
    rw [getElem?_snoc_eq_some, ← h i]
    constructor
    · rintro (h' | ⟨_, h'⟩)
      · exact h'
      · exact absurd h' hne
    · exact fun h' => Or.inl h'
  | some (some a, some b), h =>
    exact ⟨h.1, (getElem?_snoc_eq_some _ _ _ _).mpr (Or.inl h.2.1),
      (getElem?_snoc_eq_some _ _ _ _).mpr (Or.inl h.2.2)⟩
  | some (none, _), h => exact absurd h (by simp [EntryOK])

theorem entryOK_snoc_new {ks : List EdgeKey} {k0 : EdgeKey} (h : EntryOK ks k0 none) :
    EntryOK (ks ++ [k0]) k0 (some (some ks.length, none)) := by
  intro i
  rw [getElem?_snoc_eq_some]
  constructor
  · rintro (h' | ⟨h', _⟩)
    · exact absurd (List.getElem?_mem h') h
    · exact h'
  · exact fun h' => Or.inr ⟨h', rfl⟩

theorem entryOK_snoc_pair {ks : List EdgeKey} {k0 : EdgeKey} {a : Nat}
    (ha : ks[a]? = some k0) :
    EntryOK (ks ++ [k0]) k0 (some (some a, some ks.length)) ∧
    EntryOK (ks ++ [k0]) k0 (some (some ks.length, some a)) := by
  have hlt : a < ks.length := by
    by_contra hc
    rw [List.getElem?_eq_none (by omega)] at ha
    cases ha
  have h1 : (ks ++ [k0])[a]? = some k0 := (getElem?_snoc_eq_some _ _ _ _).mpr (Or.inl ha)
  have h2 : (ks ++ [k0])[ks.length]? = some k0 :=
    (getElem?_snoc_eq_some _ _ _ _).mpr (Or.inr ⟨rfl, rfl⟩)
  exact ⟨⟨by omega, h1, h2⟩, ⟨by omega, h2, h1⟩⟩

theorem createStep_halfEdges (d : DCEL) (p : Nat × Int × Int)
    (h : pairInRange d.vertices.length p = true) :
    (createStep d p).halfEdges = d.halfEdges ++ [newHalfEdge d.halfEdges.length p] := by
  unfold pairInRange at h
  simp only [decide_eq_true_eq] at h
  unfold createStep DCEL.createHalfEdge
  rw [if_neg (by omega)]
  rfl

theorem createStep_edgeMap (d : DCEL) (p : Nat × Int × Int)
    (h : pairInRange d.vertices.length p = true) :
    (mapFind (pairKey p) d.edgeMap = none ∧
      (createStep d p).edgeMap =
        mapInsert (pairKey p) (some d.halfEdges.length, none) d.edgeMap) ∨
    (∃ e, mapFind (pairKey p) d.edgeMap = some e ∧
      ((createStep d p).edgeMap =
          mapInsert (pairKey p) (e.1, some d.halfEdges.length) d.edgeMap ∨
       (createStep d p).edgeMap =
          mapInsert (pairKey p) (some d.halfEdges.length, e.1) d.edgeMap)) := by
  unfold pairInRange at h
  simp only [decide_eq_true_eq] at h
  unfold createStep DCEL.createHalfEdge
  rw [if_neg (by omega)]
  simp only
  unfold pairKey
  cases hf : mapFind (EdgeKey.mk2 p.2.1 p.2.2) d.edgeMap with
  | none => exact Or.inl ⟨rfl, rfl⟩
  | some e =>
    refine Or.inr ⟨e, rfl, ?_⟩
    simp only
    split_ifs
    · exact Or.inl rfl
    · exact Or.inr rfl

theorem phase1_step {d : DCEL} {ps : List (Nat × Int × Int)} (hinv : Phase1 d ps)
    (p : Nat × Int × Int) (h : pairInRange d.vertices.length p = true) :
    Phase1 (createStep d p) (ps ++ [p]) := by
  have hlen : d.halfEdges.length = ps.length := by
    rw [hinv.halfEdges]; simp
  have hklen : (ps.map pairKey).length = d.halfEdges.length := by
    rw [hlen]; simp
  have hmap : (ps ++ [p]).map pairKey = ps.map pairKey ++ [pairKey p] := by simp
  have hentry : ∀ v, (createStep d p).edgeMap = mapInsert (pairKey p) v d.edgeMap →
      EntryOK (ps.map pairKey ++ [pairKey p]) (pairKey p) (some v) →
      ∀ k, EntryOK ((ps ++ [p]).map pairKey) k (mapFind k (createStep d p).edgeMap) := by
    intro v hv hok k
    rw [hv, hmap]
    by_cases hk : k = pairKey p
    · subst hk
      rw [mapFind_mapInsert_self]
      exact hok
    · rw [mapFind_mapInsert_ne _ _ _ _ hk]
      exact entryOK_snoc_ne (fun h' => hk h'.symm) (hinv.entry k)
  have hsorted : ∀ v, (createStep d p).edgeMap = mapInsert (pairKey p) v d.edgeMap →
      MapSorted (createStep d p).edgeMap := by
    intro v hv
    rw [hv]
    exact mapSorted_mapInsert _ _ _ hinv.sorted
  have hhe : (createStep d p).halfEdges = (ps ++ [p]).enum.map (fun e => newHalfEdge e.1 e.2) := by
    rw [createStep_halfEdges d p h, hinv.halfEdges, List.enum_append]
    simp [List.enumFrom]
  rcases createStep_edgeMap d p h with ⟨hnone, hm⟩ | ⟨e, hsome, hm | hm⟩
  · refine ⟨hhe, hsorted _ hm, hentry _ hm ?_⟩
    have h0 := hinv.entry (pairKey p)
    rw [hnone] at h0
    rw [← hklen]
    exact entryOK_snoc_new h0
  · have h0 := hinv.entry (pairKey p)
    rw [hsome] at h0
    obtain ⟨a, ha1, ha2⟩ := entryOK_first h0
    refine ⟨hhe, hsorted _ hm, hentry _ hm ?_⟩
    rw [ha1, ← hklen]
    exact (entryOK_snoc_pair ha2).1
  · have h0 := hinv.entry (pairKey p)
    rw [hsome] at h0
    obtain ⟨a, ha1, ha2⟩ := entryOK_first h0
    refine ⟨hhe, hsorted _ hm, hentry _ hm ?_⟩
    rw [ha1, ← hklen]
    exact (entryOK_snoc_pair ha2).2

theorem phase1_foldl (ps done : List (Nat × Int × Int)) (d : DCEL) (hinv : Phase1 d done)
    (h : ∀ p ∈ ps, pairInRange d.vertices.length p = true) :
    Phase1 (ps.foldl createStep d) (done ++ ps) := by
  induction ps generalizing d done with
  | nil => simpa using hinv
  | cons p ps ih =>
    rw [List.foldl_cons]
    have h1 := phase1_step hinv p (h p (List.mem_cons_self _ _))
    have h2 := ih (done ++ [p]) (createStep d p) h1 (by
      intro q hq
      unfold createStep
      rw [createHalfEdge_vertices_length]
      exact h q (List.mem_cons_of_mem _ hq))
    simpa using h2

/-- State of the builder after the creation loops, started on a DCEL without
half-edges and with an empty map. -/
theorem phase1_createLoops (d : DCEL) (h1 : d.halfEdges = []) (h2 : d.edgeMap = []) :
    Phase1 ((List.range d.faces.length).foldl DCEL.createFaceHalfEdges d)
      (createdPairs d.vertices.length d.faces.length d.faceVertexIndices) := by
  rw [createLoops_eq]
  have h0 : Phase1 d [] := by
    refine ⟨by simp [h1], by simp [h2, MapSorted], ?_⟩
    intro k
    rw [h2]
    simp [mapFind, EntryOK]
  have hr : ∀ p ∈ createdPairs d.vertices.length d.faces.length d.faceVertexIndices,
      pairInRange d.vertices.length p = true := by
    intro p hp
    unfold createdPairs at hp
    exact (List.mem_filter.mp hp).2
  have := phase1_foldl _ [] d h0 hr
  simpa using this

/-! ## Builder: twin linking -/

theorem modifyHalfEdge_getElem? (d : DCEL) (i j : Nat) (f : HalfEdge → HalfEdge) :
    (d.modifyHalfEdge i f).halfEdges[j]? =
      if j = i then (d.halfEdges[j]?).map f else d.halfEdges[j]? := by
  unfold DCEL.modifyHalfEdge
  cases h : d.halfEdges[i]? with
  | none =>
    simp only
    split_ifs with hj
    · subst hj; simp [h]
    · rfl
  | some he =>
    simp only [List.getElem?_set]
    by_cases hj : i = j
    · subst hj
      have hlt : i < d.halfEdges.length := by
        by_contra hc
        rw [List.getElem?_eq_none (by omega)] at h
        cases h
      simp [hlt, h]
    · have hj' : ¬ j = i := fun h' => hj h'.symm
      simp [hj, hj']

theorem modifyHalfEdge_edgeMap (d : DCEL) (i : Nat) (f : HalfEdge → HalfEdge) :
    (d.modifyHalfEdge i f).edgeMap = d.edgeMap := by
  unfold DCEL.modifyHalfEdge; split <;> rfl

theorem modifyHalfEdge_vertices (d : DCEL) (i : Nat) (f : HalfEdge → HalfEdge) :
    (d.modifyHalfEdge i f).vertices = d.vertices := by
  unfold DCEL.modifyHalfEdge; split <;> rfl

theorem modifyHalfEdge_faces (d : DCEL) (i : Nat) (f : HalfEdge → HalfEdge) :
    (d.modifyHalfEdge i f).faces = d.faces := by
  unfold DCEL.modifyHalfEdge; split <;> rfl

theorem modifyHalfEdge_length (d : DCEL) (i : Nat) (f : HalfEdge → HalfEdge) :
    (d.modifyHalfEdge i f).halfEdges.length = d.halfEdges.length := by
  unfold DCEL.modifyHalfEdge; split <;> simp

theorem twinFromEntry_eq_some {i j : Nat} {v : Option Nat × Option Nat}
    (h : twinFromEntry i v = some j) :
    (v = (some i, some j) ∨ v = (some j, some i)) := by
  obtain ⟨x, y⟩ := v
  cases x with
  | none => simp [twinFromEntry] at h
  | some a =>
    cases y with
    | none => simp [twinFromEntry] at h
    | some b =>
      simp only [twinFromEntry] at h
      split_ifs at h with h1 h2
      · cases h; subst h1; exact Or.inl rfl
      · cases h; subst h2; exact Or.inr rfl

theorem linkTwins_getElem? (s : DCEL) (e : EdgeKey × (Option Nat × Option Nat))
    (hne : ∀ a b, e.2 = (some a, some b) → a ≠ b) (i : Nat) :
    (DCEL.linkTwins s e).halfEdges[i]? =
      (s.halfEdges[i]?).map (setTwin (twinFromEntry i e.2)) := by
  obtain ⟨k, x, y⟩ := e
  cases x with
  | none =>
    simp only [DCEL.linkTwins, twinFromEntry, setTwin]
    cases s.halfEdges[i]? <;> rfl
  | some a =>
    cases y with
    | none =>
      simp only [DCEL.linkTwins, twinFromEntry, setTwin]
      cases s.halfEdges[i]? <;> rfl
    | some b =>
      have hab : a ≠ b := hne a b rfl
      simp only [DCEL.linkTwins, twinFromEntry]
      rw [modifyHalfEdge_getElem?, modifyHalfEdge_getElem?]
      by_cases hb : i = b
      · have ha : ¬ i = a := fun h => hab (h ▸ hb)
        simp only [hb, if_true]
        have hba : ¬ b = a := fun h => hab h.symm
        simp only [hba, if_false]
        cases s.halfEdges[b]? <;> rfl
      · by_cases ha : i = a
        · simp only [hb, ha, if_true, if_false]
          have : ¬ a = b := hab
          simp only [this, if_false]
          cases s.halfEdges[a]? <;> rfl
        · simp only [hb, ha, if_false]
          cases s.halfEdges[i]? <;> rfl

theorem linkTwins_edgeMap (s : DCEL) (e : EdgeKey × (Option Nat × Option Nat)) :
    (DCEL.linkTwins s e).edgeMap = s.edgeMap := by
  unfold DCEL.linkTwins
  split
  · rw [modifyHalfEdge_edgeMap, modifyHalfEdge_edgeMap]
  · rfl

theorem linkTwins_vertices (s : DCEL) (e : EdgeKey × (Option Nat × Option Nat)) :
    (DCEL.linkTwins s e).vertices = s.vertices := by
  unfold DCEL.linkTwins
  split
  · rw [modifyHalfEdge_vertices, modifyHalfEdge_vertices]
  · rfl

theorem linkTwins_faces (s : DCEL) (e : EdgeKey × (Option Nat × Option Nat)) :
    (DCEL.linkTwins s e).faces = s.faces := by
  unfold DCEL.linkTwins
  split
  · rw [modifyHalfEdge_faces, modifyHalfEdge_faces]
  · rfl

theorem linkTwins_length (s : DCEL) (e : EdgeKey × (Option Nat × Option Nat)) :
    (DCEL.linkTwins s e).halfEdges.length = s.halfEdges.length := by
  unfold DCEL.linkTwins
  split
  · rw [modifyHalfEdge_length, modifyHalfEdge_length]
  · rfl

theorem foldl_linkTwins_edgeMap (es : List (EdgeKey × (Option Nat × Option Nat))) (s : DCEL) :
    (es.foldl DCEL.linkTwins s).edgeMap = s.edgeMap := by
  induction es generalizing s with
  | nil => rfl
  | cons e es ih => rw [List.foldl_cons, ih, linkTwins_edgeMap]

theorem foldl_linkTwins_vertices (es : List (EdgeKey × (Option Nat × Option Nat))) (s : DCEL) :
    (es.foldl DCEL.linkTwins s).vertices = s.vertices := by
  induction es generalizing s with
  | nil => rfl
  | cons e es ih => rw [List.foldl_cons, ih, linkTwins_vertices]

theorem foldl_linkTwins_faces (es : List (EdgeKey × (Option Nat × Option Nat))) (s : DCEL) :
    (es.foldl DCEL.linkTwins s).faces = s.faces := by
  induction es generalizing s with
  | nil => rfl
  | cons e es ih => rw [List.foldl_cons, ih, linkTwins_faces]

theorem foldl_linkTwins_length (es : List (EdgeKey × (Option Nat × Option Nat))) (s : DCEL) :
    (es.foldl DCEL.linkTwins s).halfEdges.length = s.halfEdges.length := by
  induction es generalizing s with
  | nil => rfl
  | cons e es ih => rw [List.foldl_cons, ih, linkTwins_length]

/-- The linking loop over entries whose complete pairs hold two different
half-edges and are disjoint from one entry to the other gives every half-edge
the twin of the entry holding it. -/
theorem foldl_linkTwins_getElem? (es : List (EdgeKey × (Option Nat × Option Nat))) (s : DCEL)
    (hne : ∀ e ∈ es, ∀ a b, e.2 = (some a, some b) → a ≠ b)
    (hdisj : es.Pairwise (fun e e' => ∀ i, twinFromEntry i e.2 ≠ none →
      twinFromEntry i e'.2 = none)) (i : Nat) :
    (es.foldl DCEL.linkTwins s).halfEdges[i]? =
      (s.halfEdges[i]?).map (setTwin (lookupTwin es i)) := by
  induction es generalizing s with
  | nil =>
    simp only [List.foldl_nil, lookupTwin, List.findSome?_nil, setTwin]
    cases s.halfEdges[i]? <;> rfl
  | cons e es ih =>
    rw [List.pairwise_cons] at hdisj
    rw [List.foldl_cons, ih (DCEL.linkTwins s e)
      (fun e' he' => hne e' (List.mem_cons_of_mem _ he')) hdisj.2,
      linkTwins_getElem? s e (hne e (List.mem_cons_self _ _))]
    simp only [lookupTwin, List.findSome?_cons]
    cases hte : twinFromEntry i e.2 with
    | none =>
      simp only [setTwin]
      cases s.halfEdges[i]? <;> rfl
    | some j =>
      have hnone : List.findSome? (fun e => twinFromEntry i e.2) es = none := by
        rw [List.findSome?_eq_none_iff]
        intro e' he'
        exact hdisj.1 e' he' i (by rw [hte]; simp)
      rw [hnone]
      simp only [setTwin]
      cases s.halfEdges[i]? <;> rfl

theorem entry_keyed {ks : List EdgeKey} {m : List (EdgeKey × (Option Nat × Option Nat))}
    (hs : MapSorted m) (hentry : ∀ k, EntryOK ks k (mapFind k m))
    {e : EdgeKey × (Option Nat × Option Nat)} (he : e ∈ m) {i j : Nat}
    (h : twinFromEntry i e.2 = some j) :
    i ≠ j ∧ ks[i]? = some e.1 ∧ ks[j]? = some e.1 := by
  obtain ⟨k, v⟩ := e
  have hf : mapFind k m = some v := (mem_iff_mapFind m hs k v).mp he
  have hok := hentry k
  rw [hf] at hok
  rcases twinFromEntry_eq_some h with hv | hv
  · simp only at hv
    subst hv
    exact ⟨hok.1, hok.2.1, hok.2.2⟩
  · simp only at hv
    subst hv
    exact ⟨fun h' => hok.1 h'.symm, hok.2.2, hok.2.1⟩

theorem entries_distinct {ks : List EdgeKey} {m : List (EdgeKey × (Option Nat × Option Nat))}
    (hs : MapSorted m) (hentry : ∀ k, EntryOK ks k (mapFind k m)) :
    (∀ e ∈ m, ∀ a b, e.2 = (some a, some b) → a ≠ b) ∧
    m.Pairwise (fun e e' => ∀ i, twinFromEntry i e.2 ≠ none → twinFromEntry i e'.2 = none) := by
  constructor
  · intro e he a b hab
    have : twinFromEntry a e.2 = some b := by rw [hab]; simp [twinFromEntry]
    exact (entry_keyed hs hentry he this).1
  · refine List.Pairwise.imp_of_mem ?_ hs
    intro e e' he he' hless i hi
    cases h1 : twinFromEntry i e.2 with
    | none => exact absurd h1 hi
    | some j =>
      cases h2 : twinFromEntry i e'.2 with
      | none => rfl
      | some j' =>
        have k1 := (entry_keyed hs hentry he h1).2.1
        have k2 := (entry_keyed hs hentry he' h2).2.1
        rw [k1] at k2
        exact absurd (Option.some.inj k2) (EdgeKey.ne_of_less hless)

/-- With the map of the builder, the twin found for `i` is `j` exactly when
some entry holds the complete pair of `i` and `j`. -/
theorem lookupTwin_eq_some_iff {ks : List EdgeKey}
    {m : List (EdgeKey × (Option Nat × Option Nat))}
    (hs : MapSorted m) (hentry : ∀ k, EntryOK ks k (mapFind k m)) (i j : Nat) :
    lookupTwin m i = some j ↔ ∃ e ∈ m, twinFromEntry i e.2 = some j := by
  constructor
  · intro h
    obtain ⟨e, he, hf⟩ := List.exists_of_findSome?_eq_some h
    exact ⟨e, he, hf⟩
  · rintro ⟨e, he, hf⟩
    cases hl : lookupTwin m i with
    | none =>
      unfold lookupTwin at hl
      rw [List.findSome?_eq_none_iff] at hl
      rw [hl e he] at hf
      cases hf
    | some j' =>
      obtain ⟨e', he', hf'⟩ := List.exists_of_findSome?_eq_some hl
      have k1 := (entry_keyed hs hentry he hf).2.1
      have k2 := (entry_keyed hs hentry he' hf').2.1
      rw [k1] at k2
      have hk : e.1 = e'.1 := Option.some.inj k2
      have f1 : mapFind e.1 m = some e.2 := (mem_iff_mapFind m hs e.1 e.2).mp he
      have f2 : mapFind e'.1 m = some e'.2 := (mem_iff_mapFind m hs e'.1 e'.2).mp he'
      rw [← hk, f1] at f2
      have hv : e.2 = e'.2 := Option.some.inj f2
      rw [← hv, hf] at hf'
      exact hf'.symm

theorem enum_map_getElem? {α β : Type} (l : List α) (f : Nat × α → β) (i : Nat) :
    (l.enum.map f)[i]? = (l[i]?).map (fun a => f (i, a)) := by
  rw [List.getElem?_map, List.getElem?_enum]
  cases l[i]? <;> rfl

/-- State after the twin-linking loop of `createHalfEdges`. -/
theorem built_after_linkTwins {s : DCEL} {ps : List (Nat × Int × Int)} (h : Phase1 s ps) :
    Built (s.edgeMap.foldl DCEL.linkTwins s) ps := by
  obtain ⟨hne, hdisj⟩ := entries_distinct h.sorted h.entry
  refine ⟨?_, ?_, ?_, ?_⟩
  · rw [foldl_linkTwins_length, h.halfEdges]; simp
  · intro i p hp
    have hs : s.halfEdges[i]? = some (newHalfEdge i p) := by
      rw [h.halfEdges, enum_map_getElem?, hp]; rfl
    rw [foldl_linkTwins_getElem? _ _ hne hdisj, hs, foldl_linkTwins_edgeMap]
    refine ⟨_, rfl, ?_⟩
    cases lookupTwin s.edgeMap i <;> simp [setTwin, newHalfEdge]
  · rw [foldl_linkTwins_edgeMap]; exact h.sorted
  · rw [foldl_linkTwins_edgeMap]; exact h.entry

/-! ## Builder: chain linking keeps what the validator reads -/

theorem walkStep_stable {P : DCEL → Prop} (hP : ChainStable P) (face start current : Nat)
    (d : DCEL) (hd : P d) : P (DCEL.walkStep face start current d).1 := by
  unfold DCEL.walkStep
  simp only
  split
  · exact hP.1 _ _ _ hd
  · split_ifs
    · exact hP.2 _ _ _ (hP.1 _ _ _ hd)
    · exact hP.2 _ _ _ (hP.1 _ _ _ hd)

theorem walkFace_stable {P : DCEL → Prop} (hP : ChainStable P) (face start : Nat) :
    ∀ (remaining current : Nat) (d : DCEL), P d →
      P (DCEL.walkFace face start remaining current d) := by
  intro remaining
  induction remaining using Nat.strong_induction_on with
  | _ remaining ih =>
    intro current d hd
    have hstep := walkStep_stable hP face start current d hd
    unfold DCEL.walkFace
    split
    · rename_i r d2 nx heq
      rw [heq] at hstep
      exact ih (r + 1) (by omega) nx d2 hstep
    · rename_i d2 o heq
      rw [heq] at hstep
      exact hstep

theorem linkFaceChain_stable {P : DCEL → Prop} (hP : ChainStable P) (d : DCEL) (f : Nat)
    (hd : P d) : P (DCEL.linkFaceChain d f) := by
  unfold DCEL.linkFaceChain
  split
  · exact hd
  · split
    · exact hd
    · exact walkFace_stable hP _ _ _ _ _ hd

theorem linkHalfEdgeChains_stable {P : DCEL → Prop} (hP : ChainStable P) (d : DCEL)
    (hd : P d) : P (DCEL.linkHalfEdgeChains d) := by
  unfold DCEL.linkHalfEdgeChains
  generalize List.range d.faces.length = fs
  induction fs generalizing d with
  | nil => exact hd
  | cons f fs ih =>
    rw [List.foldl_cons]
    exact ih _ (linkFaceChain_stable hP d f hd)

theorem built_chainStable (ps : List (Nat × Int × Int)) : ChainStable (fun d => Built d ps) := by
  constructor
  · intro d i nx h
    refine ⟨?_, ?_, ?_, ?_⟩
    · rw [modifyHalfEdge_length]; exact h.length
    · intro j p hp
      obtain ⟨he, h1, h2, h3, h4, h5⟩ := h.he j p hp
      rw [modifyHalfEdge_getElem?, modifyHalfEdge_edgeMap, h1]
      split_ifs
      · exact ⟨_, rfl, h2, h3, h4, h5⟩
      · exact ⟨_, rfl, h2, h3, h4, h5⟩
    · rw [modifyHalfEdge_edgeMap]; exact h.sorted
    · rw [modifyHalfEdge_edgeMap]; exact h.entry
  · intro d i pv h
    refine ⟨?_, ?_, ?_, ?_⟩
    · rw [modifyHalfEdge_length]; exact h.length
    · intro j p hp
      obtain ⟨he, h1, h2, h3, h4, h5⟩ := h.he j p hp
      rw [modifyHalfEdge_getElem?, modifyHalfEdge_edgeMap, h1]
      split_ifs
      · exact ⟨_, rfl, h2, h3, h4, h5⟩
      · exact ⟨_, rfl, h2, h3, h4, h5⟩
    · rw [modifyHalfEdge_edgeMap]; exact h.sorted
    · rw [modifyHalfEdge_edgeMap]; exact h.entry

/-- The triples for which `loadFromInput` creates half-edges. -/
theorem built_constructDCEL (d : DCEL) (h1 : d.halfEdges = []) (h2 : d.edgeMap = []) :
    (DCEL.constructDCEL d).2 = true ∧
    Built (DCEL.constructDCEL d).1
      (createdPairs d.vertices.length d.faces.length d.faceVertexIndices) := by
  unfold DCEL.constructDCEL DCEL.createHalfEdges
  simp only [Bool.true_eq_false, if_false, true_and]
  exact linkHalfEdgeChains_stable (built_chainStable _) _
    (built_after_linkTwins (phase1_createLoops d h1 h2))

/-! ## Builder: `loadFromInput` -/

theorem readInput_vertices_length (points : List Point) (loops : List (List Int)) :
    (DCEL.readInput points loops).vertices.length = points.length := by
  simp [DCEL.readInput]

theorem readInput_faces_length (points : List Point) (loops : List (List Int)) :
    (DCEL.readInput points loops).faces.length = loops.length := by
  simp [DCEL.readInput]

/-- The builder returns `true`, and the DCEL it leaves has one half-edge per
created pair, in order, with the twins the map gives. -/
theorem built_loadFromInput (points : List Point) (loops : List (List Int)) :
    (DCEL.loadFromInput points loops).2 = true ∧
    Built (DCEL.loadFromInput points loops).1
      (createdPairs points.length loops.length
        (loops.map (fun l => l.map DCEL.inputToInternal))) := by
  have h := built_constructDCEL (DCEL.readInput points loops) rfl rfl
  rw [readInput_vertices_length, readInput_faces_length] at h
  exact h

theorem visitedPairs_face_lt {faceCount : Nat} {loops : List (List Int)} {p : Nat × Int × Int}
    (h : p ∈ visitedPairs faceCount loops) : p.1 < faceCount := by
  unfold visitedPairs at h
  rw [List.mem_flatMap] at h
  obtain ⟨f, hf, hp⟩ := h
  rw [List.mem_map] at hp
  obtain ⟨q, _, hq⟩ := hp
  rw [← hq]
  exact List.mem_range.mp hf

theorem createdPairs_face_lt {vertexCount faceCount : Nat} {loops : List (List Int)}
    {p : Nat × Int × Int} (h : p ∈ createdPairs vertexCount faceCount loops) :
    p.1 < faceCount :=
  visitedPairs_face_lt (List.mem_filter.mp h).1

/-- In a built DCEL the half-edge a reference points to belongs to a created pair. -/
theorem built_heAt {d : DCEL} {ps : List (Nat × Int × Int)} (h : Built d ps) {t : Nat}
    {tw : HalfEdge} (ht : d.halfEdges[t]? = some tw) :
    ∃ p, ps[t]? = some p ∧ tw.index = (t : Int) ∧ tw.origin = some p.2.1.toNat ∧
      tw.incidentFace = some p.1 ∧ tw.twin = lookupTwin d.edgeMap t := by
  have hlt : t < ps.length := by
    rw [← h.length]
    by_contra hc
    rw [List.getElem?_eq_none (by omega)] at ht
    cases ht
  obtain ⟨he, h1, h2⟩ := h.he t ps[t] (List.getElem?_eq_getElem hlt)
  rw [ht] at h1
  cases h1
  exact ⟨ps[t], List.getElem?_eq_getElem hlt, h2⟩

/-! ## A mesh of one face is open (C2) -/

theorem single_loop_pairs (vertexCount : Nat) (loop : List Int) (hk : 3 ≤ loop.length)
    (hr : ∀ v ∈ loop, 0 ≤ v ∧ v < (vertexCount : Int)) :
    createdPairs vertexCount 1 [loop] =
      (List.range loop.length).map
        (fun i => (0, loop.getD i 0, loop.getD ((i + 1) % loop.length) 0)) := by
  have hpos : 0 < loop.length := by omega
  have hget : ∀ i, i < loop.length → 0 ≤ loop.getD i 0 ∧ loop.getD i 0 < (vertexCount : Int) := by
    intro i hi
    apply hr
    rw [List.getD_eq_getElem _ _ hi]
    exact List.getElem_mem hi
  unfold createdPairs visitedPairs loopPairs
  rw [show List.range 1 = [0] from rfl]
  simp only [List.flatMap_cons, List.flatMap_nil, List.append_nil,
    List.getD_cons_zero, if_neg (show ¬ loop.length < 3 by omega), List.map_map]
  have hcomp : ((fun p : Int × Int => ((0 : Nat), p.1, p.2)) ∘
      fun i => (loop.getD i 0, loop.getD ((i + 1) % loop.length) 0)) =
      fun i => ((0 : Nat), loop.getD i 0, loop.getD ((i + 1) % loop.length) 0) := rfl
  rw [hcomp, List.filter_eq_self]
  intro p hp
  rw [List.mem_map] at hp
  obtain ⟨i, hi, rfl⟩ := hp
  have hi' := List.mem_range.mp hi
  have h1 := hget i hi'
  have h2 := hget ((i + 1) % loop.length) (Nat.mod_lt _ hpos)
  simp only [pairInRange, Function.comp, decide_eq_true_eq]
  exact ⟨h1.1, h1.2, h2.1, h2.2⟩

/-- C2: for a mesh with exactly one face whose loop lists `k ≥ 3` vertex
indices in `1..V`, the builder creates `k` half-edges, the closure check fails,
`isValidDCEL` returns `false` with the diagnostic "aberta", and `main` emits
no DCEL. -/
theorem single_face_is_open (points : List Point) (loop : List Int)
    (hV : points.length < 2147483648) (hk : 3 ≤ loop.length)
    (hr : ∀ v ∈ loop, 1 ≤ v ∧ v ≤ (points.length : Int)) :
    DCEL.getHalfEdgeCount (DCEL.loadFromInput points [loop]).1 = loop.length ∧
    DCEL.hasOpenEdges (DCEL.loadFromInput points [loop]).1 = true ∧
    DCEL.isValidDCEL (DCEL.loadFromInput points [loop]).1 = (false, ["aberta"]) ∧
    DCEL.main points [loop] = (["aberta"], none) := by
  obtain ⟨hres, hb⟩ := built_loadFromInput points [loop]
  have hps := single_loop_pairs points.length (loop.map DCEL.inputToInternal)
    (by simpa using hk) (by
      intro v hv
      rw [List.mem_map] at hv
      obtain ⟨w, hw, rfl⟩ := hv
      have := hr w hw
      unfold DCEL.inputToInternal
      rw [wrap32_eq _ (by omega) (by omega)]
      omega)
  simp only [List.length_singleton, List.map_cons, List.map_nil] at hb
  rw [hps] at hb
  have hlen : (DCEL.loadFromInput points [loop]).1.halfEdges.length = loop.length := by
    rw [hb.length]; simp
  have hface : ∀ (t : Nat) (tw : HalfEdge),
      (DCEL.loadFromInput points [loop]).1.halfEdges[t]? = some tw →
      tw.incidentFace = some 0 := by
    intro t tw ht
    obtain ⟨p, hp, _, _, hf, _⟩ := built_heAt hb ht
    have hmem := List.getElem?_mem hp
    rw [List.mem_map] at hmem
    obtain ⟨i, _, rfl⟩ := hmem
    exact hf
  have hopen : DCEL.hasOpenEdges (DCEL.loadFromInput points [loop]).1 = true := by
    rw [hasOpenEdges_true_iff]
    have h0 : 0 < (DCEL.loadFromInput points [loop]).1.halfEdges.length := by omega
    refine ⟨0, _, List.getElem?_eq_getElem h0, ?_⟩
    cases htw : (DCEL.loadFromInput points [loop]).1.heAt
        ((DCEL.loadFromInput points [loop]).1.halfEdges[0]).twin with
    | none => exact Or.inl rfl
    | some tw =>
      refine Or.inr ⟨tw, rfl, Or.inr ?_⟩
      rw [hface 0 _ (List.getElem?_eq_getElem h0)]
      unfold DCEL.heAt at htw
      split at htw
      · cases htw
      · rename_i t _
        exact (hface t tw htw).symm
  have hvalid : DCEL.isValidDCEL (DCEL.loadFromInput points [loop]).1 = (false, ["aberta"]) := by
    unfold DCEL.isValidDCEL
    rw [hopen]
    rfl
  refine ⟨hlen, hopen, hvalid, ?_⟩
  unfold DCEL.main
  simp only [hres, hvalid]
  rfl

/-- C2 at the single triangle `1 2 3` on the vertices `(0,0), (2,0), (1,2)`. -/
theorem single_face_is_open_witness :
    DCEL.getHalfEdgeCount (DCEL.loadFromInput [⟨0, 0⟩, ⟨2, 0⟩, ⟨1, 2⟩] [[1, 2, 3]]).1 = 3 ∧
    DCEL.hasOpenEdges (DCEL.loadFromInput [⟨0, 0⟩, ⟨2, 0⟩, ⟨1, 2⟩] [[1, 2, 3]]).1 = true ∧
    DCEL.isValidDCEL (DCEL.loadFromInput [⟨0, 0⟩, ⟨2, 0⟩, ⟨1, 2⟩] [[1, 2, 3]]).1 =
      (false, ["aberta"]) ∧
    DCEL.main [⟨0, 0⟩, ⟨2, 0⟩, ⟨1, 2⟩] [[1, 2, 3]] = (["aberta"], none) :=
  single_face_is_open [⟨0, 0⟩, ⟨2, 0⟩, ⟨1, 2⟩] [1, 2, 3] (by decide) (by decide) (by decide)

/-! ## Builder: the twins of a built DCEL -/

theorem twinFromEntry_symm {i j : Nat} {v : Option Nat × Option Nat}
    (h : twinFromEntry i v = some j) (hne : i ≠ j) : twinFromEntry j v = some i := by
  rcases twinFromEntry_eq_some h with hv | hv
  · subst hv
    have : ¬ j = i := fun h' => hne h'.symm
    simp [twinFromEntry, this]
  · subst hv
    simp [twinFromEntry]

/-- Twin links of the builder are reciprocal, join two different half-edges
and join half-edges of the same key. -/
theorem built_twin_symm {d : DCEL} {ps : List (Nat × Int × Int)} (hb : Built d ps) {i j : Nat}
    (h : lookupTwin d.edgeMap i = some j) :
    lookupTwin d.edgeMap j = some i ∧ i ≠ j ∧
    ∃ k, (ps.map pairKey)[i]? = some k ∧ (ps.map pairKey)[j]? = some k := by
  obtain ⟨e, he, hf⟩ := (lookupTwin_eq_some_iff hb.sorted hb.entry i j).mp h
  obtain ⟨hne, k1, k2⟩ := entry_keyed hb.sorted hb.entry he hf
  exact ⟨(lookupTwin_eq_some_iff hb.sorted hb.entry j i).mpr ⟨e, he, twinFromEntry_symm hf hne⟩,
    hne, e.1, k1, k2⟩

/-- Two half-edges of the same key that both have a twin are the two
half-edges of one pair of twins. -/
theorem built_twin_same_key {d : DCEL} {ps : List (Nat × Int × Int)} (hb : Built d ps)
    {i j t j' : Nat} {k : EdgeKey}
    (h : lookupTwin d.edgeMap i = some j) (h' : lookupTwin d.edgeMap t = some j')
    (hi : (ps.map pairKey)[i]? = some k) (ht : (ps.map pairKey)[t]? = some k) :
    t = i ∨ t = j := by
  obtain ⟨e, he, hf⟩ := (lookupTwin_eq_some_iff hb.sorted hb.entry i j).mp h
  obtain ⟨e', he', hf'⟩ := (lookupTwin_eq_some_iff hb.sorted hb.entry t j').mp h'
  have k1 := (entry_keyed hb.sorted hb.entry he hf).2.1
  have k2 := (entry_keyed hb.sorted hb.entry he' hf').2.1
  rw [hi] at k1
  rw [ht] at k2
  have hk : e.1 = e'.1 := by rw [← Option.some.inj k1, ← Option.some.inj k2]
  have f1 : mapFind e.1 d.edgeMap = some e.2 := (mem_iff_mapFind _ hb.sorted e.1 e.2).mp he
  have f2 : mapFind e'.1 d.edgeMap = some e'.2 := (mem_iff_mapFind _ hb.sorted e'.1 e'.2).mp he'
  rw [← hk, f1] at f2
  have hv : e.2 = e'.2 := Option.some.inj f2
  rw [← hv] at hf'
  rcases twinFromEntry_eq_some hf with h1 | h1 <;>
    rcases twinFromEntry_eq_some hf' with h2 | h2 <;>
    · rw [h1] at h2
      simp only [Prod.mk.injEq, Option.some.injEq] at h2
      omega

/-! ## The closure check pairs the half-edges -/

/-- When the closure check passes, the number of half-edges is even: `twin` is
an involution without fixed point. -/
theorem even_of_closed (d : DCEL) (h : DCEL.hasOpenEdges d = false) :
    d.halfEdges.length % 2 = 0 := by
  rw [hasOpenEdges_false_iff] at h
  have key : ∀ a, a < d.halfEdges.length →
      ∃ t, t < d.halfEdges.length ∧ t ≠ a ∧ (d.halfEdges[a]?).bind (fun he => he.twin) = some t ∧
        (d.halfEdges[t]?).bind (fun he => he.twin) = some a := by
    intro a ha
    obtain ⟨tw, h1, h2, h3⟩ := h a _ (List.getElem?_eq_getElem ha)
    unfold DCEL.heAt at h1
    split at h1
    · cases h1
    · rename_i t ht
      have hlt : t < d.halfEdges.length := by
        by_contra hc
        rw [List.getElem?_eq_none (by omega)] at h1
        cases h1
      refine ⟨t, hlt, ?_, ?_, ?_⟩
      · rintro rfl
        rw [List.getElem?_eq_getElem ha] at h1
        cases h1
        exact h3 rfl
      · rw [List.getElem?_eq_getElem ha]
        exact ht
      · rw [h1]
        exact h2
  have hsum : ∑ x ∈ Finset.range d.halfEdges.length, (1 : ZMod 2) = 0 := by
    refine Finset.sum_involution
      (fun a _ => ((d.halfEdges[a]?).bind (fun he => he.twin)).getD 0) ?_ ?_ ?_ ?_
    · intro a _
      decide
    · intro a ha _
      obtain ⟨t, _, h2, h3, _⟩ := key a (Finset.mem_range.mp ha)
      simp only [h3, Option.getD_some]
      exact h2
    · intro a ha
      obtain ⟨t, h1, _, h3, _⟩ := key a (Finset.mem_range.mp ha)
      simp only [h3, Option.getD_some]
      exact Finset.mem_range.mpr h1
    · intro a ha
      obtain ⟨t, _, _, h3, h4⟩ := key a (Finset.mem_range.mp ha)
      simp only [h3, Option.getD_some, h4]
  rw [Finset.sum_const, Finset.card_range, nsmul_eq_mul, mul_one,
    ZMod.natCast_zmod_eq_zero_iff_dvd] at hsum
  omega

/-- C10: for every input the validator accepts, every key of a created
half-edge is the key of exactly two half-edges, which are twins of each other
and lie in two different faces; the number of half-edges is even and
`getEdgeCount() * 2 = getHalfEdgeCount()`. -/
theorem accepted_edges_paired (points : List Point) (loops : List (List Int))
    (hvalid : (DCEL.isValidDCEL (DCEL.loadFromInput points loops).1).1 = true) :
    (∀ p ∈ createdPairs points.length loops.length
        (loops.map (fun l => l.map DCEL.inputToInternal)),
      ∃ (i j : Nat) (hi hj : HalfEdge), i ≠ j ∧
        (∀ t : Nat, ((createdPairs points.length loops.length
          (loops.map (fun l => l.map DCEL.inputToInternal))).map pairKey)[t]? =
            some (pairKey p) ↔ (t = i ∨ t = j)) ∧
        (DCEL.loadFromInput points loops).1.halfEdges[i]? = some hi ∧
        (DCEL.loadFromInput points loops).1.halfEdges[j]? = some hj ∧
        hi.twin = some j ∧ hj.twin = some i ∧ hi.incidentFace ≠ hj.incidentFace) ∧
    DCEL.getHalfEdgeCount (DCEL.loadFromInput points loops).1 % 2 = 0 ∧
    DCEL.getEdgeCount (DCEL.loadFromInput points loops).1 * 2 =
      DCEL.getHalfEdgeCount (DCEL.loadFromInput points loops).1 := by
  obtain ⟨_, hb⟩ := built_loadFromInput points loops
  generalize (DCEL.loadFromInput points loops).1 = d at hb hvalid ⊢
  generalize createdPairs points.length loops.length
    (loops.map (fun l => l.map DCEL.inputToInternal)) = ps at hb ⊢
  have hopen : DCEL.hasOpenEdges d = false := by
    unfold DCEL.isValidDCEL at hvalid
    cases h : DCEL.hasOpenEdges d with
    | false => rfl
    | true => rw [h] at hvalid; simp at hvalid
  have heven := even_of_closed d hopen
  have ho := (hasOpenEdges_false_iff d).mp hopen
  have htwin : ∀ (t : Nat) (q : Nat × Int × Int), ps[t]? = some q →
      ∃ he tw j, d.halfEdges[t]? = some he ∧ he.twin = some j ∧
        lookupTwin d.edgeMap t = some j ∧ d.halfEdges[j]? = some tw ∧
        he.incidentFace ≠ tw.incidentFace := by
    intro t q hq
    obtain ⟨he, h1, _, _, _, h5⟩ := hb.he t q hq
    obtain ⟨tw, h6, _, h8⟩ := ho t he h1
    unfold DCEL.heAt at h6
    split at h6
    · cases h6
    · rename_i j hj
      exact ⟨he, tw, j, h1, hj, by rw [← h5, hj], h6, h8⟩
  refine ⟨?_, heven, ?_⟩
  · intro p hp
    obtain ⟨i, hi⟩ := List.getElem?_of_mem hp
    obtain ⟨he, tw, j, h1, h2, h3, h4, h5⟩ := htwin i p hi
    obtain ⟨hsymm, hne, k, hk1, hk2⟩ := built_twin_symm hb h3
    have hki : (ps.map pairKey)[i]? = some (pairKey p) := by
      rw [List.getElem?_map, hi]; rfl
    have hkk : k = pairKey p := by
      rw [hki] at hk1; exact (Option.some.inj hk1).symm
    subst hkk
    have htwj : tw.twin = some i := by
      obtain ⟨p', hp', _, _, _, h9⟩ := built_heAt hb h4
      rw [h9, hsymm]
    refine ⟨i, j, he, tw, hne, ?_, h1, h4, h2, htwj, h5⟩
    intro t
    constructor
    · intro ht
      have hq : ∃ q, ps[t]? = some q := by
        rw [List.getElem?_map] at ht
        cases hq : ps[t]? with
        | none => rw [hq] at ht; cases ht
        | some q => exact ⟨q, rfl⟩
      obtain ⟨q, hq⟩ := hq
      obtain ⟨_, _, j', _, _, h3', _, _⟩ := htwin t q hq
      exact built_twin_same_key hb h3 h3' hki ht
    · rintro (rfl | rfl)
      · exact hki
      · exact hk2
  · unfold DCEL.getEdgeCount DCEL.getHalfEdgeCount
    omega

/-- C10 at a triangle `1 2 3` and its complement `1 3 2`, which the validator
accepts. -/
theorem accepted_edges_paired_witness :
    (DCEL.isValidDCEL (DCEL.loadFromInput [⟨0, 0⟩, ⟨2, 0⟩, ⟨1, 2⟩]
      [[1, 2, 3], [1, 3, 2]]).1).1 = true ∧
    DCEL.getHalfEdgeCount (DCEL.loadFromInput [⟨0, 0⟩, ⟨2, 0⟩, ⟨1, 2⟩]
      [[1, 2, 3], [1, 3, 2]]).1 % 2 = 0 ∧
    DCEL.getEdgeCount (DCEL.loadFromInput [⟨0, 0⟩, ⟨2, 0⟩, ⟨1, 2⟩] [[1, 2, 3], [1, 3, 2]]).1 * 2 =
      DCEL.getHalfEdgeCount (DCEL.loadFromInput [⟨0, 0⟩, ⟨2, 0⟩, ⟨1, 2⟩]
        [[1, 2, 3], [1, 3, 2]]).1 :=
  ⟨by decide,
    (accepted_edges_paired [⟨0, 0⟩, ⟨2, 0⟩, ⟨1, 2⟩] [[1, 2, 3], [1, 3, 2]] (by decide)).2⟩

/-! ## Planarity check (C5) -/

theorem countEdge_eq (d : DCEL) (m : List (EdgeKey × Int)) (he : HalfEdge) :
    DCEL.countEdge d m he =
      match countedKey d he with
      | some key => mapInsert key ((mapFind key m).getD 0 + 1) m
      | none => m := by
  unfold DCEL.countEdge countedKey
  split <;> simp_all

theorem count_fold (d : DCEL) (l : List HalfEdge) (m : List (EdgeKey × Int))
    (ks : List EdgeKey) (hs : MapSorted m)
    (hm : ∀ k, mapFind k m = if k ∈ ks then some (ks.count k : Int) else none) :
    MapSorted (l.foldl (DCEL.countEdge d) m) ∧
    ∀ k, mapFind k (l.foldl (DCEL.countEdge d) m) =
      if k ∈ ks ++ l.filterMap (countedKey d)
      then some ((ks ++ l.filterMap (countedKey d)).count k : Int) else none := by
  induction l generalizing m ks with
  | nil => simpa using ⟨hs, hm⟩
  | cons he l ih =>
    rw [List.foldl_cons, countEdge_eq]
    cases hk : countedKey d he with
    | none =>
      simp only [List.filterMap_cons, hk]
      exact ih m ks hs hm
    | some key =>
      simp only [List.filterMap_cons, hk]
      have := ih (mapInsert key ((mapFind key m).getD 0 + 1) m) (ks ++ [key])
        (mapSorted_mapInsert _ _ _ hs) (by
          intro k
          by_cases hkk : k = key
          · subst hkk
            rw [mapFind_mapInsert_self, hm k]
            by_cases hmem : k ∈ ks
            · simp [hmem, List.count_append]
            · simp [hmem, List.count_append, List.count_eq_zero_of_not_mem hmem]
          · rw [mapFind_mapInsert_ne _ _ _ _ hkk, hm k]
            have hne : ¬ key = k := fun h => hkk h.symm
            by_cases hmem : k ∈ ks
            · simp [hmem, List.count_append, hkk, hne]
            · simp [hmem, hkk])
      simpa [List.append_assoc] using this

/-- The counts of the planarity check: every counted key is mapped to the
number of half-edges counted under it. -/
theorem edgeFaceCount_spec (d : DCEL) :
    MapSorted (DCEL.edgeFaceCount d) ∧
    ∀ k, mapFind k (DCEL.edgeFaceCount d) =
      if k ∈ countedKeys d then some ((countedKeys d).count k : Int) else none := by
  have := count_fold d d.halfEdges [] [] (by simp [MapSorted]) (by intro k; simp [mapFind])
  simpa [DCEL.edgeFaceCount, countedKeys] using this

/-- C5, as stated, fails: after `loadFromInput` on the single triangle `1 2 3`
every undirected pair of a created half-edge is the key of one half-edge only,
yet the planarity check does not report invalid. -/
theorem planarity_skips_twinless_half_edges :
    ¬ (DCEL.isNonPlanarSubdivision (DCEL.loadFromInput [⟨0, 0⟩, ⟨2, 0⟩, ⟨1, 2⟩] [[1, 2, 3]]).1 = true ↔
        ∃ p ∈ createdPairs 3 1 ([[1, 2, 3]].map (fun l => l.map DCEL.inputToInternal)),
          ((createdPairs 3 1 ([[1, 2, 3]].map (fun l => l.map DCEL.inputToInternal))).map
            pairKey).count (pairKey p) ≠ 2) := by
  decide

/-- C5, amended: the planarity check skips the half-edges without origin or
without destination (a destination is the origin of the twin), and reports
invalid exactly when some pair of vertex indices `{origin, destination}` of a
half-edge it counts is the key of a number of counted half-edges other than 2. -/
theorem isNonPlanarSubdivision_iff (d : DCEL) :
    DCEL.isNonPlanarSubdivision d = true ↔
      ∃ k ∈ countedKeys d, (countedKeys d).count k ≠ 2 := by
  obtain ⟨hs, hm⟩ := edgeFaceCount_spec d
  unfold DCEL.isNonPlanarSubdivision
  rw [List.any_eq_true]
  constructor
  · rintro ⟨⟨k, c⟩, hmem, hc⟩
    have hf := (mem_iff_mapFind _ hs k c).mp hmem
    rw [hm k] at hf
    by_cases hk : k ∈ countedKeys d
    · rw [if_pos hk] at hf
      refine ⟨k, hk, ?_⟩
      intro h2
      rw [h2] at hf
      simp only [decide_eq_true_eq] at hc
      exact hc (Option.some.inj hf).symm
    · rw [if_neg hk] at hf
      cases hf
  · rintro ⟨k, hk, hc⟩
    refine ⟨(k, ((countedKeys d).count k : Int)), ?_, ?_⟩
    · rw [mem_iff_mapFind _ hs, hm k, if_pos hk]
    · simp only [decide_eq_true_eq]
      intro h2
      exact hc (by exact_mod_cast h2)

/-! ## Overlap check: what the loop tests -/

theorem intersectAt_eq_true (d : DCEL) (i j : Nat) (he1 he2 : HalfEdge) :
    DCEL.intersectAt d i j he1 he2 = true ↔
      ¬ (he1.twin = some j ∨ he2.twin = some i) ∧
      he1.origin ≠ he2.origin ∧ he1.origin ≠ d.destination he2 ∧
      d.destination he1 ≠ he2.origin ∧ d.destination he1 ≠ d.destination he2 ∧
      segmentsIntersect (d.getSegmentStart he1) (d.getSegmentEnd he1)
        (d.getSegmentStart he2) (d.getSegmentEnd he2) = true := by
  unfold DCEL.intersectAt
  split_ifs <;> simp_all

theorem hasIntersectingFaces_true_iff (d : DCEL) :
    DCEL.hasIntersectingFaces d = true ↔
      ∃ (i j : Nat) (he1 he2 : HalfEdge), i < j ∧
        d.halfEdges[i]? = some he1 ∧ d.halfEdges[j]? = some he2 ∧
        ¬ (he1.twin = some j ∨ he2.twin = some i) ∧
        he1.origin ≠ he2.origin ∧ he1.origin ≠ d.destination he2 ∧
        d.destination he1 ≠ he2.origin ∧ d.destination he1 ≠ d.destination he2 ∧
        segmentsIntersect (d.getSegmentStart he1) (d.getSegmentEnd he1)
          (d.getSegmentStart he2) (d.getSegmentEnd he2) = true := by
  unfold DCEL.hasIntersectingFaces
  rw [enum_any_iff]
  constructor
  · rintro ⟨i, he1, h1, hin⟩
    rw [enum_any_iff] at hin
    obtain ⟨j, he2, h2, hf⟩ := hin
    simp only [Bool.and_eq_true, decide_eq_true_eq] at hf
    exact ⟨i, j, he1, he2, hf.1, h1, h2, (intersectAt_eq_true d i j he1 he2).mp hf.2⟩
  · rintro ⟨i, j, he1, he2, hlt, h1, h2, hf⟩
    refine ⟨i, he1, h1, ?_⟩
    rw [enum_any_iff]
    refine ⟨j, he2, h2, ?_⟩
    simp only [Bool.and_eq_true, decide_eq_true_eq]
    exact ⟨hlt, (intersectAt_eq_true d i j he1 he2).mpr hf⟩

/-- In the DCEL `loadFromInput` builds, one half-edge is the twin of another
exactly when the two are mutual twins. -/
theorem loadFromInput_twin_mutual (points : List Point) (loops : List (List Int))
    {i j : Nat} {he1 he2 : HalfEdge}
    (h1 : (DCEL.loadFromInput points loops).1.halfEdges[i]? = some he1)
    (h2 : (DCEL.loadFromInput points loops).1.halfEdges[j]? = some he2) :
    (he1.twin = some j ∨ he2.twin = some i) ↔ (he1.twin = some j ∧ he2.twin = some i) := by
  obtain ⟨_, hb⟩ := built_loadFromInput points loops
  obtain ⟨_, _, _, _, _, t1⟩ := built_heAt hb h1
  obtain ⟨_, _, _, _, _, t2⟩ := built_heAt hb h2
  rw [t1, t2]
  constructor
  · rintro (h | h)
    · exact ⟨h, (built_twin_symm hb h).1⟩
    · exact ⟨(built_twin_symm hb h).1, h⟩
  · exact fun h => Or.inl h.1

/-- What the loop of the overlap check computes, with the destination and the
segment end of a half-edge as the code takes them (from the origin of the
twin, which need not be the `to` vertex of the half-edge): it reports invalid
exactly when there are two half-edges at positions `i < j`, neither the twin
of the other, for which none of the four comparisons of `origin` and
`destination()` holds and whose segments make `segmentsIntersect` return true;
in a DCEL built by `loadFromInput` the excluded twin pairs are exactly the
pairs of mutual twins. -/
theorem hasIntersectingFaces_iff (d : DCEL) (points : List Point) (loops : List (List Int)) :
    (DCEL.hasIntersectingFaces d = true ↔
      ∃ (i j : Nat) (he1 he2 : HalfEdge), i < j ∧
        d.halfEdges[i]? = some he1 ∧ d.halfEdges[j]? = some he2 ∧
        ¬ (he1.twin = some j ∨ he2.twin = some i) ∧
        he1.origin ≠ he2.origin ∧ he1.origin ≠ d.destination he2 ∧
        d.destination he1 ≠ he2.origin ∧ d.destination he1 ≠ d.destination he2 ∧
        segmentsIntersect (d.getSegmentStart he1) (d.getSegmentEnd he1)
          (d.getSegmentStart he2) (d.getSegmentEnd he2) = true) ∧
    (DCEL.hasIntersectingFaces (DCEL.loadFromInput points loops).1 = true ↔
      ∃ (i j : Nat) (he1 he2 : HalfEdge), i < j ∧
        (DCEL.loadFromInput points loops).1.halfEdges[i]? = some he1 ∧
        (DCEL.loadFromInput points loops).1.halfEdges[j]? = some he2 ∧
        ¬ (he1.twin = some j ∧ he2.twin = some i) ∧
        he1.origin ≠ he2.origin ∧
        he1.origin ≠ (DCEL.loadFromInput points loops).1.destination he2 ∧
        (DCEL.loadFromInput points loops).1.destination he1 ≠ he2.origin ∧
        (DCEL.loadFromInput points loops).1.destination he1 ≠
          (DCEL.loadFromInput points loops).1.destination he2 ∧
        segmentsIntersect ((DCEL.loadFromInput points loops).1.getSegmentStart he1)
          ((DCEL.loadFromInput points loops).1.getSegmentEnd he1)
          ((DCEL.loadFromInput points loops).1.getSegmentStart he2)
          ((DCEL.loadFromInput points loops).1.getSegmentEnd he2) = true) := by
  refine ⟨hasIntersectingFaces_true_iff d, ?_⟩
  rw [hasIntersectingFaces_true_iff]
  constructor
  · rintro ⟨i, j, he1, he2, hlt, h1, h2, ht, hrest⟩
    exact ⟨i, j, he1, he2, hlt, h1, h2,
      fun h => ht ((loadFromInput_twin_mutual points loops h1 h2).mpr h), hrest⟩
  · rintro ⟨i, j, he1, he2, hlt, h1, h2, ht, hrest⟩
    exact ⟨i, j, he1, he2, hlt, h1, h2,
      fun h => ht ((loadFromInput_twin_mutual points loops h1 h2).mp h), hrest⟩

/-! ## Segment intersection over the reals -/

/-- A point of a segment given in a bounding box form. -/
theorem param_of_colinear_bbox (a b c d e f : ℝ)
    (hv : (d - b) * (e - c) - (c - a) * (f - d) = 0)
    (hx1 : e ≤ a ∨ e ≤ c) (hx2 : a ≤ e ∨ c ≤ e) (hy1 : f ≤ b ∨ f ≤ d) (hy2 : b ≤ f ∨ d ≤ f) :
    ∃ s : ℝ, 0 ≤ s ∧ s ≤ 1 ∧ a + s * (c - a) = e ∧ b + s * (d - b) = f := by
  by_cases hac : a = c
  · subst hac
    have hea : e = a := by rcases hx1 with h | h <;> rcases hx2 with h' | h' <;> linarith
    subst hea
    by_cases hbd : b = d
    · subst hbd
      have hfb : f = b := by rcases hy1 with h | h <;> rcases hy2 with h' | h' <;> linarith
      exact ⟨0, le_refl _, zero_le_one, by ring, by rw [hfb]; ring⟩
    · rcases lt_or_gt_of_ne hbd with hlt | hgt
      · have h1 : b ≤ f := by rcases hy2 with h | h <;> linarith
        have h2 : f ≤ d := by rcases hy1 with h | h <;> linarith
        have hpos : 0 < d - b := by linarith
        refine ⟨(f - b) / (d - b), div_nonneg (by linarith) hpos.le,
          (div_le_one hpos).mpr (by linarith), by ring, ?_⟩
        field_simp
      · have h1 : d ≤ f := by rcases hy2 with h | h <;> linarith
        have h2 : f ≤ b := by rcases hy1 with h | h <;> linarith
        have hpos : 0 < b - d := by linarith
        refine ⟨(b - f) / (b - d), div_nonneg (by linarith) hpos.le,
          (div_le_one hpos).mpr (by linarith), by ring, ?_⟩
        field_simp
        ring
  · rcases lt_or_gt_of_ne hac with hlt | hgt
    · have h1 : a ≤ e := by rcases hx2 with h | h <;> linarith
      have h2 : e ≤ c := by rcases hx1 with h | h <;> linarith
      have hpos : 0 < c - a := by linarith
      refine ⟨(e - a) / (c - a), div_nonneg (by linarith) hpos.le,
        (div_le_one hpos).mpr (by linarith), ?_, ?_⟩
      · field_simp
      · field_simp
        linear_combination hv
    · have h1 : c ≤ e := by rcases hx2 with h | h <;> linarith
      have h2 : e ≤ a := by rcases hx1 with h | h <;> linarith
      have hpos : 0 < a - c := by linarith
      refine ⟨(a - e) / (a - c), div_nonneg (by linarith) hpos.le,
        (div_le_one hpos).mpr (by linarith), ?_, ?_⟩
      · field_simp
        ring
      · field_simp
        linear_combination -hv

theorem bbox_of_param (a c e s : ℝ) (h0 : 0 ≤ s) (h1 : s ≤ 1) (h : a + s * (c - a) = e) :
    (e ≤ a ∨ e ≤ c) ∧ (a ≤ e ∨ c ≤ e) := by
  rcases le_total a c with hac | hac
  · have : 0 ≤ s * (c - a) := mul_nonneg h0 (by linarith)
    have : 0 ≤ (1 - s) * (c - a) := mul_nonneg (by linarith) (by linarith)
    exact ⟨Or.inr (by nlinarith), Or.inl (by nlinarith)⟩
  · have : 0 ≤ s * (a - c) := mul_nonneg h0 (by linarith)
    have : 0 ≤ (1 - s) * (a - c) := mul_nonneg (by linarith) (by linarith)
    exact ⟨Or.inl (by nlinarith), Or.inr (by nlinarith)⟩

/-- A common point of two segments, on each of the two lines. -/
theorem meet_line_eq (a b c d e f g h s t : ℝ)
    (hx : a + s * (c - a) = e + t * (g - e)) (hy : b + s * (d - b) = f + t * (h - f)) :
    (1 - t) * ((d - b) * (e - c) - (c - a) * (f - d)) +
      t * ((d - b) * (g - c) - (c - a) * (h - d)) = 0 ∧
    (1 - s) * ((h - f) * (a - g) - (g - e) * (b - h)) +
      s * ((h - f) * (c - g) - (g - e) * (d - h)) = 0 := by
  constructor
  · linear_combination (-(d - b)) * hx + (c - a) * hy
  · linear_combination (h - f) * hx - (g - e) * hy


theorem ratio_mem (x y : ℝ) (h : ¬ SameSign x y) :
    x - y ≠ 0 ∧ 0 ≤ x / (x - y) ∧ x / (x - y) ≤ 1 := by
  unfold SameSign at h
  push_neg at h
  obtain ⟨h0, hp, hn⟩ := h
  rcases lt_trichotomy x 0 with hx | hx | hx
  · have hy : 0 ≤ y := hn hx
    have hneg : x - y < 0 := by linarith
    refine ⟨ne_of_lt hneg, div_nonneg_of_nonpos hx.le hneg.le, ?_⟩
    rw [div_le_one_of_neg hneg]
    linarith
  · subst hx
    have hy : y ≠ 0 := h0 rfl
    refine ⟨by simpa using hy, by simp, by simp⟩
  · have hy : y ≤ 0 := hp hx
    have hpos : 0 < x - y := by linarith
    refine ⟨ne_of_gt hpos, div_nonneg hx.le hpos.le, ?_⟩
    rw [div_le_one hpos]
    linarith

/-- Crossing case: the endpoints of each segment lie on different sides of
(or on) the line of the other one. -/
theorem meet_of_crossing (a b c d e f g h : ℝ)
    (h12 : ¬ SameSign ((d - b) * (e - c) - (c - a) * (f - d))
      ((d - b) * (g - c) - (c - a) * (h - d)))
    (h34 : ¬ SameSign ((h - f) * (a - g) - (g - e) * (b - h))
      ((h - f) * (c - g) - (g - e) * (d - h))) :
    ∃ s t : ℝ, 0 ≤ s ∧ s ≤ 1 ∧ 0 ≤ t ∧ t ≤ 1 ∧
      a + s * (c - a) = e + t * (g - e) ∧ b + s * (d - b) = f + t * (h - f) := by
  obtain ⟨n12, t0, t1⟩ := ratio_mem _ _ h12
  obtain ⟨n34, s0, s1⟩ := ratio_mem _ _ h34
  refine ⟨_, _, s0, s1, t0, t1, ?_, ?_⟩
  · field_simp
    ring
  · field_simp
    ring

theorem inBox_of_param (a b c d e f s : ℝ) (h0 : 0 ≤ s) (h1 : s ≤ 1)
    (hx : a + s * (c - a) = e) (hy : b + s * (d - b) = f) : InBox a b e f c d := by
  obtain ⟨x1, x2⟩ := bbox_of_param a c e s h0 h1 hx
  obtain ⟨y1, y2⟩ := bbox_of_param b d f s h0 h1 hy
  exact ⟨x1, x2, y1, y2⟩

/-- Colinear case: when both endpoints of the second segment lie on the line
of the first one and the segments meet, an endpoint of one lies on the other. -/
theorem colinear_meet (a b c d e f g h s t : ℝ)
    (hs0 : 0 ≤ s) (hs1 : s ≤ 1) (ht0 : 0 ≤ t) (ht1 : t ≤ 1)
    (hx : a + s * (c - a) = e + t * (g - e)) (hy : b + s * (d - b) = f + t * (h - f))
    (hv1 : (d - b) * (e - c) - (c - a) * (f - d) = 0)
    (hv2 : (d - b) * (g - c) - (c - a) * (h - d) = 0) :
    InBox a b e f c d ∨ InBox a b g h c d ∨
      ((h - f) * (a - g) - (g - e) * (b - h) = 0 ∧ InBox e f a b g h) := by
  by_cases hu : c - a = 0 ∧ d - b = 0
  · obtain ⟨hu1, hu2⟩ := hu
    rw [hu1] at hx
    rw [hu2] at hy
    refine Or.inr (Or.inr ⟨?_, inBox_of_param e f g h a b t ht0 ht1 (by linarith) (by linarith)⟩)
    have ha : a = e + t * (g - e) := by linarith
    have hb : b = f + t * (h - f) := by linarith
    rw [ha, hb]
    ring
  · have hN : 0 < (c - a) ^ 2 + (d - b) ^ 2 := by
      by_contra hc
      have h1 : (c - a) ^ 2 = 0 := by nlinarith [sq_nonneg (c - a), sq_nonneg (d - b)]
      have h2 : (d - b) ^ 2 = 0 := by nlinarith [sq_nonneg (c - a), sq_nonneg (d - b)]
      exact hu ⟨by simpa using h1, by simpa using h2⟩
    have hN' : (c - a) ^ 2 + (d - b) ^ 2 ≠ 0 := ne_of_gt hN
    obtain ⟨α, hα⟩ : ∃ α : ℝ, α = ((e - a) * (c - a) + (f - b) * (d - b)) /
        ((c - a) ^ 2 + (d - b) ^ 2) := ⟨_, rfl⟩
    obtain ⟨β, hβ⟩ : ∃ β : ℝ, β = ((g - a) * (c - a) + (h - b) * (d - b)) /
        ((c - a) ^ 2 + (d - b) ^ 2) := ⟨_, rfl⟩
    have hex : a + α * (c - a) = e := by
      rw [hα]; field_simp; linear_combination (-(d - b)) * hv1
    have hey : b + α * (d - b) = f := by
      rw [hα]; field_simp; linear_combination (c - a) * hv1
    have hgx : a + β * (c - a) = g := by
      rw [hβ]; field_simp; linear_combination (-(d - b)) * hv2
    have hgy : b + β * (d - b) = h := by
      rw [hβ]; field_simp; linear_combination (c - a) * hv2
    have hs : s = (1 - t) * α + t * β := by
      have e1 : (s - ((1 - t) * α + t * β)) * (c - a) = 0 := by
        rw [← hex, ← hgx] at hx; linear_combination hx
      have e2 : (s - ((1 - t) * α + t * β)) * (d - b) = 0 := by
        rw [← hey, ← hgy] at hy; linear_combination hy
      have e3 : (s - ((1 - t) * α + t * β)) * ((c - a) ^ 2 + (d - b) ^ 2) = 0 := by
        linear_combination (c - a) * e1 + (d - b) * e2
      have := (mul_eq_zero.mp e3).resolve_right hN'
      linarith
    by_cases hα01 : 0 ≤ α ∧ α ≤ 1
    · exact Or.inl (inBox_of_param a b c d e f α hα01.1 hα01.2 hex hey)
    by_cases hβ01 : 0 ≤ β ∧ β ≤ 1
    · exact Or.inr (Or.inl (inBox_of_param a b c d g h β hβ01.1 hβ01.2 hgx hgy))
    have hαβ : (α < 0 ∧ 1 < β) ∨ (1 < α ∧ β < 0) := by
      have hα' : α < 0 ∨ 1 < α := by
        by_contra hc; push_neg at hc; exact hα01 hc
      have hβ' : β < 0 ∨ 1 < β := by
        by_contra hc; push_neg at hc; exact hβ01 hc
      rcases hα' with ha | ha <;> rcases hβ' with hb | hb
      · exfalso; nlinarith [mul_nonneg ht0 (by linarith : (0:ℝ) ≤ -β),
          mul_nonneg (by linarith : (0:ℝ) ≤ 1 - t) (by linarith : (0:ℝ) ≤ -α)]
      · exact Or.inl ⟨ha, hb⟩
      · exact Or.inr ⟨ha, hb⟩
      · exfalso; nlinarith [mul_nonneg ht0 (by linarith : (0:ℝ) ≤ β - 1),
          mul_nonneg (by linarith : (0:ℝ) ≤ 1 - t) (by linarith : (0:ℝ) ≤ α - 1)]
    have hne : α - β ≠ 0 := by rcases hαβ with h' | h' <;> intro hc <;> linarith
    have hτ0 : 0 ≤ α / (α - β) := by
      rcases hαβ with h' | h'
      · exact div_nonneg_of_nonpos h'.1.le (by linarith)
      · exact div_nonneg (by linarith) (by linarith)
    have hτ1 : α / (α - β) ≤ 1 := by
      rcases hαβ with h' | h'
      · rw [div_le_one_of_neg (by linarith)]; linarith
      · rw [div_le_one (by linarith)]; linarith
    refine Or.inr (Or.inr ⟨?_, inBox_of_param e f g h a b (α / (α - β)) hτ0 hτ1 ?_ ?_⟩)
    · rw [← hex, ← hey, ← hgx, ← hgy]; ring
    · rw [← hex, ← hgx]; field_simp; ring
    · rw [← hey, ← hgy]; field_simp; ring

theorem not_sameSign_of_convex (x y t : ℝ) (t0 : 0 ≤ t) (t1 : t ≤ 1) (hx : x ≠ 0) (hy : y ≠ 0)
    (h : (1 - t) * x + t * y = 0) : ¬ SameSign x y := by
  rintro (⟨h1, _⟩ | ⟨h1, h2⟩ | ⟨h1, h2⟩)
  · exact hx h1
  · have p1 : 0 ≤ (1 - t) * x := mul_nonneg (by linarith) h1.le
    have p2 : 0 ≤ t * y := mul_nonneg t0 h2.le
    have e1 : (1 - t) * x = 0 := by linarith
    have e2 : t * y = 0 := by linarith
    have := (mul_eq_zero.mp e1).resolve_right hx
    have := (mul_eq_zero.mp e2).resolve_right hy
    linarith
  · have p1 : (1 - t) * x ≤ 0 := mul_nonpos_of_nonneg_of_nonpos (by linarith) h1.le
    have p2 : t * y ≤ 0 := mul_nonpos_of_nonneg_of_nonpos t0 h2.le
    have e1 : (1 - t) * x = 0 := by linarith
    have e2 : t * y = 0 := by linarith
    have := (mul_eq_zero.mp e1).resolve_right hx
    have := (mul_eq_zero.mp e2).resolve_right hy
    linarith

/-- The tests of `segmentsIntersect` after its first one, over the reals, hold
exactly when the two closed segments have a common point. -/
theorem tests_iff_meet (a b c d e f g h : ℝ) :
    ((¬ SameSign ((d - b) * (e - c) - (c - a) * (f - d))
          ((d - b) * (g - c) - (c - a) * (h - d)) ∧
        ¬ SameSign ((h - f) * (a - g) - (g - e) * (b - h))
          ((h - f) * (c - g) - (g - e) * (d - h))) ∨
      ((d - b) * (e - c) - (c - a) * (f - d) = 0 ∧ InBox a b e f c d) ∨
      ((d - b) * (g - c) - (c - a) * (h - d) = 0 ∧ InBox a b g h c d) ∨
      ((h - f) * (a - g) - (g - e) * (b - h) = 0 ∧ InBox e f a b g h) ∨
      ((h - f) * (c - g) - (g - e) * (d - h) = 0 ∧ InBox e f c d g h)) ↔
    ∃ s t : ℝ, 0 ≤ s ∧ s ≤ 1 ∧ 0 ≤ t ∧ t ≤ 1 ∧
      a + s * (c - a) = e + t * (g - e) ∧ b + s * (d - b) = f + t * (h - f) := by
  constructor
  · rintro (⟨h12, h34⟩ | ⟨hv, hb⟩ | ⟨hv, hb⟩ | ⟨hv, hb⟩ | ⟨hv, hb⟩)
    · exact meet_of_crossing a b c d e f g h h12 h34
    · obtain ⟨s, s0, s1, hx, hy⟩ :=
        param_of_colinear_bbox a b c d e f hv hb.1 hb.2.1 hb.2.2.1 hb.2.2.2
      exact ⟨s, 0, s0, s1, le_refl _, zero_le_one, by linarith, by linarith⟩
    · obtain ⟨s, s0, s1, hx, hy⟩ :=
        param_of_colinear_bbox a b c d g h hv hb.1 hb.2.1 hb.2.2.1 hb.2.2.2
      exact ⟨s, 1, s0, s1, zero_le_one, le_refl _, by linarith, by linarith⟩
    · obtain ⟨t, t0, t1, hx, hy⟩ :=
        param_of_colinear_bbox e f g h a b hv hb.1 hb.2.1 hb.2.2.1 hb.2.2.2
      exact ⟨0, t, le_refl _, zero_le_one, t0, t1, by linarith, by linarith⟩
    · obtain ⟨t, t0, t1, hx, hy⟩ :=
        param_of_colinear_bbox e f g h c d hv hb.1 hb.2.1 hb.2.2.1 hb.2.2.2
      exact ⟨1, t, zero_le_one, le_refl _, t0, t1, by linarith, by linarith⟩
  · rintro ⟨s, t, s0, s1, t0, t1, hx, hy⟩
    obtain ⟨E1, E2⟩ := meet_line_eq a b c d e f g h s t hx hy
    by_cases z1 : (d - b) * (e - c) - (c - a) * (f - d) = 0
    · by_cases z2 : (d - b) * (g - c) - (c - a) * (h - d) = 0
      · rcases colinear_meet a b c d e f g h s t s0 s1 t0 t1 hx hy z1 z2 with hb | hb | hb
        · exact Or.inr (Or.inl ⟨z1, hb⟩)
        · exact Or.inr (Or.inr (Or.inl ⟨z2, hb⟩))
        · exact Or.inr (Or.inr (Or.inr (Or.inl hb)))
      · have ht : t = 0 := by
          rw [z1] at E1
          have : t * ((d - b) * (g - c) - (c - a) * (h - d)) = 0 := by linarith
          exact (mul_eq_zero.mp this).resolve_right z2
        subst ht
        exact Or.inr (Or.inl ⟨z1, inBox_of_param a b c d e f s s0 s1 (by linarith) (by linarith)⟩)
    · by_cases z2 : (d - b) * (g - c) - (c - a) * (h - d) = 0
      · have ht : t = 1 := by
          rw [z2] at E1
          have : (1 - t) * ((d - b) * (e - c) - (c - a) * (f - d)) = 0 := by linarith
          have := (mul_eq_zero.mp this).resolve_right z1
          linarith
        subst ht
        exact Or.inr (Or.inr (Or.inl
          ⟨z2, inBox_of_param a b c d g h s s0 s1 (by linarith) (by linarith)⟩))
      · by_cases z3 : (h - f) * (a - g) - (g - e) * (b - h) = 0
        · by_cases z4 : (h - f) * (c - g) - (g - e) * (d - h) = 0
          · rcases colinear_meet e f g h a b c d t s t0 t1 s0 s1 hx.symm hy.symm z3 z4
              with hb | hb | hb
            · exact Or.inr (Or.inr (Or.inr (Or.inl ⟨z3, hb⟩)))
            · exact Or.inr (Or.inr (Or.inr (Or.inr ⟨z4, hb⟩)))
            · exact Or.inr (Or.inl hb)
          · have hs : s = 0 := by
              rw [z3] at E2
              have : s * ((h - f) * (c - g) - (g - e) * (d - h)) = 0 := by linarith
              exact (mul_eq_zero.mp this).resolve_right z4
            subst hs
            exact Or.inr (Or.inr (Or.inr (Or.inl
              ⟨z3, inBox_of_param e f g h a b t t0 t1 (by linarith) (by linarith)⟩)))
        · by_cases z4 : (h - f) * (c - g) - (g - e) * (d - h) = 0
          · have hs : s = 1 := by
              rw [z4] at E2
              have : (1 - s) * ((h - f) * (a - g) - (g - e) * (b - h)) = 0 := by linarith
              have := (mul_eq_zero.mp this).resolve_right z3
              linarith
            subst hs
            exact Or.inr (Or.inr (Or.inr (Or.inr
              ⟨z4, inBox_of_param e f g h c d t t0 t1 (by linarith) (by linarith)⟩)))
          · exact Or.inl ⟨not_sameSign_of_convex _ _ t t0 t1 z1 z2 E1,
              not_sameSign_of_convex _ _ s s0 s1 z3 z4 E2⟩


/-! ## Segment intersection (C7) -/

theorem segmentsIntersect_eq_true (p1 q1 p2 q2 : Point) :
    segmentsIntersect p1 q1 p2 q2 = true ↔
      (p1 ≠ p2 ∧ p1 ≠ q2 ∧ q1 ≠ p2 ∧ q1 ≠ q2) ∧
      ((orientation p1 q1 p2 ≠ orientation p1 q1 q2 ∧
          orientation p2 q2 p1 ≠ orientation p2 q2 q1) ∨
        (orientation p1 q1 p2 = Orientation.COLINEAR ∧ onSegment p1 p2 q1 = true) ∨
        (orientation p1 q1 q2 = Orientation.COLINEAR ∧ onSegment p1 q2 q1 = true) ∨
        (orientation p2 q2 p1 = Orientation.COLINEAR ∧ onSegment p2 p1 q2 = true) ∨
        (orientation p2 q2 q1 = Orientation.COLINEAR ∧ onSegment p2 q1 q2 = true)) := by
  unfold segmentsIntersect
  simp only
  split_ifs <;> simp_all
  tauto

theorem orientation_of_small (a b c : Point) (ha : a.small) (hb : b.small) (hc : c.small) :
    orientation a b c =
      if exactVal a b c = 0 then Orientation.COLINEAR
      else if exactVal a b c > 0 then Orientation.ANTIHORARIO else Orientation.HORARIO := by
  unfold orientation
  simp only [orientationVal_eq a b c ha hb hc]

theorem sign_label_eq_iff (x y : Int) :
    ((if x = 0 then Orientation.COLINEAR
        else if x > 0 then Orientation.ANTIHORARIO else Orientation.HORARIO) =
      (if y = 0 then Orientation.COLINEAR
        else if y > 0 then Orientation.ANTIHORARIO else Orientation.HORARIO)) ↔
    SameSign (x : ℝ) (y : ℝ) := by
  unfold SameSign
  simp only [Int.cast_eq_zero, Int.cast_pos, Int.cast_lt_zero]
  split_ifs <;> simp <;> omega

theorem orientation_eq_iff (p q r r' : Point) (hp : p.small) (hq : q.small) (hr : r.small)
    (hr' : r'.small) :
    orientation p q r = orientation p q r' ↔
      SameSign ((exactVal p q r : Int) : ℝ) ((exactVal p q r' : Int) : ℝ) := by
  rw [orientation_of_small p q r hp hq hr, orientation_of_small p q r' hp hq hr']
  exact sign_label_eq_iff _ _

theorem orientation_colinear_iff (p q r : Point) (hp : p.small) (hq : q.small) (hr : r.small) :
    orientation p q r = Orientation.COLINEAR ↔ ((exactVal p q r : Int) : ℝ) = 0 := by
  rw [orientation_of_small p q r hp hq hr, Int.cast_eq_zero]
  split_ifs <;> simp_all

theorem onSegment_iff (p q r : Point) :
    onSegment p q r = true ↔
      InBox (p.x : ℝ) (p.y : ℝ) (q.x : ℝ) (q.y : ℝ) (r.x : ℝ) (r.y : ℝ) := by
  unfold onSegment InBox
  simp only [Bool.and_eq_true, decide_eq_true_eq, le_max_iff, ge_iff_le, min_le_iff, Int.cast_le]
  tauto

theorem exactVal_cast (p q r : Point) :
    ((exactVal p q r : Int) : ℝ) =
      ((q.y : ℝ) - (p.y : ℝ)) * ((r.x : ℝ) - (q.x : ℝ)) -
        ((q.x : ℝ) - (p.x : ℝ)) * ((r.y : ℝ) - (q.y : ℝ)) := by
  unfold exactVal
  push_cast
  ring

/-- C7: for points whose coordinates are below `2^30` in absolute value,
`segmentsIntersect` returns true exactly when no endpoint of the first segment
equals an endpoint of the second and the two closed segments have a point in
common; it returns false when an endpoint pair coincides. -/
theorem segmentsIntersect_iff (p1 q1 p2 q2 : Point) (hp1 : p1.small) (hq1 : q1.small)
    (hp2 : p2.small) (hq2 : q2.small) :
    (segmentsIntersect p1 q1 p2 q2 = true ↔
      (p1 ≠ p2 ∧ p1 ≠ q2 ∧ q1 ≠ p2 ∧ q1 ≠ q2) ∧ SegmentsMeet p1 q1 p2 q2) ∧
    ((p1 = p2 ∨ p1 = q2 ∨ q1 = p2 ∨ q1 = q2) → segmentsIntersect p1 q1 p2 q2 = false) := by
  have key : segmentsIntersect p1 q1 p2 q2 = true ↔
      (p1 ≠ p2 ∧ p1 ≠ q2 ∧ q1 ≠ p2 ∧ q1 ≠ q2) ∧ SegmentsMeet p1 q1 p2 q2 := by
    have e1 := orientation_eq_iff p1 q1 p2 q2 hp1 hq1 hp2 hq2
    have e2 := orientation_eq_iff p2 q2 p1 q1 hp2 hq2 hp1 hq1
    have c1 := orientation_colinear_iff p1 q1 p2 hp1 hq1 hp2
    have c2 := orientation_colinear_iff p1 q1 q2 hp1 hq1 hq2
    have c3 := orientation_colinear_iff p2 q2 p1 hp2 hq2 hp1
    have c4 := orientation_colinear_iff p2 q2 q1 hp2 hq2 hq1
    rw [exactVal_cast] at c1 c2 c3 c4
    rw [exactVal_cast, exactVal_cast] at e1 e2
    rw [segmentsIntersect_eq_true]
    simp only [ne_eq, e1, e2, c1, c2, c3, c4, onSegment_iff]
    rw [tests_iff_meet]
    rfl
  refine ⟨key, ?_⟩
  intro h
  rw [← Bool.not_eq_true, key]
  rintro ⟨⟨h1, h2, h3, h4⟩, _⟩
  rcases h with h | h | h | h
  · exact h1 h
  · exact h2 h
  · exact h3 h
  · exact h4 h

/-- C7 at the crossing diagonals of the square `(0,0), (2,0), (2,2), (0,2)`. -/
theorem segmentsIntersect_iff_witness :
    Point.small ⟨0, 0⟩ ∧ Point.small ⟨2, 2⟩ ∧ Point.small ⟨0, 2⟩ ∧ Point.small ⟨2, 0⟩ ∧
    (segmentsIntersect ⟨0, 0⟩ ⟨2, 2⟩ ⟨0, 2⟩ ⟨2, 0⟩ = true ↔
      ((⟨0, 0⟩ : Point) ≠ ⟨0, 2⟩ ∧ (⟨0, 0⟩ : Point) ≠ ⟨2, 0⟩ ∧ (⟨2, 2⟩ : Point) ≠ ⟨0, 2⟩ ∧
        (⟨2, 2⟩ : Point) ≠ ⟨2, 0⟩) ∧ SegmentsMeet ⟨0, 0⟩ ⟨2, 2⟩ ⟨0, 2⟩ ⟨2, 0⟩) :=
  ⟨by decide, by decide, by decide, by decide,
    (segmentsIntersect_iff ⟨0, 0⟩ ⟨2, 2⟩ ⟨0, 2⟩ ⟨2, 0⟩ (by decide) (by decide) (by decide)
      (by decide)).1⟩

/-! ## Twin links of the builder (C12, C19) -/

/-- In a built DCEL a twin reference points to a half-edge of a created pair
whose own twin is found by the map. -/
theorem built_twin_target {d : DCEL} {ps : List (Nat × Int × Int)} (hb : Built d ps)
    {i j : Nat} {he : HalfEdge} (h1 : d.halfEdges[i]? = some he) (h2 : he.twin = some j) :
    j ≠ i ∧ (∃ k, (ps.map pairKey)[i]? = some k ∧ (ps.map pairKey)[j]? = some k) ∧
      ∃ tw, d.halfEdges[j]? = some tw ∧ tw.twin = some i := by
  obtain ⟨_, _, _, _, _, ht⟩ := built_heAt hb h1
  rw [h2] at ht
  obtain ⟨hsymm, hne, k, hk1, hk2⟩ := built_twin_symm hb ht.symm
  have hj : ∃ q, ps[j]? = some q := by
    rw [List.getElem?_map] at hk2
    cases hq : ps[j]? with
    | none => rw [hq] at hk2; cases hk2
    | some q => exact ⟨q, rfl⟩
  obtain ⟨q, hq⟩ := hj
  obtain ⟨tw, t1, _, _, _, t5⟩ := hb.he j q hq
  exact ⟨fun h => hne h.symm, ⟨k, hk1, hk2⟩, tw, t1, by rw [t5, hsymm]⟩

/-- C12: in the DCEL the builder produces, every half-edge that has a twin is
not its own twin and is the twin of its twin. -/
theorem twin_links_reciprocal (points : List Point) (loops : List (List Int)) (i j : Nat)
    (he : HalfEdge) (h1 : (DCEL.loadFromInput points loops).1.halfEdges[i]? = some he)
    (h2 : he.twin = some j) :
    j ≠ i ∧ ∃ tw, (DCEL.loadFromInput points loops).1.halfEdges[j]? = some tw ∧
      tw.twin = some i := by
  obtain ⟨_, hb⟩ := built_loadFromInput points loops
  obtain ⟨hne, _, htw⟩ := built_twin_target hb h1 h2
  exact ⟨hne, htw⟩

/-- C12 on three copies of the triangle `1 2 3`, where every undirected edge is
used three times: half-edge 0 has twin 6, and 6 has twin 0. -/
theorem twin_links_reciprocal_witness :
    ((DCEL.loadFromInput [⟨0, 0⟩, ⟨2, 0⟩, ⟨1, 2⟩] [[1, 2, 3], [1, 2, 3], [1, 2, 3]]).1.halfEdges[0]? =
        some { index := 0, origin := some 0, twin := some 6, incidentFace := some 0,
               next := some 0, prev := some 0 }) ∧
    (6 ≠ 0 ∧ ∃ tw, (DCEL.loadFromInput [⟨0, 0⟩, ⟨2, 0⟩, ⟨1, 2⟩]
        [[1, 2, 3], [1, 2, 3], [1, 2, 3]]).1.halfEdges[6]? = some tw ∧ tw.twin = some 0) :=
  ⟨by decide,
    twin_links_reciprocal [⟨0, 0⟩, ⟨2, 0⟩, ⟨1, 2⟩] [[1, 2, 3], [1, 2, 3], [1, 2, 3]] 0 6
      { index := 0, origin := some 0, twin := some 6, incidentFace := some 0,
        next := some 0, prev := some 0 } (by decide) rfl⟩

theorem getElem?_map_some {α β : Type} {l : List α} {f : α → β} {i : Nat} {b : β}
    (h : (l.map f)[i]? = some b) : ∃ a, l[i]? = some a ∧ f a = b := by
  rw [List.getElem?_map] at h
  cases ha : l[i]? with
  | none => rw [ha] at h; cases h
  | some a => rw [ha] at h; exact ⟨a, rfl, Option.some.inj h⟩

/-- A half-edge whose key no other half-edge has gets no twin. -/
theorem built_single_no_twin {d : DCEL} {ps : List (Nat × Int × Int)} (hb : Built d ps)
    {i : Nat} {k : EdgeKey} {he : HalfEdge} (hk : (ps.map pairKey)[i]? = some k)
    (huniq : ∀ t, (ps.map pairKey)[t]? = some k → t = i)
    (h1 : d.halfEdges[i]? = some he) : he.twin = none := by
  cases ht : he.twin with
  | none => rfl
  | some j =>
    obtain ⟨hne, ⟨k', hk1, hk2⟩, _⟩ := built_twin_target hb h1 ht
    rw [hk] at hk1
    rw [← Option.some.inj hk1] at hk2
    exact absurd (huniq j hk2) hne

/-- The two half-edges of a key that exactly two half-edges have are twins of
each other. -/
theorem built_pair_twins {d : DCEL} {ps : List (Nat × Int × Int)} (hb : Built d ps)
    {i j : Nat} {k : EdgeKey} (hne : i ≠ j)
    (hk : ∀ t, (ps.map pairKey)[t]? = some k ↔ (t = i ∨ t = j)) :
    ∃ hi hj : HalfEdge, d.halfEdges[i]? = some hi ∧ d.halfEdges[j]? = some hj ∧
      hi.twin = some j ∧ hj.twin = some i := by
  have hki := (hk i).mpr (Or.inl rfl)
  have hkj := (hk j).mpr (Or.inr rfl)
  have hentry := hb.entry k
  have hij : lookupTwin d.edgeMap i = some j := by
    cases hf : mapFind k d.edgeMap with
    | none =>
      rw [hf] at hentry
      exact absurd (List.getElem?_mem hki) hentry
    | some e =>
      rw [hf] at hentry
      obtain ⟨x, y⟩ := e
      cases x with
      | none => exact absurd hentry (by simp [EntryOK])
      | some a =>
        cases y with
        | none =>
          have h1 := (hentry i).mp hki
          have h2 := (hentry j).mp hkj
          omega
        | some b =>
          obtain ⟨hab, ha, hb'⟩ := hentry
          have hmem : (k, (some a, some b)) ∈ d.edgeMap := (mem_iff_mapFind _ hb.sorted _ _).mpr hf
          rw [lookupTwin_eq_some_iff hb.sorted hb.entry]
          refine ⟨_, hmem, ?_⟩
          have h1 := (hk a).mp ha
          have h2 := (hk b).mp hb'
          simp only [twinFromEntry]
          rcases h1 with h1 | h1 <;> rcases h2 with h2 | h2
          · omega
          · subst h1; subst h2; simp
          · subst h1; subst h2
            have : ¬ b = a := fun h => hab h.symm
            simp [this]
          · omega
  have hji := (built_twin_symm hb hij).1
  obtain ⟨p, hp, _⟩ := getElem?_map_some hki
  obtain ⟨q, hq, _⟩ := getElem?_map_some hkj
  obtain ⟨hi, a1, _, _, _, a5⟩ := hb.he i p hp
  obtain ⟨hj, b1, _, _, _, b5⟩ := hb.he j q hq
  exact ⟨hi, hj, a1, b1, by rw [a5, hij], by rw [b5, hji]⟩

/-- C19: in the DCEL the builder produces, a half-edge whose undirected key no
other half-edge has gets no twin; when exactly two half-edges have a key, they
are twins of each other (whatever their directions and faces); and the twin of
a half-edge always has the key of that half-edge. -/
theorem twin_resolution (points : List Point) (loops : List (List Int)) :
    (∀ (i : Nat) (k : EdgeKey) (he : HalfEdge),
      ((createdPairs points.length loops.length
        (loops.map (fun l => l.map DCEL.inputToInternal))).map pairKey)[i]? = some k →
      (∀ t : Nat, ((createdPairs points.length loops.length
        (loops.map (fun l => l.map DCEL.inputToInternal))).map pairKey)[t]? = some k → t = i) →
      (DCEL.loadFromInput points loops).1.halfEdges[i]? = some he → he.twin = none) ∧
    (∀ (i j : Nat) (k : EdgeKey), i ≠ j →
      (∀ t : Nat, ((createdPairs points.length loops.length
        (loops.map (fun l => l.map DCEL.inputToInternal))).map pairKey)[t]? = some k ↔
          (t = i ∨ t = j)) →
      ∃ hi hj : HalfEdge, (DCEL.loadFromInput points loops).1.halfEdges[i]? = some hi ∧
        (DCEL.loadFromInput points loops).1.halfEdges[j]? = some hj ∧
        hi.twin = some j ∧ hj.twin = some i) ∧
    (∀ (i j : Nat) (he : HalfEdge),
      (DCEL.loadFromInput points loops).1.halfEdges[i]? = some he → he.twin = some j →
      ∃ k, ((createdPairs points.length loops.length
          (loops.map (fun l => l.map DCEL.inputToInternal))).map pairKey)[i]? = some k ∧
        ((createdPairs points.length loops.length
          (loops.map (fun l => l.map DCEL.inputToInternal))).map pairKey)[j]? = some k) := by
  obtain ⟨_, hb⟩ := built_loadFromInput points loops
  refine ⟨?_, ?_, ?_⟩
  · intro i k he hk huniq h1
    exact built_single_no_twin hb hk huniq h1
  · intro i j k hne hk
    exact built_pair_twins hb hne hk
  · intro i j he h1 h2
    exact (built_twin_target hb h1 h2).2.1

/-- C19 on the two triangles `1 2 3` and `2 4 3`: the key of the vertices 2 and
3 belongs to the half-edges 1 and 5 only, which are twins of each other. -/
theorem twin_resolution_witness :
    (1 : Nat) ≠ 5 ∧
    (∀ t : Nat, ((createdPairs 4 2
        ([[1, 2, 3], [2, 4, 3]].map (fun l => l.map DCEL.inputToInternal))).map pairKey)[t]? =
          some ⟨1, 2⟩ ↔ (t = 1 ∨ t = 5)) ∧
    ∃ hi hj : HalfEdge,
      (DCEL.loadFromInput [⟨0, 0⟩, ⟨2, 0⟩, ⟨1, 2⟩, ⟨3, 2⟩] [[1, 2, 3], [2, 4, 3]]).1.halfEdges[1]? =
        some hi ∧
      (DCEL.loadFromInput [⟨0, 0⟩, ⟨2, 0⟩, ⟨1, 2⟩, ⟨3, 2⟩] [[1, 2, 3], [2, 4, 3]]).1.halfEdges[5]? =
        some hj ∧
      hi.twin = some 5 ∧ hj.twin = some 1 := by
  have hk : ∀ t : Nat, ((createdPairs 4 2
      ([[1, 2, 3], [2, 4, 3]].map (fun l => l.map DCEL.inputToInternal))).map pairKey)[t]? =
        some ⟨1, 2⟩ ↔ (t = 1 ∨ t = 5) := by
    intro t
    have hl : (createdPairs 4 2
        ([[1, 2, 3], [2, 4, 3]].map (fun l => l.map DCEL.inputToInternal))).map pairKey =
        [⟨0, 1⟩, ⟨1, 2⟩, ⟨0, 2⟩, ⟨1, 3⟩, ⟨2, 3⟩, ⟨1, 2⟩] := by decide
    rw [hl]
    match t with
    | 0 => simp
    | 1 => simp
    | 2 => simp
    | 3 => simp
    | 4 => simp
    | 5 => simp
    | n + 6 => simp
  exact ⟨by decide, hk,
    (twin_resolution [⟨0, 0⟩, ⟨2, 0⟩, ⟨1, 2⟩, ⟨3, 2⟩] [[1, 2, 3], [2, 4, 3]]).2.1 1 5 ⟨1, 2⟩
      (by decide) hk⟩

/-! ## Builder: the exact state after the creation loops -/

theorem createStep_vertices (d : DCEL) (p : Nat × Int × Int)
    (h : pairInRange d.vertices.length p = true) :
    (createStep d p).vertices =
      match d.vertices[p.2.1.toNat]? with
      | some v =>
        if v.incidentEdge = none then
          d.vertices.set p.2.1.toNat { v with incidentEdge := some d.halfEdges.length }
        else d.vertices
      | none => d.vertices := by
  unfold pairInRange at h
  simp only [decide_eq_true_eq] at h
  unfold createStep DCEL.createHalfEdge
  rw [if_neg (by omega)]

theorem createStep_faces (d : DCEL) (p : Nat × Int × Int)
    (h : pairInRange d.vertices.length p = true) :
    (createStep d p).faces =
      match d.faces[p.1]? with
      | some f =>
        if f.outerComponent = none then
          d.faces.set p.1 { f with outerComponent := some d.halfEdges.length }
        else d.faces
      | none => d.faces := by
  unfold pairInRange at h
  simp only [decide_eq_true_eq] at h
  unfold createStep DCEL.createHalfEdge
  rw [if_neg (by omega)]

theorem createStep_edgeMap_exact (d : DCEL) (p : Nat × Int × Int)
    (h : pairInRange d.vertices.length p = true) :
    (createStep d p).edgeMap =
      match mapFind (pairKey p) d.edgeMap with
      | none => mapInsert (pairKey p) (some d.halfEdges.length, none) d.edgeMap
      | some edgePair =>
        if (match d.heAt edgePair.1 with
            | some fst =>
              match d.vertexAt fst.origin with
              | some v => some v.index
              | none => none
            | none => none) = some p.2.1 then
          mapInsert (pairKey p) (edgePair.1, some d.halfEdges.length) d.edgeMap
        else
          mapInsert (pairKey p) (some d.halfEdges.length, edgePair.1) d.edgeMap := by
  unfold pairInRange at h
  simp only [decide_eq_true_eq] at h
  unfold createStep DCEL.createHalfEdge
  rw [if_neg (by omega)]
  rfl

theorem findIdx?_snoc {α : Type} (l : List α) (x : α) (q : α → Bool) :
    (l ++ [x]).findIdx? q = (l.findIdx? q).or (if q x then some l.length else none) := by
  rw [List.findIdx?_append]
  congr 1
  simp only [List.findIdx?_cons, List.findIdx?_nil]
  split <;> simp_all

theorem occurrences_snoc (ps : List (Nat × Int × Int)) (p : Nat × Int × Int) (k : EdgeKey) :
    occurrences (ps ++ [p]) k =
      occurrences ps k ++ (if pairKey p = k then [(ps.length, p.2.1)] else []) := by
  unfold occurrences
  rw [List.enum_append, List.filter_append, List.map_append]
  congr 1
  simp only [List.enumFrom_cons, List.enumFrom_nil, List.filter_cons, List.filter_nil]
  split_ifs <;> simp_all

theorem mem_occurrences {ps : List (Nat × Int × Int)} {k : EdgeKey} {x : Nat × Int}
    (h : x ∈ occurrences ps k) :
    ∃ p, ps[x.1]? = some p ∧ p.2.1 = x.2 ∧ pairKey p = k := by
  unfold occurrences at h
  rw [List.mem_map] at h
  obtain ⟨⟨i, p⟩, hm, rfl⟩ := h
  rw [List.mem_filter] at hm
  exact ⟨p, List.mk_mem_enum_iff_getElem?.mp hm.1, rfl, by simpa using hm.2⟩

theorem slotStep_first_mem (s : Option ((Nat × Int) × Option Nat)) (x : Nat × Int)
    (l : List (Nat × Int)) (hs : ∀ t, s = some t → t.1 ∈ l) :
    ∀ t, slotStep s x = some t → t.1 ∈ l ++ [x] := by
  intro t ht
  unfold slotStep at ht
  split at ht
  · cases ht; simp
  · rename_i fst snd
    split_ifs at ht
    · cases ht
      exact List.mem_append_left _ (hs (fst, snd) rfl)
    · cases ht; simp

theorem twinSlots_first_mem (occ : List (Nat × Int)) :
    ∀ t, twinSlots occ = some t → t.1 ∈ occ := by
  unfold twinSlots
  induction occ using List.reverseRecOn with
  | nil => intro t ht; cases ht
  | append_singleton l x ih =>
    rw [List.foldl_append]
    exact slotStep_first_mem _ x l ih

theorem created_step {points : List Point} {loops : List (List Int)} {d : DCEL}
    {ps : List (Nat × Int × Int)} (hc : Created points loops d ps)
    (hV : d.vertices.length = points.length) (p : Nat × Int × Int)
    (hr : pairInRange points.length p = true) (hf : p.1 < loops.length) :
    Created points loops (createStep d p) (ps ++ [p]) := by
  have hr' : pairInRange d.vertices.length p = true := by rw [hV]; exact hr
  have hlen : d.halfEdges.length = ps.length := by
    rw [hc.phase1.halfEdges]; simp
  have hrange := hr
  unfold pairInRange at hrange
  simp only [decide_eq_true_eq] at hrange
  refine ⟨phase1_step hc.phase1 p hr', ?_, ⟨?_, ?_, ?_⟩, ?_⟩
  · intro q hq
    rcases List.mem_append.mp hq with hq | hq
    · exact hc.inRange q hq
    · rw [List.mem_singleton.mp hq]; exact ⟨hr, hf⟩
  · intro v
    rw [createStep_vertices d p hr', findIdx?_snoc, hc.records.vertices p.2.1.toNat]
    have hlt : p.2.1.toNat < points.length := by omega
    rw [List.getElem?_eq_getElem hlt]
    simp only [Option.map_some']
    by_cases hv : p.2.1.toNat = v
    · subst hv
      cases hfi : List.findIdx? (fun q => decide (q.2.1.toNat = p.2.1.toNat)) ps with
      | none =>
        simp only [if_true, List.getElem?_set, hc.records.vertices, hfi]
        have : p.2.1.toNat < d.vertices.length := by omega
        simp [this, List.getElem?_eq_getElem hlt, hlen]
      | some i =>
        simp only [reduceCtorEq, if_false, hc.records.vertices, hfi]
        simp
    · have hd : decide (p.2.1.toNat = v) = false := by simp [hv]
      simp only [hd, Bool.false_eq_true, if_false, Option.or_none]
      cases hfi : List.findIdx? (fun q => decide (q.2.1.toNat = p.2.1.toNat)) ps with
      | none =>
        simp only [if_true]
        rw [List.getElem?_set_ne hv]
        exact hc.records.vertices v
      | some i =>
        simp only [reduceCtorEq, if_false]
        exact hc.records.vertices v
  · intro f
    rw [createStep_faces d p hr', findIdx?_snoc, hc.records.faces p.1]
    rw [List.getElem?_eq_getElem hf]
    simp only [Option.map_some']
    by_cases hv : p.1 = f
    · subst hv
      cases hfi : List.findIdx? (fun q => decide (q.1 = p.1)) ps with
      | none =>
        simp only [if_true, List.getElem?_set, hc.records.faces, hfi]
        have : p.1 < d.faces.length := by
          have := hc.records.faces p.1
          rw [List.getElem?_eq_getElem hf] at this
          by_contra hcon
          rw [List.getElem?_eq_none (by omega)] at this
          cases this
        simp [this, List.getElem?_eq_getElem hf, hlen]
      | some i =>
        simp only [reduceCtorEq, if_false, hc.records.faces, hfi]
        simp
    · have hd : decide (p.1 = f) = false := by simp [hv]
      simp only [hd, Bool.false_eq_true, if_false, Option.or_none]
      cases hfi : List.findIdx? (fun q => decide (q.1 = p.1)) ps with
      | none =>
        simp only [if_true]
        rw [List.getElem?_set_ne hv]
        exact hc.records.faces f
      | some i =>
        simp only [reduceCtorEq, if_false]
        exact hc.records.faces f
  · intro k
    rw [createStep_edgeMap_exact d p hr', occurrences_snoc]
    have hslot := hc.records.slots (pairKey p)
    by_cases hk : pairKey p = k
    · subst hk
      simp only [if_true]
      unfold twinSlots at hslot ⊢
      rw [List.foldl_append, List.foldl_cons, List.foldl_nil]
      cases hts : List.foldl slotStep none (occurrences ps (pairKey p)) with
      | none =>
        rw [hts] at hslot
        simp only [slotsEntry, Option.map_none'] at hslot
        rw [hslot]
        simp only [mapFind_mapInsert_self, slotStep, slotsEntry, Option.map_some', hlen]
      | some t =>
        obtain ⟨⟨a, fa⟩, b⟩ := t
        rw [hts] at hslot
        simp only [slotsEntry, Option.map_some'] at hslot
        rw [hslot]
        simp only
        have hmem := twinSlots_first_mem (occurrences ps (pairKey p)) _ hts
        obtain ⟨q, hq, hqf, _⟩ := mem_occurrences hmem
        simp only at hq hqf
        have hqr := (hc.inRange q (List.getElem?_mem hq)).1
        unfold pairInRange at hqr
        simp only [decide_eq_true_eq] at hqr
        have hhe : d.heAt (some a) = some (newHalfEdge a q) := by
          unfold DCEL.heAt
          simp only
          rw [hc.phase1.halfEdges, enum_map_getElem?, hq]
          rfl
        have hvx : ∃ v, d.vertexAt (newHalfEdge a q).origin = some v ∧ v.index = fa := by
          unfold DCEL.vertexAt newHalfEdge
          simp only
          rw [hc.records.vertices, List.getElem?_eq_getElem (by omega)]
          exact ⟨_, rfl, by simp only; omega⟩
        obtain ⟨vx, hv1, hv2⟩ := hvx
        simp only [hhe, hv1, hv2]
        by_cases hfa : fa = p.2.1
        · simp only [hfa, if_true, mapFind_mapInsert_self, slotStep, slotsEntry, Option.map_some',
            hlen]
        · have : ¬ (some fa = some p.2.1) := fun h => hfa (Option.some.inj h)
          simp only [this, hfa, if_false, mapFind_mapInsert_self, slotStep, slotsEntry,
            Option.map_some', hlen]
    · simp only [hk, if_false, List.append_nil]
      have hk' : k ≠ pairKey p := fun h => hk h.symm
      rw [← hc.records.slots k]
      split
      · exact mapFind_mapInsert_ne _ _ _ _ hk'
      · split_ifs
        · exact mapFind_mapInsert_ne _ _ _ _ hk'
        · exact mapFind_mapInsert_ne _ _ _ _ hk'
  · unfold createStep
    rw [createHalfEdge_faceVertexIndices]
    exact hc.loopsEq

theorem created_foldl {points : List Point} {loops : List (List Int)}
    (ps done : List (Nat × Int × Int)) (d : DCEL) (hc : Created points loops d done)
    (hV : d.vertices.length = points.length)
    (h : ∀ p ∈ ps, pairInRange points.length p = true ∧ p.1 < loops.length) :
    Created points loops (ps.foldl createStep d) (done ++ ps) := by
  induction ps generalizing d done with
  | nil => simpa using hc
  | cons p ps ih =>
    rw [List.foldl_cons]
    obtain ⟨h1, h2⟩ := h p (List.mem_cons_self _ _)
    have hstep := created_step hc hV p h1 h2
    have := ih (done ++ [p]) (createStep d p) hstep (by
      unfold createStep
      rw [createHalfEdge_vertices_length]
      exact hV) (fun q hq => h q (List.mem_cons_of_mem _ hq))
    simpa using this

theorem created_readInput (points : List Point) (loops : List (List Int)) :
    Created points loops
      ((List.range (DCEL.readInput points loops).faces.length).foldl DCEL.createFaceHalfEdges
        (DCEL.readInput points loops))
      (createdPairs points.length loops.length
        (loops.map (fun l => l.map DCEL.inputToInternal))) := by
  rw [createLoops_eq, readInput_vertices_length, readInput_faces_length]
  have h0 : Created points loops (DCEL.readInput points loops) [] := by
    refine ⟨⟨by simp [DCEL.readInput], by simp [DCEL.readInput, MapSorted], ?_⟩, ?_,
      ⟨?_, ?_, ?_⟩, rfl⟩
    · intro k
      simp [DCEL.readInput, mapFind, EntryOK]
    · intro p hp; cases hp
    · intro v
      simp only [DCEL.readInput, enum_map_getElem?, List.findIdx?_nil]
    · intro f
      simp only [DCEL.readInput, enum_map_getElem?, List.findIdx?_nil]
    · intro k
      simp [DCEL.readInput, mapFind, occurrences, twinSlots, slotsEntry]
  have := created_foldl (createdPairs points.length loops.length
      (loops.map (fun l => l.map DCEL.inputToInternal))) [] (DCEL.readInput points loops) h0
    (readInput_vertices_length points loops) (by
      intro p hp
      exact ⟨(List.mem_filter.mp hp).2, createdPairs_face_lt hp⟩)
  simpa using this

theorem recordsOK_modifyHalfEdge {points : List Point} {loops : List (List Int)}
    {ps : List (Nat × Int × Int)} {d : DCEL} (h : RecordsOK points loops ps d) (i : Nat)
    (f : HalfEdge → HalfEdge) : RecordsOK points loops ps (d.modifyHalfEdge i f) := by
  refine ⟨?_, ?_, ?_⟩
  · rw [modifyHalfEdge_vertices]; exact h.vertices
  · rw [modifyHalfEdge_faces]; exact h.faces
  · rw [modifyHalfEdge_edgeMap]; exact h.slots

theorem foldl_linkTwins_pres {P : DCEL → Prop}
    (hP : ∀ d i f, P d → P (d.modifyHalfEdge i f))
    (es : List (EdgeKey × (Option Nat × Option Nat))) (s : DCEL) (hs : P s) :
    P (es.foldl DCEL.linkTwins s) := by
  induction es generalizing s with
  | nil => exact hs
  | cons e es ih =>
    rw [List.foldl_cons]
    apply ih
    unfold DCEL.linkTwins
    split
    · exact hP _ _ _ (hP _ _ _ hs)
    · exact hs

theorem recordsOK_linkTwins {points : List Point} {loops : List (List Int)}
    {ps : List (Nat × Int × Int)} (es : List (EdgeKey × (Option Nat × Option Nat))) {d : DCEL}
    (h : RecordsOK points loops ps d) : RecordsOK points loops ps (es.foldl DCEL.linkTwins d) :=
  foldl_linkTwins_pres (P := fun d => RecordsOK points loops ps d)
    (fun _ i f h => recordsOK_modifyHalfEdge h i f) es d h

theorem recordsOK_linkHalfEdgeChains {points : List Point} {loops : List (List Int)}
    {ps : List (Nat × Int × Int)} {d : DCEL} (h : RecordsOK points loops ps d) :
    RecordsOK points loops ps (DCEL.linkHalfEdgeChains d) :=
  linkHalfEdgeChains_stable (P := fun d => RecordsOK points loops ps d)
    ⟨fun _ i _ h => recordsOK_modifyHalfEdge h i _, fun _ i _ h => recordsOK_modifyHalfEdge h i _⟩
    d h

theorem loadFromInput_eq (points : List Point) (loops : List (List Int)) :
    (DCEL.loadFromInput points loops).1 =
      DCEL.linkHalfEdgeChains (List.foldl DCEL.linkTwins
        ((List.range (DCEL.readInput points loops).faces.length).foldl DCEL.createFaceHalfEdges
          (DCEL.readInput points loops))
        ((List.range (DCEL.readInput points loops).faces.length).foldl DCEL.createFaceHalfEdges
          (DCEL.readInput points loops)).edgeMap) := by
  unfold DCEL.loadFromInput DCEL.constructDCEL DCEL.createHalfEdges
  simp

/-- The state `loadFromInput` leaves. -/
theorem constructed_loadFromInput (points : List Point) (loops : List (List Int)) :
    Constructed points loops (DCEL.loadFromInput points loops).1
      (createdPairs points.length loops.length
        (loops.map (fun l => l.map DCEL.inputToInternal))) := by
  obtain ⟨_, hb⟩ := built_loadFromInput points loops
  have hc := created_readInput points loops
  refine ⟨hb, hc.inRange, ?_⟩
  rw [loadFromInput_eq]
  exact recordsOK_linkHalfEdgeChains (recordsOK_linkTwins _ hc.records)

/-! ## First-write-wins references (C18) -/

theorem findIdx?_eq_none_getElem? {α : Type} {l : List α} {q : α → Bool}
    (h : l.findIdx? q = none) (j : Nat) (a : α) (ha : l[j]? = some a) : q a = false := by
  rw [List.findIdx?_eq_none_iff] at h
  exact h a (List.getElem?_mem ha)

theorem findIdx?_eq_some_getElem? {α : Type} {l : List α} {q : α → Bool} {i : Nat}
    (h : l.findIdx? q = some i) :
    (∃ a, l[i]? = some a ∧ q a = true) ∧ ∀ j a, j < i → l[j]? = some a → q a = false := by
  rw [List.findIdx?_eq_some_iff_getElem] at h
  obtain ⟨hlt, h1, h2⟩ := h
  refine ⟨⟨l[i], List.getElem?_eq_getElem hlt, h1⟩, ?_⟩
  intro j a hj ha
  have hjl : j < l.length := by omega
  rw [List.getElem?_eq_getElem hjl] at ha
  have := h2 j hj
  rw [Option.some.inj ha] at this
  simpa using this

/-- In a constructed DCEL the first created triple satisfying a test on the
triples is the first half-edge satisfying the corresponding test on the
half-edges. -/
theorem built_findIdx? {d : DCEL} {ps : List (Nat × Int × Int)} (hb : Built d ps)
    (q : Nat × Int × Int → Bool) (r : HalfEdge → Bool)
    (hqr : ∀ (i : Nat) (p : Nat × Int × Int) (he : HalfEdge), ps[i]? = some p →
      d.halfEdges[i]? = some he → r he = q p) :
    d.halfEdges.findIdx? r = ps.findIdx? q := by
  cases hq : ps.findIdx? q with
  | none =>
    rw [List.findIdx?_eq_none_iff]
    intro he hmem
    obtain ⟨i, hi⟩ := List.getElem?_of_mem hmem
    obtain ⟨p, hp, _⟩ := built_heAt hb hi
    have := findIdx?_eq_none_getElem? hq i p hp
    rw [hqr i p he hp hi, this]
  | some i =>
    obtain ⟨⟨p, hp, hqp⟩, hlow⟩ := findIdx?_eq_some_getElem? hq
    obtain ⟨he, h1, _⟩ := hb.he i p hp
    rw [List.findIdx?_eq_some_iff_getElem]
    have hlt : i < d.halfEdges.length := by
      by_contra hc
      rw [List.getElem?_eq_none (by omega)] at h1
      cases h1
    refine ⟨hlt, ?_, ?_⟩
    · rw [List.getElem?_eq_getElem hlt] at h1
      rw [Option.some.inj h1, hqr i p he hp (by rw [List.getElem?_eq_getElem hlt, Option.some.inj h1]),
        hqp]
    · intro j hj
      have hjl : j < d.halfEdges.length := by omega
      obtain ⟨p', hp', _⟩ := built_heAt hb (List.getElem?_eq_getElem hjl)
      rw [hqr j p' _ hp' (List.getElem?_eq_getElem hjl), hlow j p' hj hp']
      simp

/-- C18: after construction each vertex's `incidentEdge` is the first
half-edge (lowest position) whose origin is that vertex, unset exactly when no
half-edge has that origin; each face's `outerComponent` is the first half-edge
whose incident face is that face, unset exactly when the face has no
half-edge. -/
theorem first_write_wins (points : List Point) (loops : List (List Int)) :
    (∀ (v : Nat) (vertex : Vertex),
      (DCEL.loadFromInput points loops).1.vertices[v]? = some vertex →
      vertex.incidentEdge = (DCEL.loadFromInput points loops).1.halfEdges.findIdx?
          (fun he => decide (he.origin = some v)) ∧
      (∀ i : Nat, vertex.incidentEdge = some i ↔
        ((∃ he, (DCEL.loadFromInput points loops).1.halfEdges[i]? = some he ∧
            he.origin = some v) ∧
          ∀ (j : Nat) (he : HalfEdge), j < i →
            (DCEL.loadFromInput points loops).1.halfEdges[j]? = some he →
            he.origin ≠ some v)) ∧
      (vertex.incidentEdge = none ↔
        ∀ he ∈ (DCEL.loadFromInput points loops).1.halfEdges, he.origin ≠ some v)) ∧
    (∀ (f : Nat) (face : Face),
      (DCEL.loadFromInput points loops).1.faces[f]? = some face →
      face.outerComponent = (DCEL.loadFromInput points loops).1.halfEdges.findIdx?
          (fun he => decide (he.incidentFace = some f)) ∧
      (∀ i : Nat, face.outerComponent = some i ↔
        ((∃ he, (DCEL.loadFromInput points loops).1.halfEdges[i]? = some he ∧
            he.incidentFace = some f) ∧
          ∀ (j : Nat) (he : HalfEdge), j < i →
            (DCEL.loadFromInput points loops).1.halfEdges[j]? = some he →
            he.incidentFace ≠ some f)) ∧
      (face.outerComponent = none ↔
        ∀ he ∈ (DCEL.loadFromInput points loops).1.halfEdges, he.incidentFace ≠ some f)) := by
  have hc := constructed_loadFromInput points loops
  generalize (DCEL.loadFromInput points loops).1 = d at hc ⊢
  generalize createdPairs points.length loops.length
    (loops.map (fun l => l.map DCEL.inputToInternal)) = ps at hc
  have spec : ∀ (r : HalfEdge → Bool) (o : Option Nat), o = d.halfEdges.findIdx? r →
      (∀ i : Nat, o = some i ↔
        ((∃ he, d.halfEdges[i]? = some he ∧ r he = true) ∧
          ∀ (j : Nat) (he : HalfEdge), j < i → d.halfEdges[j]? = some he → r he = false)) ∧
      (o = none ↔ ∀ he ∈ d.halfEdges, r he = false) := by
    intro r o ho
    subst ho
    refine ⟨?_, ?_⟩
    · intro i
      constructor
      · exact fun h => findIdx?_eq_some_getElem? h
      · rintro ⟨⟨he, h1, h2⟩, h3⟩
        rw [List.findIdx?_eq_some_iff_getElem]
        have hlt : i < d.halfEdges.length := by
          by_contra hcon
          rw [List.getElem?_eq_none (by omega)] at h1
          cases h1
        rw [List.getElem?_eq_getElem hlt] at h1
        refine ⟨hlt, by rw [Option.some.inj h1]; exact h2, ?_⟩
        intro j hj
        have := h3 j _ hj (List.getElem?_eq_getElem (by omega))
        simp [this]
    · exact List.findIdx?_eq_none_iff
  constructor
  · intro v vertex hv
    have hrec := hc.records.vertices v
    rw [hv] at hrec
    have hinc : vertex.incidentEdge =
        d.halfEdges.findIdx? (fun he => decide (he.origin = some v)) := by
      cases hpt : points[v]? with
      | none => rw [hpt] at hrec; cases hrec
      | some pt =>
        rw [hpt] at hrec
        simp only [Option.map_some', Option.some.injEq] at hrec
        rw [hrec]
        simp only
        symm
        apply built_findIdx? hc.built
        intro i p he hp hhe
        obtain ⟨he', h1, _, h3, _⟩ := hc.built.he i p hp
        rw [hhe] at h1
        cases h1
        rw [h3]
        simp
    refine ⟨hinc, ?_⟩
    have := spec (fun he => decide (he.origin = some v)) vertex.incidentEdge hinc
    simpa using this
  · intro f face hf
    have hrec := hc.records.faces f
    rw [hf] at hrec
    have hinc : face.outerComponent =
        d.halfEdges.findIdx? (fun he => decide (he.incidentFace = some f)) := by
      cases hpt : loops[f]? with
      | none => rw [hpt] at hrec; cases hrec
      | some pt =>
        rw [hpt] at hrec
        simp only [Option.map_some', Option.some.injEq] at hrec
        rw [hrec]
        simp only
        symm
        apply built_findIdx? hc.built
        intro i p he hp hhe
        obtain ⟨he', h1, _, _, h4, _⟩ := hc.built.he i p hp
        rw [hhe] at h1
        cases h1
        rw [h4]
        simp
    refine ⟨hinc, ?_⟩
    have := spec (fun he => decide (he.incidentFace = some f)) face.outerComponent hinc
    simpa using this

/-- C18 on the two triangles `1 2 3` and `2 4 3`: vertex 2 (position 1) refers
to half-edge 1, the first of the two half-edges that leave it. -/
theorem first_write_wins_witness :
    (DCEL.loadFromInput [⟨0, 0⟩, ⟨2, 0⟩, ⟨1, 2⟩, ⟨3, 2⟩] [[1, 2, 3], [2, 4, 3]]).1.vertices[1]? =
      some { position := ⟨2, 0⟩, index := 1, incidentEdge := some 1 } ∧
    (some 1 : Option Nat) =
      (DCEL.loadFromInput [⟨0, 0⟩, ⟨2, 0⟩, ⟨1, 2⟩, ⟨3, 2⟩] [[1, 2, 3], [2, 4, 3]]).1.halfEdges.findIdx?
        (fun he => decide (he.origin = some 1)) :=
  ⟨by decide,
    ((first_write_wins [⟨0, 0⟩, ⟨2, 0⟩, ⟨1, 2⟩, ⟨3, 2⟩] [[1, 2, 3], [2, 4, 3]]).1 1
      { position := ⟨2, 0⟩, index := 1, incidentEdge := some 1 } (by decide)).1⟩

/-! ## Half-edge creation (C17) -/

theorem loopPairs_eq (loop : List Int) :
    loopPairs loop = if 3 ≤ loop.length then consecutivePairs loop else [] := by
  unfold loopPairs consecutivePairs
  by_cases h : loop.length < 3
  · rw [if_pos h, if_neg (by omega)]
  · rw [if_neg h, if_pos (by omega)]
    apply List.ext_getElem
    · simp [List.length_rotate]
    · intro i h1 h2
      simp only [List.length_map, List.length_range] at h1
      simp only [List.getElem_map, List.getElem_range, List.getElem_zip, List.getElem_rotate]
      rw [List.getD_eq_getElem _ _ h1, List.getD_eq_getElem _ _ (Nat.mod_lt _ (by omega))]

theorem range_map_getD_eq_enum {α : Type} (l : List α) (dflt : α) :
    (List.range l.length).map (fun i => (i, l.getD i dflt)) = l.enum := by
  apply List.ext_getElem
  · simp
  · intro i h1 h2
    simp only [List.length_map, List.length_range] at h1
    simp [List.getElem?_eq_getElem h1]

/-- The pairs the two loops of `createHalfEdges` create a half-edge for are
the half-edges of the specification. -/
theorem createdPairs_eq_spec (vertexCount : Nat) (loops : List (List Int)) :
    createdPairs vertexCount loops.length loops = specHalfEdges vertexCount loops := by
  unfold createdPairs visitedPairs specHalfEdges
  rw [← range_map_getD_eq_enum loops [], List.flatMap_map, List.filter_flatMap]
  apply List.flatMap_congr
  intro f _
  simp only [Function.comp, loopPairs_eq]
  split_ifs
  · rw [List.filter_map]
    rfl
  · rfl

/-- C17: the half-edges the builder creates are, in order, the half-edges of
the specification (consecutive pairs, wrapping, of the loops with at least 3
entries, both indices in range); the `i`-th one has index `i`, its origin is
the vertex record `vertices[from]` and its incident face is the face record of
its loop. -/
theorem half_edge_creation (points : List Point) (loops : List (List Int)) :
    (DCEL.loadFromInput points loops).1.halfEdges.length =
      (specHalfEdges points.length (loops.map (fun l => l.map DCEL.inputToInternal))).length ∧
    ∀ (i : Nat) (p : Nat × Int × Int),
      (specHalfEdges points.length (loops.map (fun l => l.map DCEL.inputToInternal)))[i]? =
        some p →
      ∃ (he : HalfEdge) (vertex : Vertex) (face : Face),
        (DCEL.loadFromInput points loops).1.halfEdges[i]? = some he ∧
        he.index = (i : Int) ∧
        he.origin = some p.2.1.toNat ∧
        (DCEL.loadFromInput points loops).1.vertices[p.2.1.toNat]? = some vertex ∧
        vertex.index = p.2.1 ∧ points[p.2.1.toNat]? = some vertex.position ∧
        he.incidentFace = some p.1 ∧
        (DCEL.loadFromInput points loops).1.faces[p.1]? = some face ∧
        face.index = (p.1 : Int) := by
  have hc := constructed_loadFromInput points loops
  have hspec := createdPairs_eq_spec points.length
    (loops.map (fun l => l.map DCEL.inputToInternal))
  rw [List.length_map] at hspec
  rw [hspec] at hc
  refine ⟨hc.built.length, ?_⟩
  intro i p hp
  obtain ⟨he, h1, h2, h3, h4, _⟩ := hc.built.he i p hp
  obtain ⟨hr, hf⟩ := hc.inRange p (List.getElem?_mem hp)
  unfold pairInRange at hr
  simp only [decide_eq_true_eq] at hr
  have hv := hc.records.vertices p.2.1.toNat
  have hfc := hc.records.faces p.1
  have hlt : p.2.1.toNat < points.length := by omega
  rw [List.getElem?_eq_getElem hlt] at hv
  rw [List.getElem?_eq_getElem hf] at hfc
  refine ⟨he, _, _, h1, h2, h3, hv, ?_, ?_, h4, hfc, rfl⟩
  · simp only
    omega
  · simp only
    exact List.getElem?_eq_getElem hlt

/-- C17 on the two triangles `1 2 3` and `2 4 3`: the half-edge at position 4
is the one of the pair `(3, 2)` of the second loop. -/
theorem half_edge_creation_witness :
    (specHalfEdges 4 ([[1, 2, 3], [2, 4, 3]].map (fun l => l.map DCEL.inputToInternal)))[4]? =
      some (1, 3, 2) ∧
    ∃ (he : HalfEdge) (vertex : Vertex) (face : Face),
      (DCEL.loadFromInput [⟨0, 0⟩, ⟨2, 0⟩, ⟨1, 2⟩, ⟨3, 2⟩] [[1, 2, 3], [2, 4, 3]]).1.halfEdges[4]? =
        some he ∧
      he.index = 4 ∧ he.origin = some 3 ∧
      (DCEL.loadFromInput [⟨0, 0⟩, ⟨2, 0⟩, ⟨1, 2⟩, ⟨3, 2⟩] [[1, 2, 3], [2, 4, 3]]).1.vertices[3]? =
        some vertex ∧
      vertex.index = 3 ∧
      ([⟨0, 0⟩, ⟨2, 0⟩, ⟨1, 2⟩, ⟨3, 2⟩] : List Point)[3]? = some vertex.position ∧
      he.incidentFace = some 1 ∧
      (DCEL.loadFromInput [⟨0, 0⟩, ⟨2, 0⟩, ⟨1, 2⟩, ⟨3, 2⟩] [[1, 2, 3], [2, 4, 3]]).1.faces[1]? =
        some face ∧
      face.index = 1 :=
  ⟨by decide,
    (half_edge_creation [⟨0, 0⟩, ⟨2, 0⟩, ⟨1, 2⟩, ⟨3, 2⟩] [[1, 2, 3], [2, 4, 3]]).2 4 (1, 3, 2)
      (by decide)⟩

/-! ## A key with three half-edges (C20) -/

theorem occurrences_sorted (ps : List (Nat × Int × Int)) (k : EdgeKey) :
    (occurrences ps k).Pairwise (fun x y => x.1 < y.1) := by
  unfold occurrences
  rw [List.pairwise_map]
  have h1 : (ps.enum.map Prod.fst).Pairwise (fun x y => x < y) := by
    rw [List.enum_map_fst]
    exact List.pairwise_lt_range _
  rw [List.pairwise_map] at h1
  exact h1.sublist (List.filter_sublist _)

/-- The twins of three half-edges that alone have a key: the third one
created is linked with the half-edge that was `first` in the map entry, the
first created when the first two have the same `fromIdx` and the second
created otherwise; the other one has no twin. -/
theorem built_three_on_key {points : List Point} {loops : List (List Int)} {d : DCEL}
    {ps : List (Nat × Int × Int)} (hc : Constructed points loops d ps) {k : EdgeKey}
    {a b c : Nat} {fa fb fc : Int} (hocc : occurrences ps k = [(a, fa), (b, fb), (c, fc)]) :
    ∃ ha hb hc' : HalfEdge, d.halfEdges[a]? = some ha ∧ d.halfEdges[b]? = some hb ∧
      d.halfEdges[c]? = some hc' ∧
      (if fa = fb then ha.twin = some c ∧ hc'.twin = some a ∧ hb.twin = none
       else hb.twin = some c ∧ hc'.twin = some b ∧ ha.twin = none) := by
  have hb' := hc.built
  have hsorted := occurrences_sorted ps k
  rw [hocc] at hsorted
  simp only [List.pairwise_cons, List.mem_cons, List.mem_singleton, forall_eq_or_imp, forall_eq,
    List.not_mem_nil, false_implies, implies_true, List.Pairwise.nil, and_true] at hsorted
  obtain ⟨⟨hab, hac⟩, hbc⟩ := hsorted
  have hmemA : (a, fa) ∈ occurrences ps k := by rw [hocc]; simp
  have hmemB : (b, fb) ∈ occurrences ps k := by rw [hocc]; simp
  have hmemC : (c, fc) ∈ occurrences ps k := by rw [hocc]; simp
  obtain ⟨pa, hpa, _, hka⟩ := mem_occurrences hmemA
  obtain ⟨pb, hpb, _, hkb⟩ := mem_occurrences hmemB
  obtain ⟨pc, hpc, _, hkc⟩ := mem_occurrences hmemC
  simp only at hpa hpb hpc
  have hKa : (ps.map pairKey)[a]? = some k := by rw [List.getElem?_map, hpa]; simp [hka]
  have hKb : (ps.map pairKey)[b]? = some k := by rw [List.getElem?_map, hpb]; simp [hkb]
  have hKc : (ps.map pairKey)[c]? = some k := by rw [List.getElem?_map, hpc]; simp [hkc]
  obtain ⟨ha, a1, _, _, _, a5⟩ := hb'.he a pa hpa
  obtain ⟨hb, b1, _, _, _, b5⟩ := hb'.he b pb hpb
  obtain ⟨hc', c1, _, _, _, c5⟩ := hb'.he c pc hpc
  have hslot := hc.records.slots k
  rw [hocc] at hslot
  have key : ∀ x y : Nat, x ≠ c → y ≠ c → y ≠ x →
      (ps.map pairKey)[y]? = some k →
      (mapFind k d.edgeMap = some (some x, some c) ∨
        mapFind k d.edgeMap = some (some c, some x)) →
      lookupTwin d.edgeMap x = some c ∧ lookupTwin d.edgeMap c = some x ∧
        lookupTwin d.edgeMap y = none := by
    intro x y hxc hyc hyx hKy hfind
    have hcx : lookupTwin d.edgeMap c = some x := by
      rw [lookupTwin_eq_some_iff hb'.sorted hb'.entry]
      rcases hfind with hf | hf
      · refine ⟨_, (mem_iff_mapFind _ hb'.sorted _ _).mpr hf, ?_⟩
        have : ¬ c = x := fun h => hxc h.symm
        simp [twinFromEntry, this]
      · refine ⟨_, (mem_iff_mapFind _ hb'.sorted _ _).mpr hf, ?_⟩
        simp [twinFromEntry]
    refine ⟨(built_twin_symm hb' hcx).1, hcx, ?_⟩
    cases hy : lookupTwin d.edgeMap y with
    | none => rfl
    | some j =>
      rcases built_twin_same_key hb' hcx hy hKc hKy with h | h
      · exact absurd h hyc
      · exact absurd h hyx
  refine ⟨ha, hb, hc', a1, b1, c1, ?_⟩
  by_cases hfab : fa = fb
  · rw [if_pos hfab]
    have hfind : mapFind k d.edgeMap = some (some a, some c) ∨
        mapFind k d.edgeMap = some (some c, some a) := by
      rw [hslot]
      simp only [twinSlots, List.foldl_cons, List.foldl_nil, slotStep, hfab, if_true]
      by_cases h : fb = fc <;> simp [slotsEntry, h]
    obtain ⟨h1, h2, h3⟩ := key a b (by omega) (by omega) (by omega) hKb hfind
    exact ⟨by rw [a5, h1], by rw [c5, h2], by rw [b5, h3]⟩
  · rw [if_neg hfab]
    have hfind : mapFind k d.edgeMap = some (some b, some c) ∨
        mapFind k d.edgeMap = some (some c, some b) := by
      rw [hslot]
      simp only [twinSlots, List.foldl_cons, List.foldl_nil, slotStep, hfab, if_false]
      by_cases h : fb = fc <;> simp [slotsEntry, h]
    obtain ⟨h1, h2, h3⟩ := key b a (by omega) (by omega) (by omega) hKa hfind
    exact ⟨by rw [b5, h1], by rw [c5, h2], by rw [a5, h3]⟩

/-- C20, as stated, fails: on three copies of the triangle `1 2 3` the key of
the vertices 1 and 2 belongs to the half-edges 0, 3 and 6, and the third one
created (6) is linked, with 0, while the second one (3) has no twin. -/
theorem third_half_edge_not_left_out :
    occurrences (createdPairs 3 3
      ([[1, 2, 3], [1, 2, 3], [1, 2, 3]].map (fun l => l.map DCEL.inputToInternal))) ⟨0, 1⟩ =
      [(0, 0), (3, 0), (6, 0)] ∧
    (DCEL.loadFromInput [⟨0, 0⟩, ⟨2, 0⟩, ⟨1, 2⟩]
      [[1, 2, 3], [1, 2, 3], [1, 2, 3]]).1.halfEdges.map (fun he => he.twin) =
      [some 6, some 7, some 8, none, none, none, some 0, some 1, some 2] ∧
    ¬ ((DCEL.loadFromInput [⟨0, 0⟩, ⟨2, 0⟩, ⟨1, 2⟩]
        [[1, 2, 3], [1, 2, 3], [1, 2, 3]]).1.halfEdges.map (fun he => he.twin))[6]? =
      some none := by
  decide

/-- C20, amended: when exactly three half-edges share an undirected key, the
third one created is linked: it and the half-edge that was `first` in the map
entry (the first created when the first two have the same `fromIdx`, the
second created otherwise) are twins of each other, and the remaining one of
the first two has no twin. -/
theorem third_half_edge_is_linked (points : List Point) (loops : List (List Int))
    (k : EdgeKey) (a b c : Nat) (fa fb fc : Int)
    (hocc : occurrences (createdPairs points.length loops.length
      (loops.map (fun l => l.map DCEL.inputToInternal))) k = [(a, fa), (b, fb), (c, fc)]) :
    ∃ ha hb hc : HalfEdge,
      (DCEL.loadFromInput points loops).1.halfEdges[a]? = some ha ∧
      (DCEL.loadFromInput points loops).1.halfEdges[b]? = some hb ∧
      (DCEL.loadFromInput points loops).1.halfEdges[c]? = some hc ∧
      (if fa = fb then ha.twin = some c ∧ hc.twin = some a ∧ hb.twin = none
       else hb.twin = some c ∧ hc.twin = some b ∧ ha.twin = none) :=
  built_three_on_key (constructed_loadFromInput points loops) hocc

/-- C20, amended, on three copies of the triangle `1 2 3`. -/
theorem third_half_edge_is_linked_witness :
    occurrences (createdPairs 3 3
      ([[1, 2, 3], [1, 2, 3], [1, 2, 3]].map (fun l => l.map DCEL.inputToInternal))) ⟨0, 1⟩ =
      [(0, 0), (3, 0), (6, 0)] ∧
    ∃ ha hb hc : HalfEdge,
      (DCEL.loadFromInput [⟨0, 0⟩, ⟨2, 0⟩, ⟨1, 2⟩]
        [[1, 2, 3], [1, 2, 3], [1, 2, 3]]).1.halfEdges[0]? = some ha ∧
      (DCEL.loadFromInput [⟨0, 0⟩, ⟨2, 0⟩, ⟨1, 2⟩]
        [[1, 2, 3], [1, 2, 3], [1, 2, 3]]).1.halfEdges[3]? = some hb ∧
      (DCEL.loadFromInput [⟨0, 0⟩, ⟨2, 0⟩, ⟨1, 2⟩]
        [[1, 2, 3], [1, 2, 3], [1, 2, 3]]).1.halfEdges[6]? = some hc ∧
      (if (0 : Int) = 0 then ha.twin = some 6 ∧ hc.twin = some 0 ∧ hb.twin = none
       else hb.twin = some 6 ∧ hc.twin = some 3 ∧ ha.twin = none) :=
  ⟨by decide,
    third_half_edge_is_linked [⟨0, 0⟩, ⟨2, 0⟩, ⟨1, 2⟩] [[1, 2, 3], [1, 2, 3], [1, 2, 3]] ⟨0, 1⟩
      0 3 6 0 0 0 (by decide)⟩

/-! ## The builder never fails (C16) -/

theorem foldlM_eq_some_foldl {σ α : Type} (Inv : σ → Prop) (g : σ → α → Option σ)
    (g' : σ → α → σ) (l : List α)
    (h : ∀ s a, a ∈ l → Inv s → g s a = some (g' s a) ∧ Inv (g' s a)) (s : σ) (hs : Inv s) :
    l.foldlM g s = some (l.foldl g' s) ∧ Inv (l.foldl g' s) := by
  induction l generalizing s with
  | nil => exact ⟨rfl, hs⟩
  | cons a l ih =>
    obtain ⟨h1, h2⟩ := h s a (List.mem_cons_self _ _) hs
    rw [List.foldlM_cons, h1, List.foldl_cons]
    exact ih (fun s a ha => h s a (List.mem_cons_of_mem _ ha)) (g' s a) h2

/-- The pointer `first` of a map entry of the builder points to a half-edge
whose origin points to a vertex. -/
theorem created_first_valid {points : List Point} {loops : List (List Int)} {d : DCEL}
    {ps : List (Nat × Int × Int)} (hc : Created points loops d ps) {k : EdgeKey}
    {e : Option Nat × Option Nat} (hf : mapFind k d.edgeMap = some e) :
    ∃ (fst : HalfEdge) (v : Vertex), d.heAt e.1 = some fst ∧ d.vertexAt fst.origin = some v := by
  have hslot := hc.records.slots k
  rw [hf] at hslot
  cases hts : twinSlots (occurrences ps k) with
  | none => rw [hts] at hslot; cases hslot
  | some t =>
    obtain ⟨⟨a, fa⟩, b⟩ := t
    rw [hts] at hslot
    simp only [slotsEntry, Option.map_some', Option.some.injEq] at hslot
    have hmem := twinSlots_first_mem (occurrences ps k) _ hts
    obtain ⟨q, hq, _, _⟩ := mem_occurrences hmem
    simp only at hq
    have hqr := (hc.inRange q (List.getElem?_mem hq)).1
    unfold pairInRange at hqr
    simp only [decide_eq_true_eq] at hqr
    have hv : ∃ v : Vertex, d.vertexAt (newHalfEdge a q).origin = some v := by
      unfold DCEL.vertexAt newHalfEdge
      simp only
      rw [hc.records.vertices, List.getElem?_eq_getElem (by omega)]
      exact ⟨_, rfl⟩
    obtain ⟨v, hv⟩ := hv
    refine ⟨newHalfEdge a q, v, ?_, hv⟩
    rw [hslot]
    unfold DCEL.heAt
    simp only
    rw [hc.phase1.halfEdges, enum_map_getElem?, hq]
    rfl

theorem createHalfEdgeChecked_eq {points : List Point} {loops : List (List Int)} {d : DCEL}
    {ps : List (Nat × Int × Int)} (hc : Created points loops d ps)
    (hV : d.vertices.length = points.length) (hF : d.faces.length = loops.length)
    (f : Nat) (hf : f < loops.length) (a b : Int) :
    createHalfEdgeChecked f a b d = some (DCEL.createHalfEdge f a b d) ∧
    ∃ ps', Created points loops (DCEL.createHalfEdge f a b d) ps' := by
  unfold createHalfEdgeChecked
  by_cases hr : a < 0 ∨ a ≥ (d.vertices.length : Int) ∨ b < 0 ∨ b ≥ (d.vertices.length : Int)
  · rw [if_pos hr]
    have : DCEL.createHalfEdge f a b d = d := by
      unfold DCEL.createHalfEdge
      rw [if_pos hr]
    rw [this]
    exact ⟨rfl, ps, hc⟩
  · rw [if_neg hr]
    have hin : pairInRange points.length (f, a, b) = true := by
      unfold pairInRange
      simp only [decide_eq_true_eq]
      omega
    refine ⟨?_, ps ++ [(f, a, b)], created_step hc hV (f, a, b) hin hf⟩
    have h1 : a.toNat < d.vertices.length := by omega
    have h2 : f < d.faces.length := by omega
    rw [List.getElem?_eq_getElem h1, List.getElem?_eq_getElem h2]
    simp only
    cases hm : mapFind (EdgeKey.mk2 a b) d.edgeMap with
    | none => rfl
    | some e =>
      obtain ⟨fst, v, e1, e2⟩ := created_first_valid hc hm
      simp only [e1, e2]

theorem createFaceHalfEdgesChecked_eq {points : List Point} {loops : List (List Int)} {d : DCEL}
    (hc : ∃ ps, Created points loops d ps)
    (hV : d.vertices.length = points.length) (hF : d.faces.length = loops.length)
    (f : Nat) (hf : f < loops.length) :
    createFaceHalfEdgesChecked d f = some (DCEL.createFaceHalfEdges d f) ∧
    (∃ ps', Created points loops (DCEL.createFaceHalfEdges d f) ps') ∧
    (DCEL.createFaceHalfEdges d f).vertices.length = points.length ∧
    (DCEL.createFaceHalfEdges d f).faces.length = loops.length := by
  obtain ⟨ps, hcr⟩ := hc
  have hloops := hcr.loopsEq
  have hlt : f < d.faceVertexIndices.length := by rw [hloops]; simpa using hf
  unfold createFaceHalfEdgesChecked DCEL.createFaceHalfEdges
  rw [List.getElem?_eq_getElem hlt, List.getD_eq_getElem _ _ hlt]
  simp only
  by_cases h3 : (d.faceVertexIndices[f]).length < 3
  · rw [if_pos h3, if_pos h3]
    exact ⟨rfl, ⟨ps, hcr⟩, hV, hF⟩
  · rw [if_neg h3, if_neg h3]
    have := foldlM_eq_some_foldl
      (fun s : DCEL => (∃ ps', Created points loops s ps') ∧
        s.vertices.length = points.length ∧ s.faces.length = loops.length)
      (fun s i =>
        match (d.faceVertexIndices[f])[i]?,
          (d.faceVertexIndices[f])[(i + 1) % (d.faceVertexIndices[f]).length]? with
        | some fromIdx, some toIdx => createHalfEdgeChecked f fromIdx toIdx s
        | _, _ => none)
      (fun s i => DCEL.createHalfEdge f ((d.faceVertexIndices[f]).getD i 0)
        ((d.faceVertexIndices[f]).getD ((i + 1) % (d.faceVertexIndices[f]).length) 0) s)
      (List.range (d.faceVertexIndices[f]).length)
      (by
        intro s i hi hs
        obtain ⟨⟨ps', hs1⟩, hs2, hs3⟩ := hs
        have hi' := List.mem_range.mp hi
        have hm : (i + 1) % (d.faceVertexIndices[f]).length < (d.faceVertexIndices[f]).length :=
          Nat.mod_lt _ (by omega)
        beta_reduce
        rw [List.getElem?_eq_getElem hi', List.getElem?_eq_getElem hm,
          List.getD_eq_getElem _ _ hi', List.getD_eq_getElem _ _ hm]
        simp only
        obtain ⟨e1, e2⟩ := createHalfEdgeChecked_eq hs1 hs2 hs3 f hf
          ((d.faceVertexIndices[f])[i]) ((d.faceVertexIndices[f])[(i + 1) % (d.faceVertexIndices[f]).length])
        refine ⟨e1, e2, ?_, ?_⟩
        · rw [createHalfEdge_vertices_length]; exact hs2
        · rw [createHalfEdge_faces_length]; exact hs3)
      d ⟨⟨ps, hcr⟩, hV, hF⟩
    exact ⟨this.1, this.2.1, this.2.2.1, this.2.2.2⟩

theorem createLoopsChecked_eq (points : List Point) (loops : List (List Int)) :
    createLoopsChecked (DCEL.readInput points loops) =
      some ((List.range (DCEL.readInput points loops).faces.length).foldl
        DCEL.createFaceHalfEdges (DCEL.readInput points loops)) := by
  unfold createLoopsChecked
  have h0 : Created points loops (DCEL.readInput points loops) [] := by
    refine ⟨⟨by simp [DCEL.readInput], by simp [DCEL.readInput, MapSorted], ?_⟩, ?_,
      ⟨?_, ?_, ?_⟩, rfl⟩
    · intro k
      simp [DCEL.readInput, mapFind, EntryOK]
    · intro p hp; cases hp
    · intro v
      simp only [DCEL.readInput, enum_map_getElem?, List.findIdx?_nil]
    · intro f
      simp only [DCEL.readInput, enum_map_getElem?, List.findIdx?_nil]
    · intro k
      simp [DCEL.readInput, mapFind, occurrences, twinSlots, slotsEntry]
  have := foldlM_eq_some_foldl
    (fun s : DCEL => (∃ ps', Created points loops s ps') ∧
      s.vertices.length = points.length ∧ s.faces.length = loops.length)
    createFaceHalfEdgesChecked DCEL.createFaceHalfEdges
    (List.range (DCEL.readInput points loops).faces.length)
    (by
      intro s f hf hs
      have hf' : f < loops.length := by
        have := List.mem_range.mp hf
        rwa [readInput_faces_length] at this
      obtain ⟨e1, e2, e3, e4⟩ := createFaceHalfEdgesChecked_eq hs.1 hs.2.1 hs.2.2 f hf'
      exact ⟨e1, e2, e3, e4⟩)
    (DCEL.readInput points loops)
    ⟨⟨[], h0⟩, readInput_vertices_length points loops, readInput_faces_length points loops⟩
  exact this.1

/-- C16: for every vertex list and every list of face loops the builder
returns `true`, every access of the creation loops to the vertices, the faces,
the loops and through the pointers of the map is in range (the checked loops
do not fail and give the state of the unchecked ones), and the DCEL keeps one
vertex record per input vertex, with its position, and one face record per
input loop. -/
theorem builder_never_fails (points : List Point) (loops : List (List Int)) :
    (DCEL.constructDCEL (DCEL.readInput points loops)).2 = true ∧
    (DCEL.loadFromInput points loops).2 = true ∧
    createLoopsChecked (DCEL.readInput points loops) =
      some ((List.range (DCEL.readInput points loops).faces.length).foldl
        DCEL.createFaceHalfEdges (DCEL.readInput points loops)) ∧
    (DCEL.loadFromInput points loops).1.vertices.length = points.length ∧
    (DCEL.loadFromInput points loops).1.faces.length = loops.length ∧
    (DCEL.loadFromInput points loops).1.vertices.map (fun v => v.position) = points := by
  have hc := constructed_loadFromInput points loops
  have hvl : ∀ {α β : Type} (l1 : List α) (l2 : List β) (g : Nat → β → α),
      (∀ i, l1[i]? = (l2[i]?).map (g i)) → l1.length = l2.length := by
    intro α β l1 l2 g h
    rcases Nat.lt_trichotomy l1.length l2.length with hlt | heq | hgt
    · have := h l1.length
      rw [List.getElem?_eq_none (le_refl _), List.getElem?_eq_getElem hlt] at this
      cases this
    · exact heq
    · have := h l2.length
      rw [List.getElem?_eq_none (le_refl _), List.getElem?_eq_getElem hgt] at this
      cases this
  have hV := hvl _ _ _ hc.records.vertices
  refine ⟨(built_constructDCEL _ rfl rfl).1, (built_loadFromInput points loops).1,
    createLoopsChecked_eq points loops, hV, hvl _ _ _ hc.records.faces, ?_⟩
  apply List.ext_getElem?
  intro i
  rw [List.getElem?_map, hc.records.vertices i]
  cases points[i]? <;> rfl

/-! ## Crossing edges that the validator accepts (C11) -/

/-- C11 fails on the code: for the vertices (0,0), (2,2), (0,2), (2,0) and the
loop `1 2 3 4` given twice, the builder makes each half-edge of the first face
the twin of the half-edge of the same direction of the second face, so every
`destination()` is the half-edge's own origin and every segment the overlap
check tests is a single point. The validator accepts the mesh and the DCEL is
emitted, although the created pairs (0, 1) and (2, 3) share no vertex index and
their segments (0,0)-(2,2) and (0,2)-(2,0) cross at (1,1), interior to both. -/
theorem crossing_diagonals_accepted :
    DCEL.isValidDCEL (DCEL.loadFromInput [⟨0, 0⟩, ⟨2, 2⟩, ⟨0, 2⟩, ⟨2, 0⟩]
      [[1, 2, 3, 4], [1, 2, 3, 4]]).1 = (true, []) ∧
    (DCEL.main [⟨0, 0⟩, ⟨2, 2⟩, ⟨0, 2⟩, ⟨2, 0⟩] [[1, 2, 3, 4], [1, 2, 3, 4]]).2.isSome = true ∧
    (∀ p ∈ [(⟨0, 0⟩ : Point), ⟨2, 2⟩, ⟨0, 2⟩, ⟨2, 0⟩], p.small) ∧
    createdPairs 4 2 ([[1, 2, 3, 4], [1, 2, 3, 4]].map (fun l => l.map DCEL.inputToInternal)) =
      [(0, 0, 1), (0, 1, 2), (0, 2, 3), (0, 3, 0), (1, 0, 1), (1, 1, 2), (1, 2, 3), (1, 3, 0)] ∧
    (DCEL.loadFromInput [⟨0, 0⟩, ⟨2, 2⟩, ⟨0, 2⟩, ⟨2, 0⟩]
      [[1, 2, 3, 4], [1, 2, 3, 4]]).1.halfEdges.map
        (fun he => (DCEL.getSegmentStart (DCEL.loadFromInput [⟨0, 0⟩, ⟨2, 2⟩, ⟨0, 2⟩, ⟨2, 0⟩]
            [[1, 2, 3, 4], [1, 2, 3, 4]]).1 he,
          DCEL.getSegmentEnd (DCEL.loadFromInput [⟨0, 0⟩, ⟨2, 2⟩, ⟨0, 2⟩, ⟨2, 0⟩]
            [[1, 2, 3, 4], [1, 2, 3, 4]]).1 he)) =
      [(⟨0, 0⟩, ⟨0, 0⟩), (⟨2, 2⟩, ⟨2, 2⟩), (⟨0, 2⟩, ⟨0, 2⟩), (⟨2, 0⟩, ⟨2, 0⟩),
       (⟨0, 0⟩, ⟨0, 0⟩), (⟨2, 2⟩, ⟨2, 2⟩), (⟨0, 2⟩, ⟨0, 2⟩), (⟨2, 0⟩, ⟨2, 0⟩)] ∧
    CrossInside ⟨0, 0⟩ ⟨2, 2⟩ ⟨0, 2⟩ ⟨2, 0⟩ := by
  refine ⟨by decide, by decide, by decide, by decide, by decide, ?_⟩
  refine ⟨1 / 2, 1 / 2, by norm_num, by norm_num, by norm_num, by norm_num, ?_, ?_⟩ <;>
    norm_num

/-! ## Chain linking: the walk over one face -/

theorem built_getElem?_none {d : DCEL} {ps : List (Nat × Int × Int)} (hb : Built d ps) {c : Nat}
    (h : ps[c]? = none) : d.halfEdges[c]? = none := by
  apply List.getElem?_eq_none
  rw [hb.length]
  by_contra hc
  rw [List.getElem?_eq_getElem (by omega)] at h
  cases h

theorem built_destinationAt {d : DCEL} {ps : List (Nat × Int × Int)} (hb : Built d ps) (c : Nat) :
    DCEL.destinationAt d c = destOf ps d.edgeMap c := by
  unfold DCEL.destinationAt destOf DCEL.heAt
  simp only
  cases hp : ps[c]? with
  | none => rw [built_getElem?_none hb hp]
  | some p =>
    obtain ⟨he, h1, _, _, _, h5⟩ := hb.he c p hp
    rw [h1]
    simp only
    unfold DCEL.destination DCEL.heAt
    rw [h5]
    cases ht : lookupTwin d.edgeMap c with
    | none => rfl
    | some t =>
      simp only
      cases hq : ps[t]? with
      | none => rw [built_getElem?_none hb hq]; rfl
      | some q =>
        obtain ⟨tw, t1, _, t3, _⟩ := hb.he t q hq
        rw [t1]
        simp only [t3, Option.map_some']

theorem built_findNext {d : DCEL} {ps : List (Nat × Int × Int)} (hb : Built d ps) (g c : Nat) :
    DCEL.findNext d g (DCEL.destinationAt d c) = nextOf ps d.edgeMap g c := by
  rw [built_destinationAt hb]
  unfold DCEL.findNext nextOf
  apply built_findIdx? hb
  intro i p he hp hi
  obtain ⟨he', h1, _, h3, h4, _⟩ := hb.he i p hp
  rw [hi] at h1
  cases h1
  rw [h3, h4]
  simp

theorem walkStep_eq {d : DCEL} {ps : List (Nat × Int × Int)} (hb : Built d ps)
    (g start c : Nat) :
    DCEL.walkStep g start c d =
      match nextOf ps d.edgeMap g c with
      | none => (d.modifyHalfEdge c (fun he => { he with next := none }), none)
      | some nx =>
        ((d.modifyHalfEdge c (fun he => { he with next := some nx })).modifyHalfEdge nx
          (fun he => { he with prev := some c }), if nx = start then none else some nx) := by
  unfold DCEL.walkStep
  simp only
  rw [built_findNext hb]
  cases nextOf ps d.edgeMap g c with
  | none => rfl
  | some nx =>
    simp only
    split_ifs <;> rfl

theorem nextOf_face {ps : List (Nat × Int × Int)} {m : List (EdgeKey × (Option Nat × Option Nat))}
    {g c nx : Nat} (h : nextOf ps m g c = some nx) : ∃ p, ps[nx]? = some p ∧ p.1 = g := by
  unfold nextOf at h
  obtain ⟨⟨p, hp, hq⟩, _⟩ := findIdx?_eq_some_getElem? h
  simp only [decide_eq_true_eq] at hq
  exact ⟨p, hp, hq.1⟩

/-- A property kept by the assignments of the walk over face `g`, which assigns
`next` and `prev` of half-edges of face `g` only, is kept by the walk. -/
theorem walkFace_guarded {P : DCEL → Prop} {ps : List (Nat × Int × Int)} {g : Nat}
    (hcore : ∀ d, P d → Built d ps)
    (hn : ∀ d i nx, P d → (∃ p, ps[i]? = some p ∧ p.1 = g) →
      (∀ j, nx = some j → ∃ p, ps[j]? = some p ∧ p.1 = g) →
      P (d.modifyHalfEdge i (fun he => { he with next := nx })))
    (hp : ∀ d i c, P d → (∃ p, ps[i]? = some p ∧ p.1 = g) →
      (∃ p, ps[c]? = some p ∧ p.1 = g) →
      P (d.modifyHalfEdge i (fun he => { he with prev := some c })))
    (start : Nat) :
    ∀ (rem cur : Nat) (d : DCEL), P d → (∃ p, ps[cur]? = some p ∧ p.1 = g) →
      P (DCEL.walkFace g start rem cur d) := by
  intro rem
  induction rem using Nat.strong_induction_on with
  | _ rem ih =>
    intro cur d hd hcur
    have hstep := walkStep_eq (hcore d hd) g start cur
    cases hnx : nextOf ps d.edgeMap g cur with
    | none =>
      rw [hnx] at hstep
      simp only at hstep
      have hP1 := hn d cur none hd hcur (by intro j hj; cases hj)
      unfold DCEL.walkFace
      split
      · rename_i r d2 nx heq
        rw [hstep] at heq
        cases heq
      · rename_i d2 o heq
        rw [hstep] at heq
        cases heq
        exact hP1
    | some nx =>
      rw [hnx] at hstep
      simp only at hstep
      have hface := nextOf_face hnx
      have hP1 := hn d cur (some nx) hd hcur (by intro j hj; cases hj; exact hface)
      have hP2 := hp _ nx cur hP1 hface hcur
      unfold DCEL.walkFace
      split
      · rename_i r d2 nx' heq
        rw [hstep] at heq
        simp only [Prod.mk.injEq] at heq
        obtain ⟨e1, e2⟩ := heq
        split_ifs at e2
        cases e2
        rw [← e1]
        exact ih (r + 1) (by omega) nx _ hP2 hface
      · rename_i d2 o heq
        rw [hstep] at heq
        simp only [Prod.mk.injEq] at heq
        rw [← heq.1]
        exact hP2

theorem linkFaceChain_guarded {P : DCEL → Prop} {ps : List (Nat × Int × Int)} {g : Nat}
    (hcore : ∀ d, P d → Built d ps)
    (hn : ∀ d i nx, P d → (∃ p, ps[i]? = some p ∧ p.1 = g) →
      (∀ j, nx = some j → ∃ p, ps[j]? = some p ∧ p.1 = g) →
      P (d.modifyHalfEdge i (fun he => { he with next := nx })))
    (hp : ∀ d i c, P d → (∃ p, ps[i]? = some p ∧ p.1 = g) →
      (∃ p, ps[c]? = some p ∧ p.1 = g) →
      P (d.modifyHalfEdge i (fun he => { he with prev := some c })))
    (hstart : ∀ d face s, P d → d.faces[g]? = some face → face.outerComponent = some s →
      ∃ p, ps[s]? = some p ∧ p.1 = g)
    (d : DCEL) (hd : P d) : P (DCEL.linkFaceChain d g) := by
  unfold DCEL.linkFaceChain
  split
  · exact hd
  · rename_i face hface
    split
    · exact hd
    · rename_i s hs
      exact walkFace_guarded hcore hn hp s _ s d hd (hstart d face s hd hface hs)

/-! ### The assignments of the walk -/

theorem nextAt_modify_next (d : DCEL) (a j : Nat) (nx : Option Nat) :
    nextAt (d.modifyHalfEdge a (fun he => { he with next := nx })) j =
      if j = a ∧ a < d.halfEdges.length then nx else nextAt d j := by
  unfold nextAt
  rw [modifyHalfEdge_getElem?]
  by_cases hj : j = a
  · subst hj
    by_cases hl : j < d.halfEdges.length
    · simp [hl, List.getElem?_eq_getElem hl]
    · simp [hl, List.getElem?_eq_none (not_lt.mp hl)]
  · simp [hj]

theorem prevAt_modify_next (d : DCEL) (a j : Nat) (nx : Option Nat) :
    prevAt (d.modifyHalfEdge a (fun he => { he with next := nx })) j = prevAt d j := by
  unfold prevAt
  rw [modifyHalfEdge_getElem?]
  split_ifs
  · cases d.halfEdges[j]? <;> rfl
  · rfl

theorem prevAt_modify_prev (d : DCEL) (a j : Nat) (pv : Option Nat) :
    prevAt (d.modifyHalfEdge a (fun he => { he with prev := pv })) j =
      if j = a ∧ a < d.halfEdges.length then pv else prevAt d j := by
  unfold prevAt
  rw [modifyHalfEdge_getElem?]
  by_cases hj : j = a
  · subst hj
    by_cases hl : j < d.halfEdges.length
    · simp [hl, List.getElem?_eq_getElem hl]
    · simp [hl, List.getElem?_eq_none (not_lt.mp hl)]
  · simp [hj]

theorem nextAt_modify_prev (d : DCEL) (a j : Nat) (pv : Option Nat) :
    nextAt (d.modifyHalfEdge a (fun he => { he with prev := pv })) j = nextAt d j := by
  unfold nextAt
  rw [modifyHalfEdge_getElem?]
  split_ifs
  · cases d.halfEdges[j]? <;> rfl
  · rfl

theorem succ_mod_block {i k : Nat} (h : i < k) :
    (i + 1) % k = if i + 1 = k then 0 else i + 1 := by
  split_ifs with h1
  · rw [h1, Nat.mod_self]
  · exact Nat.mod_eq_of_lt (by omega)

/-- One iteration of the walk over the block of face `f`. -/
theorem cycle_step {ps : List (Nat × Int × Int)} {d : DCEL} {base k i : Nat}
    (hb : Built d ps) (hlen : base + k ≤ ps.length) (hi : i < k) (hc : Cycle d base k i) :
    Cycle ((d.modifyHalfEdge (base + i)
        (fun he => { he with next := some (base + (i + 1) % k) })).modifyHalfEdge
        (base + (i + 1) % k) (fun he => { he with prev := some (base + i) })) base k (i + 1) := by
  have hl := hb.length
  have hmi := succ_mod_block hi
  have hmk : (i + 1) % k < k := Nat.mod_lt _ (by omega)
  intro j hj
  have hjk : j < k := by omega
  have hmj := succ_mod_block hjk
  rw [nextAt_modify_prev, nextAt_modify_next, prevAt_modify_prev, prevAt_modify_next,
    modifyHalfEdge_length]
  by_cases hji : j = i
  · subst hji
    constructor
    · rw [if_pos ⟨rfl, by omega⟩]
    · rw [if_pos ⟨rfl, by omega⟩]
  · have hlt : j < i := by omega
    obtain ⟨c1, c2⟩ := hc j hlt
    constructor
    · rw [if_neg (by omega)]
      exact c1
    · rw [if_neg]
      · exact c2
      · rw [hmi, hmj]
        split_ifs <;> omega

/-- The walk over the block of face `f`, started at the first half-edge of the
block, stops after the last one and links the whole block cyclically. -/
theorem walkFace_block {ps : List (Nat × Int × Int)}
    {m : List (EdgeKey × (Option Nat × Option Nat))} {f base k : Nat}
    (hB : FaceBlock ps m f base k) :
    ∀ (n i rem : Nat) (d : DCEL), n = k - i → i < k → k ≤ rem + i → Built d ps →
      d.edgeMap = m → Cycle d base k i →
      Built (DCEL.walkFace f base rem (base + i) d) ps ∧
      (DCEL.walkFace f base rem (base + i) d).edgeMap = m ∧
      (DCEL.walkFace f base rem (base + i) d).faces = d.faces ∧
      (DCEL.walkFace f base rem (base + i) d).vertices = d.vertices ∧
      Cycle (DCEL.walkFace f base rem (base + i) d) base k k := by
  intro n
  induction n with
  | zero => intro i rem d hn hi; omega
  | succ n ih =>
    intro i rem d hn hi hrem hb hm hc
    have hstep := walkStep_eq hb f base (base + i)
    rw [hm, hB.next i hi] at hstep
    simp only at hstep
    have hb2 : Built ((d.modifyHalfEdge (base + i)
        (fun he => { he with next := some (base + (i + 1) % k) })).modifyHalfEdge
        (base + (i + 1) % k) (fun he => { he with prev := some (base + i) })) ps :=
      (built_chainStable ps).2 _ _ _ ((built_chainStable ps).1 _ _ _ hb)
    have hc2 := cycle_step hb hB.len hi hc
    have hmi := succ_mod_block hi
    by_cases hk : i + 1 = k
    · rw [hmi, if_pos hk] at hstep
      unfold DCEL.walkFace
      split
      · rename_i r d2 nx heq
        rw [hstep] at heq
        simp at heq
      · rename_i d2 o heq
        rw [hstep] at heq
        simp only [Prod.mk.injEq] at heq
        rw [← heq.1]
        rw [hmi, if_pos hk] at hb2 hc2
        refine ⟨hb2, ?_, ?_, ?_, ?_⟩
        · rw [modifyHalfEdge_edgeMap, modifyHalfEdge_edgeMap]; exact hm
        · rw [modifyHalfEdge_faces, modifyHalfEdge_faces]
        · rw [modifyHalfEdge_vertices, modifyHalfEdge_vertices]
        · intro j hj
          exact hc2 j (by omega)
    · rw [hmi, if_neg hk, if_neg (by omega)] at hstep
      rw [hmi, if_neg hk] at hb2 hc2
      unfold DCEL.walkFace
      split
      · rename_i r d2 nx heq
        rw [hstep] at heq
        simp only [Prod.mk.injEq, Option.some.injEq] at heq
        obtain ⟨e1, e2⟩ := heq
        subst e2
        subst e1
        have := ih (i + 1) (r + 1) _ (by omega) (by omega) (by omega) hb2
          (by rw [modifyHalfEdge_edgeMap, modifyHalfEdge_edgeMap]; exact hm) hc2
        refine ⟨this.1, this.2.1, ?_, ?_, this.2.2.2.2⟩
        · rw [this.2.2.1, modifyHalfEdge_faces, modifyHalfEdge_faces]
        · rw [this.2.2.2.1, modifyHalfEdge_vertices, modifyHalfEdge_vertices]
      · rename_i rem1 _ _ d2 o hno heq
        rw [hstep] at heq
        simp only [Prod.mk.injEq] at heq
        exact absurd heq.2.symm (hno (rem1 - 2) _ (by omega))

/-! ## Chain linking: the block of one face among the created triples -/

theorem createdPairs_succ (V F : Nat) (L : List (List Int)) :
    createdPairs V (F + 1) L = createdPairs V F L ++
      ((loopPairs (L.getD F [])).map (fun p => (F, p.1, p.2))).filter (pairInRange V) := by
  unfold createdPairs visitedPairs
  rw [List.range_succ, List.flatMap_append, List.filter_append]
  simp

theorem createdPairs_split (V : Nat) (L : List (List Int)) :
    ∀ F f, f < F → ∃ rest, createdPairs V F L = createdPairs V f L ++
      ((loopPairs (L.getD f [])).map (fun p => (f, p.1, p.2))).filter (pairInRange V) ++ rest ∧
      ∀ p ∈ rest, f < p.1 := by
  intro F
  induction F with
  | zero => intro f hf; omega
  | succ F ih =>
    intro f hf
    rw [createdPairs_succ]
    by_cases hfF : f = F
    · subst hfF
      exact ⟨[], by simp, by simp⟩
    · obtain ⟨rest, h1, h2⟩ := ih f (by omega)
      refine ⟨rest ++ ((loopPairs (L.getD F [])).map (fun p => (F, p.1, p.2))).filter
        (pairInRange V), ?_, ?_⟩
      · rw [h1]; simp
      · intro p hp
        rcases List.mem_append.mp hp with hp | hp
        · exact h2 p hp
        · have := (List.mem_filter.mp hp).1
          rw [List.mem_map] at this
          obtain ⟨q, _, hq⟩ := this
          rw [← hq]
          simp only
          omega

/-- The triples of a loop of at least 3 entries, all in range. -/
theorem block_eq (V f : Nat) (loop : List Int) (hk : 3 ≤ loop.length)
    (hr : ∀ v ∈ loop, 0 ≤ v ∧ v < (V : Int)) :
    ((loopPairs loop).map (fun p => (f, p.1, p.2))).filter (pairInRange V) =
      (List.range loop.length).map
        (fun i => (f, loop.getD i 0, loop.getD ((i + 1) % loop.length) 0)) := by
  unfold loopPairs
  rw [if_neg (by omega), List.map_map]
  show List.filter (pairInRange V) ((List.range loop.length).map
    (fun i => (f, loop.getD i 0, loop.getD ((i + 1) % loop.length) 0))) = _
  apply List.filter_eq_self.mpr
  intro p hp
  rw [List.mem_map] at hp
  obtain ⟨i, hi, rfl⟩ := hp
  have hi' := List.mem_range.mp hi
  have hm : (i + 1) % loop.length < loop.length := Nat.mod_lt _ (by omega)
  unfold pairInRange
  simp only [Function.comp, decide_eq_true_eq]
  rw [List.getD_eq_getElem _ _ hi', List.getD_eq_getElem _ _ hm]
  have h1 := hr _ (List.getElem_mem hi')
  have h2 := hr _ (List.getElem_mem hm)
  omega

theorem findIdx?_eq_some_of_getElem? {α : Type} {l : List α} {q : α → Bool} {i : Nat}
    (h1 : ∃ a, l[i]? = some a ∧ q a = true)
    (h2 : ∀ j a, j < i → l[j]? = some a → q a = false) : l.findIdx? q = some i := by
  obtain ⟨a, ha, hq⟩ := h1
  have hlt : i < l.length := by
    by_contra hc
    rw [List.getElem?_eq_none (by omega)] at ha
    cases ha
  rw [List.findIdx?_eq_some_iff_getElem]
  refine ⟨hlt, ?_, ?_⟩
  · rw [List.getElem?_eq_getElem hlt] at ha
    rw [Option.some.inj ha]; exact hq
  · intro j hj
    have := h2 j l[j] hj (List.getElem?_eq_getElem (by omega))
    simp [this]

/-- The positions of the triples of a block between the triples of the faces
before it and those of the faces after it. -/
theorem split_getElem? {A M R : List (Nat × Int × Int)} (i : Nat) :
    (i < A.length ∧ (A ++ M ++ R)[i]? = A[i]?) ∨
    (A.length ≤ i ∧ i < A.length + M.length ∧ (A ++ M ++ R)[i]? = M[i - A.length]?) ∨
    (A.length + M.length ≤ i ∧ (A ++ M ++ R)[i]? = R[i - (A.length + M.length)]?) := by
  by_cases h1 : i < A.length
  · left
    refine ⟨h1, ?_⟩
    rw [List.append_assoc, List.getElem?_append_left h1]
  · by_cases h2 : i < A.length + M.length
    · right; left
      refine ⟨by omega, h2, ?_⟩
      rw [List.append_assoc, List.getElem?_append_right (by omega),
        List.getElem?_append_left (by omega)]
    · right; right
      refine ⟨by omega, ?_⟩
      rw [List.getElem?_append_right (by simp; omega)]
      simp [Nat.sub_add_eq]

/-- The triples of the block of face `f`, between those of the faces before it
and those of the faces after it. -/
theorem split_block {ps A rest : List (Nat × Int × Int)} {f : Nat} {loop : List Int}
    (hps : ps = A ++ (List.range loop.length).map
      (fun i => (f, loop.getD i 0, loop.getD ((i + 1) % loop.length) 0)) ++ rest)
    (hA : ∀ p ∈ A, p.1 < f) (hrest : ∀ p ∈ rest, f < p.1) :
    A.length + loop.length ≤ ps.length ∧
    (∀ i, i < loop.length →
      ps[A.length + i]? = some (f, loop.getD i 0, loop.getD ((i + 1) % loop.length) 0)) ∧
    ∀ i p, ps[i]? = some p → (p.1 = f ↔ (A.length ≤ i ∧ i < A.length + loop.length)) := by
  have hM : ((List.range loop.length).map
      (fun i => (f, loop.getD i 0, loop.getD ((i + 1) % loop.length) 0))).length =
      loop.length := by simp
  refine ⟨?_, ?_, ?_⟩
  · rw [hps]
    simp only [List.length_append, List.length_map, List.length_range]
    omega
  · intro i hi
    rw [hps, List.append_assoc, List.getElem?_append_right (by omega),
      List.getElem?_append_left (by simp; omega)]
    simp [hi]
  · intro i p hp
    rw [hps] at hp
    rcases split_getElem? (A := A) (M := (List.range loop.length).map
      (fun i => (f, loop.getD i 0, loop.getD ((i + 1) % loop.length) 0))) (R := rest) i
      with ⟨h1, h2⟩ | ⟨h1, h2, h3⟩ | ⟨h1, h2⟩
    · rw [h2] at hp
      have := hA p (List.getElem?_mem hp)
      constructor
      · intro h; omega
      · intro h; omega
    · rw [hM] at h2
      rw [h3] at hp
      simp only [List.getElem?_map] at hp
      rw [List.getElem?_range (by omega)] at hp
      simp only [Option.map_some', Option.some.injEq] at hp
      rw [← hp]
      simp only [true_iff]
      exact ⟨h1, h2⟩
    · rw [hM] at h1
      rw [h2] at hp
      have := hrest p (List.getElem?_mem hp)
      constructor
      · intro h; omega
      · intro h; omega

theorem faceBlock_of_block {ps : List (Nat × Int × Int)}
    {m : List (EdgeKey × (Option Nat × Option Nat))} {f base : Nat} {loop : List Int}
    (hlen : base + loop.length ≤ ps.length)
    (hget : ∀ i, i < loop.length →
      ps[base + i]? = some (f, loop.getD i 0, loop.getD ((i + 1) % loop.length) 0))
    (hface : ∀ i p, ps[i]? = some p → (p.1 = f ↔ (base ≤ i ∧ i < base + loop.length)))
    (hinj : ∀ i j, i < loop.length → j < loop.length →
      (loop.getD i 0).toNat = (loop.getD j 0).toNat → i = j)
    (hdest : ∀ i, i < loop.length →
      destOf ps m (base + i) = some (loop.getD ((i + 1) % loop.length) 0).toNat) :
    FaceBlock ps m f base loop.length := by
  refine ⟨hlen, hface, ?_⟩
  intro i hi
  have hmk : (i + 1) % loop.length < loop.length := Nat.mod_lt _ (by omega)
  unfold nextOf
  rw [hdest i hi]
  apply findIdx?_eq_some_of_getElem?
  · exact ⟨_, hget _ hmk, by simp⟩
  · intro j a hj ha
    simp only [decide_eq_false_iff_not, not_and]
    intro hfa ho
    have hpos := (hface j a ha).mp hfa
    have hj' : j - base < loop.length := by omega
    have := hget (j - base) hj'
    rw [show base + (j - base) = j by omega, ha] at this
    rw [Option.some.inj this] at ho
    simp only [Option.some.injEq] at ho
    have := hinj _ _ hj' hmk ho
    omega

/-- The block of a face among the triples `loadFromInput` creates. -/
theorem createdPairs_block (V F f : Nat) (L : List (List Int)) (loop : List Int) (hfl : f < F)
    (hf : L[f]? = some loop) (hk : 3 ≤ loop.length) (hr : ∀ v ∈ loop, 0 ≤ v ∧ v < (V : Int)) :
    (createdPairs V f L).length + loop.length ≤ (createdPairs V F L).length ∧
    (∀ i, i < loop.length →
      (createdPairs V F L)[(createdPairs V f L).length + i]? =
        some (f, loop.getD i 0, loop.getD ((i + 1) % loop.length) 0)) ∧
    ∀ i p, (createdPairs V F L)[i]? = some p →
      (p.1 = f ↔ ((createdPairs V f L).length ≤ i ∧
        i < (createdPairs V f L).length + loop.length)) := by
  obtain ⟨rest, hps, hrest⟩ := createdPairs_split V L F f hfl
  have hget : L.getD f [] = loop := by
    rw [List.getD_eq_getElem?_getD, hf]; rfl
  rw [hget, block_eq V f loop hk hr] at hps
  exact split_block hps (fun p hp => createdPairs_face_lt hp) hrest

/-- A face whose loop has fewer than 3 entries has no triple. -/
theorem createdPairs_short (V F f : Nat) (L : List (List Int)) (hs : (L.getD f []).length < 3) :
    ∀ p ∈ createdPairs V F L, p.1 ≠ f := by
  intro p hp hpf
  unfold createdPairs visitedPairs at hp
  have := (List.mem_filter.mp hp).1
  rw [List.mem_flatMap] at this
  obtain ⟨g, _, hg⟩ := this
  rw [List.mem_map] at hg
  obtain ⟨q, hq, hqp⟩ := hg
  rw [← hqp] at hpf
  simp only at hpf
  subst hpf
  unfold loopPairs at hq
  rw [if_pos hs] at hq
  cases hq

theorem toNat_getD_inj {V : Nat} {loop : List Int} (hnd : loop.Nodup)
    (hr : ∀ v ∈ loop, 0 ≤ v ∧ v < (V : Int)) :
    ∀ i j, i < loop.length → j < loop.length →
      (loop.getD i 0).toNat = (loop.getD j 0).toNat → i = j := by
  intro i j hi hj h
  rw [List.getD_eq_getElem _ _ hi, List.getD_eq_getElem _ _ hj] at h
  have h1 := hr _ (List.getElem_mem hi)
  have h2 := hr _ (List.getElem_mem hj)
  have : loop[i] = loop[j] := by omega
  exact (List.Nodup.getElem_inj_iff hnd).mp this

/-! ## Chain linking: the loop over the faces -/

theorem linking_modify {points : List Point} {loops : List (List Int)}
    {ps : List (Nat × Int × Int)} {m : List (EdgeKey × (Option Nat × Option Nat))} :
    ChainStable (fun d => Linking points loops ps m d) := by
  constructor
  · intro d i nx h
    exact ⟨(built_chainStable ps).1 d i nx h.built, recordsOK_modifyHalfEdge h.records i _,
      by rw [modifyHalfEdge_edgeMap]; exact h.edgeMap⟩
  · intro d i pv h
    exact ⟨(built_chainStable ps).2 d i pv h.built, recordsOK_modifyHalfEdge h.records i _,
      by rw [modifyHalfEdge_edgeMap]; exact h.edgeMap⟩

theorem foldl_linkFaceChain_stable {P : DCEL → Prop} (hP : ChainStable P) (fs : List Nat)
    (d : DCEL) (hd : P d) : P (fs.foldl DCEL.linkFaceChain d) := by
  induction fs generalizing d with
  | nil => exact hd
  | cons f fs ih =>
    rw [List.foldl_cons]
    exact ih _ (linkFaceChain_stable hP d f hd)

/-- The `outerComponent` of face `g` is a half-edge of face `g`. -/
theorem outer_in_face {points : List Point} {loops : List (List Int)}
    {ps : List (Nat × Int × Int)} {d : DCEL} (h : RecordsOK points loops ps d) {g s : Nat}
    {face : Face} (hface : d.faces[g]? = some face) (hs : face.outerComponent = some s) :
    ∃ p, ps[s]? = some p ∧ p.1 = g := by
  rw [h.faces g] at hface
  cases hl : loops[g]? with
  | none => rw [hl] at hface; cases hface
  | some l =>
    rw [hl] at hface
    simp only [Option.map_some', Option.some.injEq] at hface
    rw [← hface] at hs
    simp only at hs
    obtain ⟨⟨p, hp, hq⟩, _⟩ := findIdx?_eq_some_getElem? hs
    exact ⟨p, hp, by simpa using hq⟩

theorem foldl_linkFaceChain_guarded {P : DCEL → Prop} {points : List Point}
    {loops : List (List Int)} {ps : List (Nat × Int × Int)} (fs : List Nat)
    (hP : ∀ g ∈ fs, WalkStable P points loops ps g) (d : DCEL) (hd : P d) :
    P (fs.foldl DCEL.linkFaceChain d) := by
  induction fs generalizing d with
  | nil => exact hd
  | cons f fs ih =>
    rw [List.foldl_cons]
    obtain ⟨h1, h2, h3⟩ := hP f (List.mem_cons_self _ _)
    exact ih (fun g hg => hP g (List.mem_cons_of_mem _ hg)) _
      (linkFaceChain_guarded (fun d hd => (h1 d hd).1) h2 h3
        (fun d face s hd hface hs => outer_in_face (h1 d hd).2 hface hs) d hd)

theorem range_split {F f : Nat} (h : f < F) :
    ∃ l1 l2, List.range F = l1 ++ f :: l2 ∧ f ∉ l2 := by
  induction F with
  | zero => omega
  | succ F ih =>
    rw [List.range_succ]
    by_cases hf : f = F
    · subst hf
      exact ⟨List.range f, [], rfl, by simp⟩
    · obtain ⟨l1, l2, h1, h2⟩ := ih (by omega)
      refine ⟨l1, l2 ++ [F], by rw [h1]; simp, ?_⟩
      simp only [List.mem_append, List.mem_singleton, not_or]
      exact ⟨h2, hf⟩

/-- The link of the block of face `f` by the body of the loop over the faces. -/
theorem linkFaceChain_block {points : List Point} {loops : List (List Int)}
    {ps : List (Nat × Int × Int)} {m : List (EdgeKey × (Option Nat × Option Nat))}
    {f base k : Nat} (hB : FaceBlock ps m f base k) (hk : 0 < k) (hfl : f < loops.length)
    {d : DCEL} (hd : Linking points loops ps m d) :
    Linking points loops ps m (DCEL.linkFaceChain d f) ∧
    Cycle (DCEL.linkFaceChain d f) base k k := by
  have hlt : base < ps.length := by have := hB.len; omega
  have hbase : ∃ p, ps[base]? = some p := ⟨ps[base], List.getElem?_eq_getElem hlt⟩
  obtain ⟨p0, hp0⟩ := hbase
  have hout : ps.findIdx? (fun p => decide (p.1 = f)) = some base := by
    apply findIdx?_eq_some_of_getElem?
    · refine ⟨p0, hp0, ?_⟩
      simp only [decide_eq_true_eq]
      exact (hB.face base p0 hp0).mpr ⟨le_refl _, by omega⟩
    · intro j a hj ha
      simp only [decide_eq_false_iff_not]
      intro hfa
      have := (hB.face j a ha).mp hfa
      omega
  have hface := hd.records.faces f
  rw [List.getElem?_eq_getElem hfl, hout] at hface
  simp only [Option.map_some'] at hface
  unfold DCEL.linkFaceChain
  rw [hface]
  simp only
  have hw := walkFace_block hB k 0 d.halfEdges.length d (by omega) hk
    (by rw [hd.built.length]; have := hB.len; omega) hd.built hd.edgeMap
    (fun j hj => absurd hj (Nat.not_lt_zero _))
  rw [Nat.add_zero] at hw
  obtain ⟨w1, w2, w3, w4, w5⟩ := hw
  refine ⟨⟨w1, ⟨?_, ?_, ?_⟩, w2⟩, w5⟩
  · rw [w4]; exact hd.records.vertices
  · rw [w3]; exact hd.records.faces
  · rw [w2, ← hd.edgeMap]; exact hd.records.slots

/-- The walks over the other faces keep the links of the block of face `f`. -/
theorem cycle_walkStable {points : List Point} {loops : List (List Int)}
    {ps : List (Nat × Int × Int)} {m : List (EdgeKey × (Option Nat × Option Nat))}
    {f base k g : Nat} (hB : FaceBlock ps m f base k) (hg : g ≠ f) :
    WalkStable (fun d => Linking points loops ps m d ∧ Cycle d base k k) points loops ps g := by
  have hout : ∀ i j, (∃ p, ps[i]? = some p ∧ p.1 = g) → j < k → ¬ base + j = i := by
    intro i j hi hj hij
    obtain ⟨p, hp, hpg⟩ := hi
    have := (hB.face i p hp).mpr ⟨by omega, by omega⟩
    exact hg (hpg.symm.trans this)
  refine ⟨fun d hd => ⟨hd.1.built, hd.1.records⟩, ?_, ?_⟩
  · intro d i nx hd hi _
    refine ⟨linking_modify.1 d i nx hd.1, ?_⟩
    intro j hj
    rw [nextAt_modify_next, prevAt_modify_next, if_neg (fun h => hout i j hi hj h.1)]
    exact hd.2 j hj
  · intro d i c hd hi _
    refine ⟨linking_modify.2 d i (some c) hd.1, ?_⟩
    intro j hj
    have hmk : (j + 1) % k < k := Nat.mod_lt _ (by omega)
    rw [nextAt_modify_prev, prevAt_modify_prev, if_neg (fun h => hout i _ hi hmk h.1)]
    exact hd.2 j hj

theorem linkHalfEdgeChains_block {points : List Point} {loops : List (List Int)}
    {ps : List (Nat × Int × Int)} {m : List (EdgeKey × (Option Nat × Option Nat))}
    {f base k : Nat} (hB : FaceBlock ps m f base k) (hk : 0 < k) (hfl : f < loops.length)
    {d : DCEL} (hd : Linking points loops ps m d) (hF : d.faces.length = loops.length) :
    Linking points loops ps m (DCEL.linkHalfEdgeChains d) ∧
    Cycle (DCEL.linkHalfEdgeChains d) base k k := by
  unfold DCEL.linkHalfEdgeChains
  rw [hF]
  obtain ⟨l1, l2, h1, h2⟩ := range_split hfl
  rw [h1, List.foldl_append, List.foldl_cons]
  have s1 := foldl_linkFaceChain_stable (P := fun d => Linking points loops ps m d)
    linking_modify l1 d hd
  have s2 := linkFaceChain_block hB hk hfl s1
  exact foldl_linkFaceChain_guarded
    (P := fun d => Linking points loops ps m d ∧ Cycle d base k k) l2
    (fun g hg => cycle_walkStable hB (fun h => h2 (h ▸ hg))) _ s2

theorem length_eq_of_getElem?_map {α β : Type} (l1 : List α) (l2 : List β) (g : Nat → β → α)
    (h : ∀ i, l1[i]? = (l2[i]?).map (g i)) : l1.length = l2.length := by
  rcases Nat.lt_trichotomy l1.length l2.length with hlt | heq | hgt
  · have := h l1.length
    rw [List.getElem?_eq_none (le_refl _), List.getElem?_eq_getElem hlt] at this
    cases this
  · exact heq
  · have := h l2.length
    rw [List.getElem?_eq_none (le_refl _), List.getElem?_eq_getElem hgt] at this
    cases this

/-- The state `linkHalfEdgeChains` starts from: every `next` and `prev` unset. -/
theorem linking_start (points : List Point) (loops : List (List Int)) :
    ∃ d0 : DCEL, (DCEL.loadFromInput points loops).1 = DCEL.linkHalfEdgeChains d0 ∧
      Linking points loops (createdPairs points.length loops.length
        (loops.map (fun l => l.map DCEL.inputToInternal))) d0.edgeMap d0 ∧
      d0.faces.length = loops.length ∧
      ∀ i, nextAt d0 i = none ∧ prevAt d0 i = none := by
  have hc := created_readInput points loops
  have hb := built_after_linkTwins hc.phase1
  have hr := recordsOK_linkTwins ((List.range (DCEL.readInput points loops).faces.length).foldl
    DCEL.createFaceHalfEdges (DCEL.readInput points loops)).edgeMap hc.records
  refine ⟨_, loadFromInput_eq points loops, ⟨hb, hr, rfl⟩,
    length_eq_of_getElem?_map _ _ _ hr.faces, ?_⟩
  intro i
  obtain ⟨hne, hdisj⟩ := entries_distinct hc.phase1.sorted hc.phase1.entry
  unfold nextAt prevAt
  rw [foldl_linkTwins_getElem? _ _ hne hdisj, hc.phase1.halfEdges, enum_map_getElem?]
  cases (createdPairs points.length loops.length
      (loops.map (fun l => l.map DCEL.inputToInternal)))[i]? with
  | none => exact ⟨rfl, rfl⟩
  | some p =>
    simp only [Option.map_some', Option.some_bind]
    cases lookupTwin _ i <;> exact ⟨rfl, rfl⟩

/-! ## Chain closure (C13) -/

theorem linkHalfEdgeChains_edgeMap (d : DCEL) : (DCEL.linkHalfEdgeChains d).edgeMap = d.edgeMap :=
  linkHalfEdgeChains_stable (P := fun s => s.edgeMap = d.edgeMap)
    ⟨fun s i _ h => (modifyHalfEdge_edgeMap s i _).trans h,
     fun s i _ h => (modifyHalfEdge_edgeMap s i _).trans h⟩ d rfl

/-- The block of a face whose loop lists at least 3 pairwise distinct in-range
indices and whose half-edges have twins that start where they end: after
`loadFromInput` it is linked cyclically. -/
theorem face_cycle (points : List Point) (loops : List (List Int)) (f : Nat) (loop : List Int)
    (hf : (loops.map (fun l => l.map DCEL.inputToInternal))[f]? = some loop)
    (hk : 3 ≤ loop.length) (hnd : loop.Nodup)
    (hr : ∀ v ∈ loop, 0 ≤ v ∧ v < (points.length : Int))
    (htw : ∀ i, i < loop.length →
      DCEL.destinationAt (DCEL.loadFromInput points loops).1
        ((createdPairs points.length f
          (loops.map (fun l => l.map DCEL.inputToInternal))).length + i) =
        some (loop.getD ((i + 1) % loop.length) 0).toNat) :
    FaceBlock (createdPairs points.length loops.length
        (loops.map (fun l => l.map DCEL.inputToInternal)))
      (DCEL.loadFromInput points loops).1.edgeMap f
      (createdPairs points.length f (loops.map (fun l => l.map DCEL.inputToInternal))).length
      loop.length ∧
    (∀ i, i < loop.length →
      (createdPairs points.length loops.length
        (loops.map (fun l => l.map DCEL.inputToInternal)))[
        (createdPairs points.length f
          (loops.map (fun l => l.map DCEL.inputToInternal))).length + i]? =
        some (f, loop.getD i 0, loop.getD ((i + 1) % loop.length) 0)) ∧
    Linking points loops (createdPairs points.length loops.length
        (loops.map (fun l => l.map DCEL.inputToInternal)))
      (DCEL.loadFromInput points loops).1.edgeMap (DCEL.loadFromInput points loops).1 ∧
    Cycle (DCEL.loadFromInput points loops).1
      (createdPairs points.length f (loops.map (fun l => l.map DCEL.inputToInternal))).length
      loop.length loop.length := by
  obtain ⟨d0, hD, hL0, hF0, _⟩ := linking_start points loops
  have hbD := (constructed_loadFromInput points loops).built
  have hE : (DCEL.loadFromInput points loops).1.edgeMap = d0.edgeMap := by
    rw [hD]; exact linkHalfEdgeChains_edgeMap d0
  have hfl : f < loops.length := by
    by_contra hc
    rw [List.getElem?_eq_none (by simp; omega)] at hf
    cases hf
  obtain ⟨hlen, hget, hface⟩ := createdPairs_block points.length loops.length f
    (loops.map (fun l => l.map DCEL.inputToInternal)) loop hfl hf hk hr
  have hB := faceBlock_of_block (m := d0.edgeMap) hlen hget hface (toNat_getD_inj hnd hr)
    (by
      intro i hi
      have := htw i hi
      rw [built_destinationAt hbD, hE] at this
      exact this)
  have hfin := linkHalfEdgeChains_block hB (by omega) hfl hL0 hF0
  rw [← hD] at hfin
  rw [hE]
  exact ⟨hB, hget, hfin.1, hfin.2⟩

theorem followNext_cycle {d : DCEL} {base k : Nat} (hc : Cycle d base k k) :
    ∀ n, n ≤ k → followNext d n (some base) = some (base + n % k) := by
  intro n
  induction n with
  | zero => intro _; simp [followNext]
  | succ n ih =>
    intro hn
    have hlt : n < k := by omega
    rw [followNext, ih (by omega), Nat.mod_eq_of_lt hlt]
    exact (hc n hlt).1

/-- C13 (chain closure): for a face `f` whose loop lists `k ≥ 3` pairwise
distinct in-range vertex indices and each of whose half-edges has a twin
that originates at the `to` vertex of the half-edge (its `destination()` is
that vertex), after `loadFromInput` the half-edges of the face are those at the
positions `base`, ..., `base + k - 1` in loop order (`base` is the number of
half-edges of the faces before `f`), `outerComponent` is the first of them,
following `next` `n` times from it reaches the half-edge `base + n % k` (back
at `outerComponent` after `k` steps, not earlier), and on the cycle `prev` is
the inverse of `next`. -/
theorem chain_closure (points : List Point) (loops : List (List Int)) (f : Nat) (loop : List Int)
    (hf : (loops.map (fun l => l.map DCEL.inputToInternal))[f]? = some loop)
    (hk : 3 ≤ loop.length) (hnd : loop.Nodup)
    (hr : ∀ v ∈ loop, 0 ≤ v ∧ v < (points.length : Int))
    (htw : ∀ i, i < loop.length →
      DCEL.destinationAt (DCEL.loadFromInput points loops).1
        ((createdPairs points.length f
          (loops.map (fun l => l.map DCEL.inputToInternal))).length + i) =
        some (loop.getD ((i + 1) % loop.length) 0).toNat) :
    (∀ i, i < loop.length → ∃ he : HalfEdge,
      (DCEL.loadFromInput points loops).1.halfEdges[
        (createdPairs points.length f
          (loops.map (fun l => l.map DCEL.inputToInternal))).length + i]? = some he ∧
      he.incidentFace = some f ∧ he.origin = some (loop.getD i 0).toNat) ∧
    (∀ (j : Nat) (he : HalfEdge), (DCEL.loadFromInput points loops).1.halfEdges[j]? = some he →
      he.incidentFace = some f →
      (createdPairs points.length f
        (loops.map (fun l => l.map DCEL.inputToInternal))).length ≤ j ∧
      j < (createdPairs points.length f
        (loops.map (fun l => l.map DCEL.inputToInternal))).length + loop.length) ∧
    (∃ face : Face, (DCEL.loadFromInput points loops).1.faces[f]? = some face ∧
      face.outerComponent = some (createdPairs points.length f
        (loops.map (fun l => l.map DCEL.inputToInternal))).length) ∧
    (∀ n, n ≤ loop.length →
      followNext (DCEL.loadFromInput points loops).1 n
        (some (createdPairs points.length f
          (loops.map (fun l => l.map DCEL.inputToInternal))).length) =
        some ((createdPairs points.length f
          (loops.map (fun l => l.map DCEL.inputToInternal))).length + n % loop.length)) ∧
    (∀ n, 0 < n → n < loop.length →
      followNext (DCEL.loadFromInput points loops).1 n
        (some (createdPairs points.length f
          (loops.map (fun l => l.map DCEL.inputToInternal))).length) ≠
        some (createdPairs points.length f
          (loops.map (fun l => l.map DCEL.inputToInternal))).length) ∧
    (∀ i, i < loop.length →
      (prevAt (DCEL.loadFromInput points loops).1
        ((createdPairs points.length f
          (loops.map (fun l => l.map DCEL.inputToInternal))).length + i)).bind
        (nextAt (DCEL.loadFromInput points loops).1) =
        some ((createdPairs points.length f
          (loops.map (fun l => l.map DCEL.inputToInternal))).length + i) ∧
      (nextAt (DCEL.loadFromInput points loops).1
        ((createdPairs points.length f
          (loops.map (fun l => l.map DCEL.inputToInternal))).length + i)).bind
        (prevAt (DCEL.loadFromInput points loops).1) =
        some ((createdPairs points.length f
          (loops.map (fun l => l.map DCEL.inputToInternal))).length + i)) := by
  obtain ⟨hB, hget, hL, hC⟩ := face_cycle points loops f loop hf hk hnd hr htw
  have hfl : f < loops.length := by
    by_contra hc
    rw [List.getElem?_eq_none (by simp; omega)] at hf
    cases hf
  have hfollow := followNext_cycle hC
  refine ⟨?_, ?_, ?_, hfollow, ?_, ?_⟩
  · intro i hi
    obtain ⟨he, h1, _, h3, h4, _⟩ := hL.built.he _ _ (hget i hi)
    exact ⟨he, h1, h4, h3⟩
  · intro j he hj hface
    obtain ⟨p, hp, _, _, h4, _⟩ := built_heAt hL.built hj
    rw [h4] at hface
    exact (hB.face j p hp).mp (Option.some.inj hface)
  · have hbase := hget 0 (by omega)
    have hout : (createdPairs points.length loops.length
        (loops.map (fun l => l.map DCEL.inputToInternal))).findIdx?
        (fun p => decide (p.1 = f)) =
        some (createdPairs points.length f
          (loops.map (fun l => l.map DCEL.inputToInternal))).length := by
      apply findIdx?_eq_some_of_getElem?
      · exact ⟨_, hbase, by simp⟩
      · intro j a hj ha
        simp only [decide_eq_false_iff_not]
        intro hfa
        have := (hB.face j a ha).mp hfa
        omega
    have hface := hL.records.faces f
    rw [List.getElem?_eq_getElem hfl, hout] at hface
    exact ⟨_, hface, rfl⟩
  · intro n h0 hn h
    rw [hfollow n (by omega), Nat.mod_eq_of_lt hn] at h
    have := Option.some.inj h
    omega
  · intro i hi
    have hmi := succ_mod_block hi
    constructor
    · by_cases h0 : i = 0
      · subst h0
        have hk1 : loop.length - 1 < loop.length := by omega
        have := hC (loop.length - 1) hk1
        rw [succ_mod_block hk1, if_pos (by omega)] at this
        rw [this.2, Option.some_bind, this.1]
      · have hi1 : i - 1 < loop.length := by omega
        have := hC (i - 1) hi1
        rw [succ_mod_block hi1, if_neg (by omega), show i - 1 + 1 = i by omega] at this
        rw [this.2, Option.some_bind, this.1]
    · have := hC i hi
      rw [this.1, Option.some_bind, this.2]

/-- C13 on the two-sided triangle with the loops `1 2 3` and `1 3 2`, for the
second face: its half-edges are 3, 4 and 5, and three steps of `next` from the
half-edge 3 lead back to it. -/
theorem chain_closure_witness :
    followNext (DCEL.loadFromInput [⟨0, 0⟩, ⟨2, 0⟩, ⟨1, 2⟩] [[1, 2, 3], [1, 3, 2]]).1 1
      (some 3) = some 4 ∧
    followNext (DCEL.loadFromInput [⟨0, 0⟩, ⟨2, 0⟩, ⟨1, 2⟩] [[1, 2, 3], [1, 3, 2]]).1 2
      (some 3) = some 5 ∧
    followNext (DCEL.loadFromInput [⟨0, 0⟩, ⟨2, 0⟩, ⟨1, 2⟩] [[1, 2, 3], [1, 3, 2]]).1 3
      (some 3) = some 3 :=
  ⟨(chain_closure [⟨0, 0⟩, ⟨2, 0⟩, ⟨1, 2⟩] [[1, 2, 3], [1, 3, 2]] 1 [0, 2, 1]
      (by decide) (by decide) (by decide) (by decide) (by decide)).2.2.2.1 1 (by decide),
   (chain_closure [⟨0, 0⟩, ⟨2, 0⟩, ⟨1, 2⟩] [[1, 2, 3], [1, 3, 2]] 1 [0, 2, 1]
      (by decide) (by decide) (by decide) (by decide) (by decide)).2.2.2.1 2 (by decide),
   (chain_closure [⟨0, 0⟩, ⟨2, 0⟩, ⟨1, 2⟩] [[1, 2, 3], [1, 3, 2]] 1 [0, 2, 1]
      (by decide) (by decide) (by decide) (by decide) (by decide)).2.2.2.1 3 (by decide)⟩

/-! ## Accepted meshes with unset links (C14) -/

/-- A face with a created triple has a loop of at least 3 entries. -/
theorem created_loop_long (V F : Nat) (L : List (List Int)) (j : Nat) (p : Nat × Int × Int)
    (loop : List Int) (hp : (createdPairs V F L)[j]? = some p) (hf : L[p.1]? = some loop) :
    3 ≤ loop.length := by
  by_contra hc
  have hs : (L.getD p.1 []).length < 3 := by
    rw [List.getD_eq_getElem?_getD, hf]
    simpa using hc
  have hmem : p ∈ createdPairs V F L := List.getElem?_mem hp
  exact createdPairs_short V F p.1 L hs p hmem rfl

/-- C14, as stated, fails: the mesh with the vertices (2,2), (0,0), (0,4),
(4,4), (4,0) and the two loops `1 2 3 1 4 5` and `1 5 4 1 3 2`, which visit the
vertex 1 twice, is accepted by the validator; the `destination()` of every
half-edge is the `to` vertex of its pair (all twins are oppositely directed),
and the half-edges 3, 4, 5, 9, 10 and 11 have neither `next` nor `prev`: each
walk is back at `outerComponent` after the first three half-edges of the loop. -/
theorem pinched_face_accepted_with_unset_links :
    DCEL.isValidDCEL (DCEL.loadFromInput [⟨2, 2⟩, ⟨0, 0⟩, ⟨0, 4⟩, ⟨4, 4⟩, ⟨4, 0⟩]
      [[1, 2, 3, 1, 4, 5], [1, 5, 4, 1, 3, 2]]).1 = (true, []) ∧
    (DCEL.main [⟨2, 2⟩, ⟨0, 0⟩, ⟨0, 4⟩, ⟨4, 4⟩, ⟨4, 0⟩]
      [[1, 2, 3, 1, 4, 5], [1, 5, 4, 1, 3, 2]]).2.isSome = true ∧
    (∀ j, j < 12 →
      DCEL.destinationAt (DCEL.loadFromInput [⟨2, 2⟩, ⟨0, 0⟩, ⟨0, 4⟩, ⟨4, 4⟩, ⟨4, 0⟩]
        [[1, 2, 3, 1, 4, 5], [1, 5, 4, 1, 3, 2]]).1 j =
      ((createdPairs 5 2 ([[1, 2, 3, 1, 4, 5], [1, 5, 4, 1, 3, 2]].map
        (fun l => l.map DCEL.inputToInternal)))[j]?).map (fun p => p.2.2.toNat)) ∧
    (DCEL.loadFromInput [⟨2, 2⟩, ⟨0, 0⟩, ⟨0, 4⟩, ⟨4, 4⟩, ⟨4, 0⟩]
      [[1, 2, 3, 1, 4, 5], [1, 5, 4, 1, 3, 2]]).1.halfEdges.map
        (fun he => (he.next, he.prev)) =
      [(some 1, some 2), (some 2, some 0), (some 0, some 1), (none, none), (none, none),
       (none, none), (some 7, some 8), (some 8, some 6), (some 6, some 7), (none, none),
       (none, none), (none, none)] := by
  decide

/-- C14, amended: the validator does not read `next` and `prev`. They are all
set when every loop of at least 3 entries lists pairwise distinct in-range
indices and the `destination()` of every half-edge (the origin of its twin) is
the `to` vertex of its pair: then every half-edge has `next` and `prev`. -/
theorem consistent_mesh_fully_linked (points : List Point) (loops : List (List Int))
    (hloops : ∀ loop ∈ loops.map (fun l => l.map DCEL.inputToInternal), 3 ≤ loop.length →
      loop.Nodup ∧ ∀ v ∈ loop, 0 ≤ v ∧ v < (points.length : Int))
    (htw : ∀ j, j < (createdPairs points.length loops.length
        (loops.map (fun l => l.map DCEL.inputToInternal))).length →
      DCEL.destinationAt (DCEL.loadFromInput points loops).1 j =
        ((createdPairs points.length loops.length
          (loops.map (fun l => l.map DCEL.inputToInternal)))[j]?).map (fun p => p.2.2.toNat)) :
    ∀ (j : Nat) (he : HalfEdge), (DCEL.loadFromInput points loops).1.halfEdges[j]? = some he →
      (∃ n, he.next = some n) ∧ (∃ p, he.prev = some p) := by
  intro j he hj
  have hb := (constructed_loadFromInput points loops).built
  obtain ⟨p, hp, _⟩ := built_heAt hb hj
  have hfl : p.1 < loops.length := createdPairs_face_lt (List.getElem?_mem hp)
  have hfl' : p.1 < (loops.map (fun l => l.map DCEL.inputToInternal)).length := by
    simpa using hfl
  obtain ⟨loop, hf⟩ : ∃ loop, (loops.map (fun l => l.map DCEL.inputToInternal))[p.1]? =
      some loop := ⟨_, List.getElem?_eq_getElem hfl'⟩
  have hk : 3 ≤ loop.length := created_loop_long _ _ _ _ _ _ hp hf
  obtain ⟨hnd, hr⟩ := hloops loop (List.getElem?_mem hf) hk
  obtain ⟨hlen, hget, hface⟩ := createdPairs_block points.length loops.length p.1
    (loops.map (fun l => l.map DCEL.inputToInternal)) loop hfl hf hk hr
  have htw' : ∀ i, i < loop.length →
      DCEL.destinationAt (DCEL.loadFromInput points loops).1
        ((createdPairs points.length p.1
          (loops.map (fun l => l.map DCEL.inputToInternal))).length + i) =
        some (loop.getD ((i + 1) % loop.length) 0).toNat := by
    intro i hi
    have h := htw ((createdPairs points.length p.1
      (loops.map (fun l => l.map DCEL.inputToInternal))).length + i) (by omega)
    rw [hget i hi] at h
    exact h
  obtain ⟨_, _, _, hC⟩ := face_cycle points loops p.1 loop hf hk hnd hr htw'
  obtain ⟨h1, h2⟩ := (hface j p hp).mp rfl
  generalize hbase : (createdPairs points.length p.1
    (loops.map (fun l => l.map DCEL.inputToInternal))).length = base at *
  generalize hkk : loop.length = k at *
  have hnext : ∀ i, nextAt (DCEL.loadFromInput points loops).1 i =
      ((DCEL.loadFromInput points loops).1.halfEdges[i]?).bind (fun he => he.next) :=
    fun _ => rfl
  have hprev : ∀ i, prevAt (DCEL.loadFromInput points loops).1 i =
      ((DCEL.loadFromInput points loops).1.halfEdges[i]?).bind (fun he => he.prev) :=
    fun _ => rfl
  constructor
  · have := (hC (j - base) (by omega)).1
    rw [show base + (j - base) = j by omega, hnext, hj] at this
    exact ⟨_, this⟩
  · by_cases h0 : j = base
    · have hk1 : k - 1 < k := by omega
      have := (hC (k - 1) hk1).2
      rw [succ_mod_block hk1, if_pos (by omega), Nat.add_zero, ← h0, hprev, hj] at this
      exact ⟨_, this⟩
    · have hi1 : j - base - 1 < k := by omega
      have := (hC (j - base - 1) hi1).2
      rw [succ_mod_block hi1, if_neg (by omega),
        show base + (j - base - 1 + 1) = j by omega, hprev, hj] at this
      exact ⟨_, this⟩

/-- C14, amended, on the two-sided triangle with the loops `1 2 3` and `1 3 2`:
its half-edge 2 has `next` and `prev`. -/
theorem consistent_mesh_fully_linked_witness :
    (DCEL.loadFromInput [⟨0, 0⟩, ⟨2, 0⟩, ⟨1, 2⟩] [[1, 2, 3], [1, 3, 2]]).1.halfEdges[2]? =
      some { index := 2, origin := some 2, twin := some 3, incidentFace := some 0,
             next := some 0, prev := some 1 } ∧
    (∃ n, ({ index := 2, origin := some 2, twin := some 3, incidentFace := some 0,
             next := some 0, prev := some 1 } : HalfEdge).next = some n) ∧
    (∃ p, ({ index := 2, origin := some 2, twin := some 3, incidentFace := some 0,
             next := some 0, prev := some 1 } : HalfEdge).prev = some p) :=
  ⟨by decide,
    consistent_mesh_fully_linked [⟨0, 0⟩, ⟨2, 0⟩, ⟨1, 2⟩] [[1, 2, 3], [1, 3, 2]]
      (by decide) (by decide) 2
      { index := 2, origin := some 2, twin := some 3, incidentFace := some 0,
        next := some 0, prev := some 1 } (by decide)⟩

/-! ## The rows of `printDCEL` (C15) -/

theorem linksInRange_walkStable {points : List Point} {loops : List (List Int)}
    {ps : List (Nat × Int × Int)} {m : List (EdgeKey × (Option Nat × Option Nat))} (g : Nat) :
    WalkStable (fun d => Linking points loops ps m d ∧ LinksInRange ps.length d)
      points loops ps g := by
  have hlt : ∀ j, (∃ p, ps[j]? = some p ∧ p.1 = g) → j < ps.length := by
    intro j hj
    obtain ⟨p, hp, _⟩ := hj
    by_contra hc
    rw [List.getElem?_eq_none (by omega)] at hp
    cases hp
  refine ⟨fun d hd => ⟨hd.1.built, hd.1.records⟩, ?_, ?_⟩
  · intro d i nx hd _ hnx
    refine ⟨linking_modify.1 d i nx hd.1, ?_⟩
    intro i'
    rw [nextAt_modify_next, prevAt_modify_next]
    refine ⟨?_, (hd.2 i').2⟩
    intro j hj
    split_ifs at hj
    · exact hlt j (hnx j hj)
    · exact (hd.2 i').1 j hj
  · intro d i c hd _ hc
    refine ⟨linking_modify.2 d i (some c) hd.1, ?_⟩
    intro i'
    rw [nextAt_modify_prev, prevAt_modify_prev]
    refine ⟨(hd.2 i').1, ?_⟩
    intro j hj
    split_ifs at hj
    · cases hj
      exact hlt _ hc
    · exact (hd.2 i').2 j hj

/-- After `loadFromInput` every `next` and `prev` that is set points to a
half-edge. -/
theorem loadFromInput_linksInRange (points : List Point) (loops : List (List Int)) :
    LinksInRange (createdPairs points.length loops.length
      (loops.map (fun l => l.map DCEL.inputToInternal))).length
      (DCEL.loadFromInput points loops).1 := by
  obtain ⟨d0, hD, hL0, hF0, hnone⟩ := linking_start points loops
  rw [hD]
  unfold DCEL.linkHalfEdgeChains
  have := foldl_linkFaceChain_guarded
    (P := fun d => Linking points loops (createdPairs points.length loops.length
      (loops.map (fun l => l.map DCEL.inputToInternal))) d0.edgeMap d ∧
      LinksInRange (createdPairs points.length loops.length
        (loops.map (fun l => l.map DCEL.inputToInternal))).length d)
    (List.range d0.faces.length) (fun g _ => linksInRange_walkStable g) d0
    ⟨hL0, fun i => ⟨fun j hj => absurd ((hnone i).1.symm.trans hj) (by simp),
      fun j hj => absurd ((hnone i).2.symm.trans hj) (by simp)⟩⟩
  exact this.2

theorem wrap32_succ (j : Nat) (h : j < 2147483648 - 1) : wrap32 ((j : Int) + 1) = (j : Int) + 1 := by
  unfold wrap32
  omega

theorem outputIndex_some (j : Nat) (h : j + 1 < 2147483648) :
    DCEL.outputIndex (some (j : Int)) = refCode (some j) := by
  unfold DCEL.outputIndex DCEL.internalToOutput refCode
  simp only
  exact wrap32_succ j (by omega)

/-- The number printed for a reference to a half-edge. -/
theorem outputIndex_heAt {d : DCEL} {ps : List (Nat × Int × Int)} (hb : Built d ps)
    (hH : ps.length < 2147483648) (r : Option Nat) (hr : ∀ j, r = some j → j < ps.length) :
    DCEL.outputIndex ((d.heAt r).map (fun he => he.index)) = refCode r := by
  cases r with
  | none => rfl
  | some j =>
    have hj := hr j rfl
    obtain ⟨he, h1, h2, _⟩ := hb.he j ps[j] (List.getElem?_eq_getElem hj)
    unfold DCEL.heAt
    simp only [h1, Option.map_some', h2]
    exact outputIndex_some j (by omega)

/-- The number printed for a reference to a vertex. -/
theorem outputIndex_vertexAt {points : List Point} {loops : List (List Int)}
    {ps : List (Nat × Int × Int)} {d : DCEL} (hr : RecordsOK points loops ps d)
    (hV : points.length < 2147483648) (j : Nat) (hj : j < points.length) :
    DCEL.outputIndex ((d.vertexAt (some j)).map (fun v => v.index)) = refCode (some j) := by
  unfold DCEL.vertexAt
  simp only [hr.vertices j, List.getElem?_eq_getElem hj, Option.map_some']
  exact outputIndex_some j (by omega)

/-- The number printed for a reference to a face. -/
theorem outputIndex_faceAt {points : List Point} {loops : List (List Int)}
    {ps : List (Nat × Int × Int)} {d : DCEL} (hr : RecordsOK points loops ps d)
    (hF : loops.length < 2147483648) (j : Nat) (hj : j < loops.length) :
    DCEL.outputIndex ((d.faceAt (some j)).map (fun f => f.index)) = refCode (some j) := by
  unfold DCEL.faceAt
  simp only [hr.faces j, List.getElem?_eq_getElem hj, Option.map_some']
  exact outputIndex_some j (by omega)

/-- C15, as stated, fails: the mesh with the vertices (0,0), (2,0), (1,2), (5,5)
and the loops `1 2 3` and `1 3 2` is accepted; the vertex (5,5) has no incident
half-edge, its row is `5 5 1`, and subtracting 1 gives the half-edge 0, a record
that exists and starts at the vertex (0,0): the unset reference does not decode
to unset. -/
theorem unset_reference_decodes_to_first_record :
    DCEL.isValidDCEL (DCEL.loadFromInput [⟨0, 0⟩, ⟨2, 0⟩, ⟨1, 2⟩, ⟨5, 5⟩]
      [[1, 2, 3], [1, 3, 2]]).1 = (true, []) ∧
    ((DCEL.loadFromInput [⟨0, 0⟩, ⟨2, 0⟩, ⟨1, 2⟩, ⟨5, 5⟩]
      [[1, 2, 3], [1, 3, 2]]).1.vertices.map (fun v => v.incidentEdge))[3]? = some none ∧
    (DCEL.printDCEL (DCEL.loadFromInput [⟨0, 0⟩, ⟨2, 0⟩, ⟨1, 2⟩, ⟨5, 5⟩]
      [[1, 2, 3], [1, 3, 2]]).1)[4]? = some [5, 5, 1] ∧
    (DCEL.printDCEL (DCEL.loadFromInput [⟨0, 0⟩, ⟨2, 0⟩, ⟨1, 2⟩, ⟨5, 5⟩]
      [[1, 2, 3], [1, 3, 2]]).1)[1]? = some [0, 0, 1] ∧
    ((DCEL.loadFromInput [⟨0, 0⟩, ⟨2, 0⟩, ⟨1, 2⟩, ⟨5, 5⟩]
      [[1, 2, 3], [1, 3, 2]]).1.vertices.map (fun v => v.incidentEdge))[0]? =
      some (some 0) := by
  decide

/-- C15, amended: for every DCEL the builder produces with fewer than 2^31
vertices, faces and half-edges, the rows `printDCEL` emits are the header, one
row per vertex with its coordinates and the code of `incidentEdge`, one row per
face with the code of `outerComponent`, and one row per half-edge with the
codes of `origin`, `twin`, `incidentFace`, `next` and `prev`, where the code of
a reference that is set is the position of its record plus 1 (subtracting 1
gives the same record back) and the code of an unset reference is 1 (which
subtracting 1 turns into the position 0). -/
theorem printDCEL_reference_codes (points : List Point) (loops : List (List Int))
    (hV : points.length < 2147483648) (hF : loops.length < 2147483648)
    (hH : (DCEL.loadFromInput points loops).1.halfEdges.length < 2147483648) :
    DCEL.printDCEL (DCEL.loadFromInput points loops).1 =
      [[(points.length : Int),
        (((DCEL.loadFromInput points loops).1.halfEdges.length / 2 : Nat) : Int),
        (loops.length : Int)]] ++
      (DCEL.loadFromInput points loops).1.vertices.map (fun v =>
        [v.position.x, v.position.y, refCode v.incidentEdge]) ++
      (DCEL.loadFromInput points loops).1.faces.map (fun fc => [refCode fc.outerComponent]) ++
      (DCEL.loadFromInput points loops).1.halfEdges.map (fun he =>
        [refCode he.origin, refCode he.twin, refCode he.incidentFace, refCode he.next,
         refCode he.prev]) ∧
    (∀ i : Nat, refCode (some i) - 1 = (i : Int)) ∧ refCode none - 1 = 0 := by
  have hc := constructed_loadFromInput points loops
  have hb := hc.built
  have hrange := loadFromInput_linksInRange points loops
  have hlen := hb.length
  have hVl := length_eq_of_getElem?_map _ _ _ hc.records.vertices
  have hFl := length_eq_of_getElem?_map _ _ _ hc.records.faces
  have hfind : ∀ (q : Nat × Int × Int → Bool) (j : Nat),
      (createdPairs points.length loops.length
        (loops.map (fun l => l.map DCEL.inputToInternal))).findIdx? q = some j →
      j < (createdPairs points.length loops.length
        (loops.map (fun l => l.map DCEL.inputToInternal))).length := by
    intro q j hj
    obtain ⟨⟨a, ha, _⟩, _⟩ := findIdx?_eq_some_getElem? hj
    by_contra hcon
    rw [List.getElem?_eq_none (by omega)] at ha
    cases ha
  refine ⟨?_, fun i => by simp [refCode], by simp [refCode]⟩
  unfold DCEL.printDCEL DCEL.getVertexCount DCEL.getEdgeCount DCEL.getFaceCount
  rw [hVl, hFl]
  congr 1
  congr 1
  congr 1
  · apply List.map_congr_left
    intro v hv
    obtain ⟨i, hi⟩ := List.getElem?_of_mem hv
    rw [hc.records.vertices i] at hi
    cases hpt : points[i]? with
    | none => rw [hpt] at hi; cases hi
    | some pt =>
      rw [hpt] at hi
      simp only [Option.map_some', Option.some.injEq] at hi
      rw [outputIndex_heAt hb (by omega) v.incidentEdge
        (by intro j hj; rw [← hi] at hj; exact hfind _ j hj)]
  · apply List.map_congr_left
    intro fc hfc
    obtain ⟨i, hi⟩ := List.getElem?_of_mem hfc
    rw [hc.records.faces i] at hi
    cases hl : loops[i]? with
    | none => rw [hl] at hi; cases hi
    | some l =>
      rw [hl] at hi
      simp only [Option.map_some', Option.some.injEq] at hi
      rw [outputIndex_heAt hb (by omega) fc.outerComponent
        (by intro j hj; rw [← hi] at hj; exact hfind _ j hj)]
  · apply List.map_congr_left
    intro he hhe
    obtain ⟨i, hi⟩ := List.getElem?_of_mem hhe
    obtain ⟨p, hp, _, h3, h4, _⟩ := built_heAt hb hi
    obtain ⟨hin, hpf⟩ := hc.inRange p (List.getElem?_mem hp)
    unfold pairInRange at hin
    simp only [decide_eq_true_eq] at hin
    rw [outputIndex_heAt hb (by omega) he.twin
        (by
          intro j hj
          obtain ⟨_, _, tw, htw, _⟩ := built_twin_target hb hi hj
          by_contra hcon
          rw [List.getElem?_eq_none (by omega)] at htw
          cases htw),
      outputIndex_heAt hb (by omega) he.next
        (by
          intro j hj
          apply (hrange i).1 j
          unfold nextAt
          rw [hi]
          exact hj),
      outputIndex_heAt hb (by omega) he.prev
        (by
          intro j hj
          apply (hrange i).2 j
          unfold prevAt
          rw [hi]
          exact hj),
      h3, h4, outputIndex_vertexAt hc.records hV _ (by omega),
      outputIndex_faceAt hc.records hF _ hpf]

/-- C15, amended, on the accepted mesh with an unused vertex. -/
theorem printDCEL_reference_codes_witness :
    DCEL.printDCEL (DCEL.loadFromInput [⟨0, 0⟩, ⟨2, 0⟩, ⟨1, 2⟩, ⟨5, 5⟩] [[1, 2, 3], [1, 3, 2]]).1 =
      [[((4 : Nat) : Int),
        (((DCEL.loadFromInput [⟨0, 0⟩, ⟨2, 0⟩, ⟨1, 2⟩, ⟨5, 5⟩]
          [[1, 2, 3], [1, 3, 2]]).1.halfEdges.length / 2 : Nat) : Int),
        ((2 : Nat) : Int)]] ++
      (DCEL.loadFromInput [⟨0, 0⟩, ⟨2, 0⟩, ⟨1, 2⟩, ⟨5, 5⟩] [[1, 2, 3], [1, 3, 2]]).1.vertices.map
        (fun v => [v.position.x, v.position.y, refCode v.incidentEdge]) ++
      (DCEL.loadFromInput [⟨0, 0⟩, ⟨2, 0⟩, ⟨1, 2⟩, ⟨5, 5⟩] [[1, 2, 3], [1, 3, 2]]).1.faces.map
        (fun fc => [refCode fc.outerComponent]) ++
      (DCEL.loadFromInput [⟨0, 0⟩, ⟨2, 0⟩, ⟨1, 2⟩, ⟨5, 5⟩] [[1, 2, 3], [1, 3, 2]]).1.halfEdges.map
        (fun he => [refCode he.origin, refCode he.twin, refCode he.incidentFace,
          refCode he.next, refCode he.prev]) :=
  (printDCEL_reference_codes [⟨0, 0⟩, ⟨2, 0⟩, ⟨1, 2⟩, ⟨5, 5⟩] [[1, 2, 3], [1, 3, 2]]
    (by decide) (by decide) (by decide)).1

/-! ## The direction of a twin (C21) -/

theorem mk2_eq_iff (a b c d : Int) :
    EdgeKey.mk2 a b = EdgeKey.mk2 c d ↔ (c = a ∧ d = b) ∨ (c = b ∧ d = a) := by
  unfold EdgeKey.mk2
  rw [EdgeKey.mk.injEq]
  omega

/-- The twin of a half-edge of a built DCEL, in the created triples: a
different half-edge whose pair is the pair of the half-edge or its reverse. -/
theorem built_twin_pair {d : DCEL} {ps : List (Nat × Int × Int)} (hb : Built d ps)
    {i j : Nat} {he : HalfEdge} {p : Nat × Int × Int} (h1 : d.halfEdges[i]? = some he)
    (h2 : he.twin = some j) (hp : ps[i]? = some p) :
    ∃ q, ps[j]? = some q ∧ j ≠ i ∧
      ((q.2.1 = p.2.1 ∧ q.2.2 = p.2.2) ∨ (q.2.1 = p.2.2 ∧ q.2.2 = p.2.1)) ∧
      DCEL.destinationAt d i = some q.2.1.toNat := by
  obtain ⟨hne, ⟨k, hk1, hk2⟩, tw, htw, _⟩ := built_twin_target hb h1 h2
  obtain ⟨p', hp', hkp⟩ := getElem?_map_some hk1
  obtain ⟨q, hq, hkq⟩ := getElem?_map_some hk2
  rw [hp] at hp'
  cases hp'
  refine ⟨q, hq, hne, ?_, ?_⟩
  · have : pairKey p = pairKey q := hkp.trans hkq.symm
    unfold pairKey at this
    exact (mk2_eq_iff _ _ _ _).mp this
  · obtain ⟨_, _, _, h3, _⟩ := built_heAt hb htw
    obtain ⟨q', hq', _, h3', _⟩ := built_heAt hb htw
    rw [hq] at hq'
    cases hq'
    unfold DCEL.destinationAt DCEL.heAt
    simp only [h1]
    unfold DCEL.destination DCEL.heAt
    simp only [h2, htw, h3']

/-- C21, as stated, fails: in the mesh with the vertices (0,0), (2,0), (1,2),
(3,2) and the loops `1 2 3`, `2 3 4` and `1 3 4 2`, which the validator accepts,
the half-edge 1 and its twin 3 are both created from the pair (1, 2) (input
indices 2 and 3): the twin has the same direction, the `destination()` of the
half-edge 1 is its own origin, and its segment goes from (2,0) to (2,0). -/
theorem twin_with_the_same_direction :
    DCEL.isValidDCEL (DCEL.loadFromInput [⟨0, 0⟩, ⟨2, 0⟩, ⟨1, 2⟩, ⟨3, 2⟩]
      [[1, 2, 3], [2, 3, 4], [1, 3, 4, 2]]).1 = (true, []) ∧
    (createdPairs 4 3 ([[1, 2, 3], [2, 3, 4], [1, 3, 4, 2]].map
      (fun l => l.map DCEL.inputToInternal)))[1]? = some (0, 1, 2) ∧
    (createdPairs 4 3 ([[1, 2, 3], [2, 3, 4], [1, 3, 4, 2]].map
      (fun l => l.map DCEL.inputToInternal)))[3]? = some (1, 1, 2) ∧
    (DCEL.loadFromInput [⟨0, 0⟩, ⟨2, 0⟩, ⟨1, 2⟩, ⟨3, 2⟩]
      [[1, 2, 3], [2, 3, 4], [1, 3, 4, 2]]).1.halfEdges[1]? =
      some { index := 1, origin := some 1, twin := some 3, incidentFace := some 0,
             next := some 1, prev := some 1 } ∧
    DCEL.destinationAt (DCEL.loadFromInput [⟨0, 0⟩, ⟨2, 0⟩, ⟨1, 2⟩, ⟨3, 2⟩]
      [[1, 2, 3], [2, 3, 4], [1, 3, 4, 2]]).1 1 = some 1 ∧
    DCEL.getSegmentStart (DCEL.loadFromInput [⟨0, 0⟩, ⟨2, 0⟩, ⟨1, 2⟩, ⟨3, 2⟩]
      [[1, 2, 3], [2, 3, 4], [1, 3, 4, 2]]).1
      { index := 1, origin := some 1, twin := some 3, incidentFace := some 0,
        next := some 1, prev := some 1 } = ⟨2, 0⟩ ∧
    DCEL.getSegmentEnd (DCEL.loadFromInput [⟨0, 0⟩, ⟨2, 0⟩, ⟨1, 2⟩, ⟨3, 2⟩]
      [[1, 2, 3], [2, 3, 4], [1, 3, 4, 2]]).1
      { index := 1, origin := some 1, twin := some 3, incidentFace := some 0,
        next := some 1, prev := some 1 } = ⟨2, 0⟩ := by
  decide

/-- C21, amended: the twin of a half-edge created from the pair `(from, to)` is
another half-edge created from `(to, from)` or from `(from, to)`: the builder
pairs the two half-edges of an undirected key whatever their directions. The
`destination()` of the half-edge is the origin of its twin, the vertex
`to` in the first case and the half-edge's own origin `from` in the second;
`getSegmentStart` is the position of `from` and `getSegmentEnd` the position
of the twin's origin. -/
theorem twin_direction (points : List Point) (loops : List (List Int)) (i j : Nat)
    (he : HalfEdge) (p : Nat × Int × Int)
    (h1 : (DCEL.loadFromInput points loops).1.halfEdges[i]? = some he)
    (h2 : he.twin = some j)
    (hp : (createdPairs points.length loops.length
      (loops.map (fun l => l.map DCEL.inputToInternal)))[i]? = some p) :
    ∃ q : Nat × Int × Int,
      (createdPairs points.length loops.length
        (loops.map (fun l => l.map DCEL.inputToInternal)))[j]? = some q ∧
      j ≠ i ∧
      ((q.2.1 = p.2.2 ∧ q.2.2 = p.2.1) ∨ (q.2.1 = p.2.1 ∧ q.2.2 = p.2.2)) ∧
      DCEL.destinationAt (DCEL.loadFromInput points loops).1 i = some q.2.1.toNat ∧
      (q.2.1 = p.2.2 → DCEL.destinationAt (DCEL.loadFromInput points loops).1 i =
        some p.2.2.toNat) ∧
      (q.2.1 = p.2.1 → DCEL.destinationAt (DCEL.loadFromInput points loops).1 i =
        he.origin) ∧
      points[p.2.1.toNat]? =
        some (DCEL.getSegmentStart (DCEL.loadFromInput points loops).1 he) ∧
      points[q.2.1.toNat]? =
        some (DCEL.getSegmentEnd (DCEL.loadFromInput points loops).1 he) := by
  have hc := constructed_loadFromInput points loops
  obtain ⟨q, hq, hne, hdir, hdest⟩ := built_twin_pair hc.built h1 h2 hp
  obtain ⟨p', hp', _, h3, _⟩ := built_heAt hc.built h1
  rw [hp] at hp'
  cases hp'
  have hpr := (hc.inRange p (List.getElem?_mem hp)).1
  have hqr := (hc.inRange q (List.getElem?_mem hq)).1
  unfold pairInRange at hpr hqr
  simp only [decide_eq_true_eq] at hpr hqr
  have hpos : ∀ v : Nat, v < points.length →
      ∃ vx : Vertex, (DCEL.loadFromInput points loops).1.vertices[v]? = some vx ∧
        points[v]? = some vx.position := by
    intro v hv
    have := hc.records.vertices v
    rw [List.getElem?_eq_getElem hv] at this
    exact ⟨_, this, List.getElem?_eq_getElem hv⟩
  refine ⟨q, hq, hne, hdir.symm, hdest, ?_, ?_, ?_, ?_⟩
  · intro h; rw [hdest, h]
  · intro h; rw [hdest, h, h3]
  · obtain ⟨vx, hv1, hv2⟩ := hpos p.2.1.toNat (by omega)
    unfold DCEL.getSegmentStart DCEL.vertexAt
    simp only [h3, hv1, hv2]
  · obtain ⟨vx, hv1, hv2⟩ := hpos q.2.1.toNat (by omega)
    have hd : DCEL.destination (DCEL.loadFromInput points loops).1 he = some q.2.1.toNat := by
      unfold DCEL.destinationAt DCEL.heAt at hdest
      simp only [h1] at hdest
      exact hdest
    unfold DCEL.getSegmentEnd DCEL.vertexAt
    simp only [hd, hv1, hv2]

/-- C21, amended, on the half-edge 1 of the mesh with the loops `1 2 3`,
`2 3 4` and `1 3 4 2`, whose twin 3 has the same direction. -/
theorem twin_direction_witness :
    ∃ q : Nat × Int × Int,
      (createdPairs 4 3 ([[1, 2, 3], [2, 3, 4], [1, 3, 4, 2]].map
        (fun l => l.map DCEL.inputToInternal)))[3]? = some q ∧
      3 ≠ 1 ∧
      ((q.2.1 = 2 ∧ q.2.2 = 1) ∨ (q.2.1 = 1 ∧ q.2.2 = 2)) ∧
      DCEL.destinationAt (DCEL.loadFromInput [⟨0, 0⟩, ⟨2, 0⟩, ⟨1, 2⟩, ⟨3, 2⟩]
        [[1, 2, 3], [2, 3, 4], [1, 3, 4, 2]]).1 1 = some q.2.1.toNat :=
  (twin_direction [⟨0, 0⟩, ⟨2, 0⟩, ⟨1, 2⟩, ⟨3, 2⟩] [[1, 2, 3], [2, 3, 4], [1, 3, 4, 2]] 1 3
    { index := 1, origin := some 1, twin := some 3, incidentFace := some 0,
      next := some 1, prev := some 1 } (0, 1, 2) (by decide) rfl (by decide)).imp
    (fun _ h => ⟨h.1, h.2.1, h.2.2.1, h.2.2.2.1⟩)

/-! ## The links the chain linking sets (C23) -/

/-- A property kept by every iteration of the walk over face `g` at a
half-edge of face `g` is kept by the walk. -/
theorem walkFace_inv {P : DCEL → Prop} {ps : List (Nat × Int × Int)} {g : Nat}
    (hcore : ∀ d, P d → Built d ps)
    (hstep : ∀ d start cur, P d → (∃ p, ps[cur]? = some p ∧ p.1 = g) →
      P (DCEL.walkStep g start cur d).1)
    (start : Nat) :
    ∀ (rem cur : Nat) (d : DCEL), P d → (∃ p, ps[cur]? = some p ∧ p.1 = g) →
      P (DCEL.walkFace g start rem cur d) := by
  intro rem
  induction rem using Nat.strong_induction_on with
  | _ rem ih =>
    intro cur d hd hcur
    have hP := hstep d start cur hd hcur
    have heq := walkStep_eq (hcore d hd) g start cur
    unfold DCEL.walkFace
    split
    · rename_i r d2 nx hw
      rw [hw] at hP
      rw [hw] at heq
      have hface : ∃ p, ps[nx]? = some p ∧ p.1 = g := by
        cases hnx : nextOf ps d.edgeMap g cur with
        | none =>
          rw [hnx] at heq
          simp at heq
        | some n =>
          rw [hnx] at heq
          simp only [Prod.mk.injEq] at heq
          have h2 := heq.2
          split_ifs at h2
          cases h2
          exact nextOf_face hnx
      exact ih (r + 1) (by omega) nx d2 hP hface
    · rename_i d2 o hw
      rw [hw] at hP
      exact hP

theorem foldl_linkFaceChain_inv {P : DCEL → Prop} {points : List Point}
    {loops : List (List Int)} {ps : List (Nat × Int × Int)} (fs : List Nat)
    (hcore : ∀ d, P d → Built d ps ∧ RecordsOK points loops ps d)
    (hstep : ∀ g d start cur, P d → (∃ p, ps[cur]? = some p ∧ p.1 = g) →
      P (DCEL.walkStep g start cur d).1)
    (d : DCEL) (hd : P d) : P (fs.foldl DCEL.linkFaceChain d) := by
  induction fs generalizing d with
  | nil => exact hd
  | cons f fs ih =>
    rw [List.foldl_cons]
    apply ih
    unfold DCEL.linkFaceChain
    split
    · exact hd
    · rename_i face hface
      split
      · exact hd
      · rename_i s hs
        exact walkFace_inv (fun d hd => (hcore d hd).1) (hstep f) s _ s d hd
          (outer_in_face (hcore d hd).2 hface hs)

/-- One iteration of the walk keeps the links exact. -/
theorem linksExact_step {points : List Point} {loops : List (List Int)}
    {ps : List (Nat × Int × Int)} {m : List (EdgeKey × (Option Nat × Option Nat))}
    (g : Nat) (d : DCEL) (start cur : Nat)
    (hd : Linking points loops ps m d ∧ LinksExact ps m d)
    (hcur : ∃ p, ps[cur]? = some p ∧ p.1 = g) :
    Linking points loops ps m (DCEL.walkStep g start cur d).1 ∧
    LinksExact ps m (DCEL.walkStep g start cur d).1 := by
  obtain ⟨hL, hN, hPv⟩ := hd
  obtain ⟨pc, hpc, hpg⟩ := hcur
  have hlen := hL.built.length
  have hclt : cur < d.halfEdges.length := by
    rw [hlen]
    by_contra hcon
    rw [List.getElem?_eq_none (by omega)] at hpc
    cases hpc
  have hcurN : nextAt d cur = none ∨ nextAt d cur = nextOf ps m g cur := by
    have := hN cur pc hpc
    rw [hpg] at this
    exact this
  rw [walkStep_eq hL.built, hL.edgeMap]
  cases hnx : nextOf ps m g cur with
  | none =>
    simp only
    refine ⟨linking_modify.1 d cur none hL, ?_, ?_⟩
    · intro i p hp
      rw [nextAt_modify_next]
      split_ifs with h
      · exact Or.inl rfl
      · exact hN i p hp
    · intro e c hec
      rw [prevAt_modify_next] at hec
      have hnc := hPv e c hec
      rw [nextAt_modify_next]
      split_ifs with h
      · exfalso
        rw [h.1] at hnc
        rcases hcurN with h0 | h0
        · rw [h0] at hnc; cases hnc
        · rw [h0, hnx] at hnc; cases hnc
      · exact hnc
  | some n =>
    simp only
    refine ⟨linking_modify.2 _ n (some cur) (linking_modify.1 d cur (some n) hL), ?_, ?_⟩
    · intro i p hp
      rw [nextAt_modify_prev, nextAt_modify_next]
      split_ifs with h
      · right
        rw [h.1] at hp
        rw [hpc] at hp
        cases hp
        rw [h.1, hpg, hnx]
      · exact hN i p hp
    · intro e c hec
      rw [prevAt_modify_prev, prevAt_modify_next, modifyHalfEdge_length] at hec
      rw [nextAt_modify_prev, nextAt_modify_next]
      split_ifs at hec with h
      · cases hec
        rw [if_pos ⟨rfl, hclt⟩, h.1]
      · have hnc := hPv e c hec
        split_ifs with h'
        · rw [h'.1] at hnc
          rcases hcurN with h0 | h0
          · rw [h0] at hnc; cases hnc
          · rw [h0, hnx] at hnc
            exact hnc
        · exact hnc

theorem linkHalfEdgeChains_linksExact {points : List Point} {loops : List (List Int)}
    {ps : List (Nat × Int × Int)} {m : List (EdgeKey × (Option Nat × Option Nat))} {d0 : DCEL}
    (hL : Linking points loops ps m d0) (hx : LinksExact ps m d0) :
    LinksExact ps m (DCEL.linkHalfEdgeChains d0) := by
  unfold DCEL.linkHalfEdgeChains
  exact (foldl_linkFaceChain_inv
    (P := fun d => Linking points loops ps m d ∧ LinksExact ps m d)
    (List.range d0.faces.length) (fun d hd => ⟨hd.1.built, hd.1.records⟩)
    (fun g d start cur hd hcur => linksExact_step g d start cur hd hcur) d0 ⟨hL, hx⟩).2

/-- After `loadFromInput` the links are exact. -/
theorem loadFromInput_linksExact (points : List Point) (loops : List (List Int)) :
    LinksExact (createdPairs points.length loops.length
        (loops.map (fun l => l.map DCEL.inputToInternal)))
      (DCEL.loadFromInput points loops).1.edgeMap (DCEL.loadFromInput points loops).1 := by
  obtain ⟨d0, hD, hL0, hF0, hnone⟩ := linking_start points loops
  have hE : (DCEL.loadFromInput points loops).1.edgeMap = d0.edgeMap := by
    rw [hD]; exact linkHalfEdgeChains_edgeMap d0
  rw [hE, hD]
  exact linkHalfEdgeChains_linksExact hL0
    ⟨fun i p _ => Or.inl (hnone i).1,
      fun e c hec => absurd ((hnone e).2.symm.trans hec) (by simp)⟩

/-- What exact links say about one half-edge of a built DCEL. -/
theorem built_links {d : DCEL} {ps : List (Nat × Int × Int)} (hb : Built d ps)
    (hx : LinksExact ps d.edgeMap d) (i : Nat) (he : HalfEdge)
    (h : d.halfEdges[i]? = some he) :
    (∀ n, he.next = some n →
      ∃ (t : Nat) (tw hn : HalfEdge), he.twin = some t ∧ d.halfEdges[t]? = some tw ∧
        d.halfEdges[n]? = some hn ∧
        hn.incidentFace = he.incidentFace ∧ hn.origin = tw.origin ∧
        ∀ (j : Nat) (hj : HalfEdge), j < n → d.halfEdges[j]? = some hj →
          ¬ (hj.incidentFace = he.incidentFace ∧ hj.origin = tw.origin)) ∧
    (∀ c, he.prev = some c → nextAt d c = some i) ∧
    (he.twin = none → he.next = none) := by
  obtain ⟨hN, hPv⟩ := hx
  obtain ⟨p, hp, _, h3, h4, h5⟩ := built_heAt hb h
  have hnext : nextAt d i = he.next := by
    unfold nextAt; rw [h]; rfl
  have hprev : prevAt d i = he.prev := by
    unfold prevAt; rw [h]; rfl
  have hmain : ∀ n, he.next = some n →
      ∃ (t : Nat) (tw hn : HalfEdge), he.twin = some t ∧ d.halfEdges[t]? = some tw ∧
        d.halfEdges[n]? = some hn ∧
        hn.incidentFace = he.incidentFace ∧ hn.origin = tw.origin ∧
        ∀ (j : Nat) (hj : HalfEdge), j < n → d.halfEdges[j]? = some hj →
          ¬ (hj.incidentFace = he.incidentFace ∧ hj.origin = tw.origin) := by
    intro n hn
    have hno := hN i p hp
    rw [hnext, hn] at hno
    rcases hno with hno | hno
    · cases hno
    · unfold nextOf at hno
      obtain ⟨⟨q, hq, hqt⟩, hlow⟩ := findIdx?_eq_some_getElem? hno.symm
      simp only [decide_eq_true_eq] at hqt
      obtain ⟨hqf, hqo⟩ := hqt
      have hdest : ∃ t r, lookupTwin d.edgeMap i = some t ∧ ps[t]? = some r ∧
          destOf ps d.edgeMap i = some r.2.1.toNat := by
        unfold destOf at hqo ⊢
        rw [hp] at hqo ⊢
        simp only at hqo ⊢
        cases hlt : lookupTwin d.edgeMap i with
        | none => rw [hlt] at hqo; cases hqo
        | some t =>
          rw [hlt] at hqo
          simp only at hqo ⊢
          cases hr : ps[t]? with
          | none => rw [hr] at hqo; cases hqo
          | some r => exact ⟨t, r, rfl, hr, rfl⟩
      obtain ⟨t, r, hlt, hr, hd⟩ := hdest
      rw [hd] at hqo hlow
      obtain ⟨tw, t1, _, t3, _⟩ := hb.he t r hr
      obtain ⟨hnn, n1, _, n3, n4, _⟩ := hb.he n q hq
      refine ⟨t, tw, hnn, by rw [h5, hlt], t1, n1, by rw [n4, h4, hqf],
        by rw [n3, t3, hqo], ?_⟩
      intro j hj hjn hhj hcon
      obtain ⟨pj, hpj, _, j3, j4, _⟩ := built_heAt hb hhj
      have := hlow j pj hjn hpj
      simp only [decide_eq_false_iff_not] at this
      apply this
      rw [j4, h4, j3, t3] at hcon
      exact ⟨Option.some.inj hcon.1, hcon.2⟩
  refine ⟨hmain, ?_, ?_⟩
  · intro c hc'
    exact hPv i c (by rw [hprev, hc'])
  · intro htw
    cases hn : he.next with
    | none => rfl
    | some n =>
      obtain ⟨t, _, _, ht, _⟩ := hmain n hn
      rw [htw] at ht
      cases ht

/-- C23: for every DCEL the builder produces and every half-edge `e`: when
`next(e)` is set, `e` has a twin, `next(e)` is a half-edge of the incident face
of `e` whose origin is the origin of the twin of `e`, and no half-edge before
it has that face and that origin; when `prev(e)` is set, `next(prev(e))` is
`e`; and a half-edge without twin has no `next`. -/
theorem links_are_those_of_the_search (points : List Point) (loops : List (List Int)) (i : Nat)
    (he : HalfEdge) (h : (DCEL.loadFromInput points loops).1.halfEdges[i]? = some he) :
    (∀ n, he.next = some n →
      ∃ (t : Nat) (tw hn : HalfEdge), he.twin = some t ∧
        (DCEL.loadFromInput points loops).1.halfEdges[t]? = some tw ∧
        (DCEL.loadFromInput points loops).1.halfEdges[n]? = some hn ∧
        hn.incidentFace = he.incidentFace ∧ hn.origin = tw.origin ∧
        ∀ (j : Nat) (hj : HalfEdge), j < n →
          (DCEL.loadFromInput points loops).1.halfEdges[j]? = some hj →
          ¬ (hj.incidentFace = he.incidentFace ∧ hj.origin = tw.origin)) ∧
    (∀ c, he.prev = some c → nextAt (DCEL.loadFromInput points loops).1 c = some i) ∧
    (he.twin = none → he.next = none) :=
  built_links (constructed_loadFromInput points loops).built
    (loadFromInput_linksExact points loops) i he h

/-- C23 on the half-edge 0 of the mesh with the loops `1 2 3`, `2 3 4` and
`1 3 4 2`: its `next` is the half-edge 1, the first one of face 0 that starts
at the origin of its twin 9. -/
theorem links_are_those_of_the_search_witness :
    (DCEL.loadFromInput [⟨0, 0⟩, ⟨2, 0⟩, ⟨1, 2⟩, ⟨3, 2⟩]
      [[1, 2, 3], [2, 3, 4], [1, 3, 4, 2]]).1.halfEdges[0]? =
      some { index := 0, origin := some 0, twin := some 9, incidentFace := some 0,
             next := some 1, prev := none } ∧
    ∃ (t : Nat) (tw hn : HalfEdge),
      ({ index := 0, origin := some 0, twin := some 9, incidentFace := some 0,
         next := some 1, prev := none } : HalfEdge).twin = some t ∧
      (DCEL.loadFromInput [⟨0, 0⟩, ⟨2, 0⟩, ⟨1, 2⟩, ⟨3, 2⟩]
        [[1, 2, 3], [2, 3, 4], [1, 3, 4, 2]]).1.halfEdges[t]? = some tw ∧
      (DCEL.loadFromInput [⟨0, 0⟩, ⟨2, 0⟩, ⟨1, 2⟩, ⟨3, 2⟩]
        [[1, 2, 3], [2, 3, 4], [1, 3, 4, 2]]).1.halfEdges[1]? = some hn ∧
      hn.incidentFace = some 0 ∧ hn.origin = tw.origin :=
  ⟨by decide,
    ((links_are_those_of_the_search [⟨0, 0⟩, ⟨2, 0⟩, ⟨1, 2⟩, ⟨3, 2⟩]
      [[1, 2, 3], [2, 3, 4], [1, 3, 4, 2]] 0
      { index := 0, origin := some 0, twin := some 9, incidentFace := some 0,
        next := some 1, prev := none } (by decide)).1 1 rfl).imp
      (fun _ h => h.imp (fun _ h => h.imp (fun _ h => ⟨h.1, h.2.1, h.2.2.1, h.2.2.2.1,
        h.2.2.2.2.1⟩)))⟩

/-! ## Termination of the chain linking (C22) -/

theorem walkFaceEdges_fst (face start : Nat) :
    ∀ (rem cur : Nat) (d : DCEL) (fe : List Nat),
      (walkFaceEdges face start rem cur d fe).1 = DCEL.walkFace face start rem cur d := by
  intro rem
  induction rem using Nat.strong_induction_on with
  | _ rem ih =>
    intro cur d fe
    unfold walkFaceEdges DCEL.walkFace
    split
    · rename_i r d2 nx hw
      exact ih (r + 1) (by omega) nx d2 _
    · rfl

/-- The vector `faceEdges` of the walk over face `f` on a state of the chain
linking: it starts with `current`, every half-edge but the last has a
successor that is not `start` and is the next entry, and the walk stops for
one of the three reasons of the loop condition. -/
theorem walkFaceEdges_trace {points : List Point} {loops : List (List Int)}
    {ps : List (Nat × Int × Int)} {m : List (EdgeKey × (Option Nat × Option Nat))}
    (f start : Nat) :
    ∀ (rem cur : Nat) (d : DCEL) (fe : List Nat), Linking points loops ps m d →
      (∃ p, ps[cur]? = some p ∧ p.1 = f) →
      ∃ tr : List Nat, (walkFaceEdges f start rem cur d fe).2 = fe ++ tr ∧
        1 ≤ tr.length ∧ tr.length ≤ max 1 rem ∧ tr[0]? = some cur ∧
        ∀ k c, tr[k]? = some c →
          (k + 1 < tr.length → ∃ nx, nextOf ps m f c = some nx ∧ nx ≠ start ∧
            tr[k + 1]? = some nx ∧ k + 1 < rem) ∧
          (k + 1 = tr.length → nextOf ps m f c = none ∨ nextOf ps m f c = some start ∨
            rem ≤ k + 1) := by
  intro rem
  induction rem using Nat.strong_induction_on with
  | _ rem ih =>
    intro cur d fe hL hcur
    have hstep := walkStep_eq hL.built f start cur
    rw [hL.edgeMap] at hstep
    have hone : ∀ (d2 : DCEL), (nextOf ps m f cur = none ∨ nextOf ps m f cur = some start ∨
        rem ≤ 1) →
        ∃ tr : List Nat, ((d2, fe ++ [cur]) : DCEL × List Nat).2 = fe ++ tr ∧
        1 ≤ tr.length ∧ tr.length ≤ max 1 rem ∧ tr[0]? = some cur ∧
        ∀ k c, tr[k]? = some c →
          (k + 1 < tr.length → ∃ nx, nextOf ps m f c = some nx ∧ nx ≠ start ∧
            tr[k + 1]? = some nx ∧ k + 1 < rem) ∧
          (k + 1 = tr.length → nextOf ps m f c = none ∨ nextOf ps m f c = some start ∨
            rem ≤ k + 1) := by
      intro d2 hstop
      refine ⟨[cur], rfl, by simp, by simp, rfl, ?_⟩
      intro k c hk
      have hk0 : k = 0 := by
        by_contra hcon
        rw [List.getElem?_eq_none (by simp; omega)] at hk
        cases hk
      subst hk0
      simp only [List.getElem?_cons_zero, Option.some.injEq] at hk
      subst hk
      refine ⟨fun h => by simp at h, fun _ => ?_⟩
      rcases hstop with h | h | h
      · exact Or.inl h
      · exact Or.inr (Or.inl h)
      · exact Or.inr (Or.inr (by omega))
    unfold walkFaceEdges
    split
    · rename_i r d2 nx hw
      rw [hstep] at hw
      cases hnx : nextOf ps m f cur with
      | none => rw [hnx] at hw; simp at hw
      | some n =>
        rw [hnx] at hw
        simp only [Prod.mk.injEq] at hw
        obtain ⟨e1, e2⟩ := hw
        have hns : ¬ n = start := by
          intro h
          rw [if_pos h] at e2
          cases e2
        rw [if_neg hns] at e2
        cases e2
        have hL2 : Linking points loops ps m d2 := by
          rw [← e1]
          exact linking_modify.2 _ _ _ (linking_modify.1 _ _ _ hL)
        obtain ⟨tr, h1, h2, h3, h4, h5⟩ := ih (r + 1) (by omega) nx d2 (fe ++ [cur]) hL2
          (nextOf_face hnx)
        refine ⟨cur :: tr, by rw [h1]; simp, by simp, ?_, by simp, ?_⟩
        · simp only [List.length_cons]
          have : max 1 (r + 1) = r + 1 := by omega
          have : max 1 (r + 2) = r + 2 := by omega
          omega
        · intro k c hk
          cases k with
          | zero =>
            simp only [List.getElem?_cons_zero, Option.some.injEq] at hk
            subst hk
            refine ⟨fun _ => ⟨nx, hnx, hns, by simpa using h4, by omega⟩, fun h => ?_⟩
            simp only [List.length_cons] at h
            omega
          | succ k =>
            simp only [List.getElem?_cons_succ] at hk
            obtain ⟨a1, a2⟩ := h5 k c hk
            refine ⟨fun h => ?_, fun h => ?_⟩
            · simp only [List.length_cons] at h
              obtain ⟨nx, b1, b2, b3, b4⟩ := a1 (by omega)
              exact ⟨nx, b1, b2, by simpa using b3, by omega⟩
            · simp only [List.length_cons] at h
              rcases a2 (by omega) with b | b | b
              · exact Or.inl b
              · exact Or.inr (Or.inl b)
              · exact Or.inr (Or.inr (by omega))
    · rename_i rem1 _ _ d2 o hno hw
      apply hone
      rw [hstep] at hw
      cases hnx : nextOf ps m f cur with
      | none => exact Or.inl rfl
      | some n =>
        rw [hnx] at hw
        simp only [Prod.mk.injEq] at hw
        by_cases hns : n = start
        · exact Or.inr (Or.inl (by rw [hns]))
        · rw [if_neg hns] at hw
          right; right
          by_contra hcon
          exact hno (rem1 - 2) n (by omega) hw.2.symm

/-- The state `linkHalfEdgeChains` starts from and the states it reaches
between two faces. -/
theorem linking_between_faces (points : List Point) (loops : List (List Int)) (fs : List Nat) :
    Linking points loops (createdPairs points.length loops.length
        (loops.map (fun l => l.map DCEL.inputToInternal)))
      (DCEL.createHalfEdges (DCEL.readInput points loops)).1.edgeMap
      (fs.foldl DCEL.linkFaceChain (DCEL.createHalfEdges (DCEL.readInput points loops)).1) := by
  have hc := created_readInput points loops
  have hb := built_after_linkTwins hc.phase1
  have hr := recordsOK_linkTwins ((List.range (DCEL.readInput points loops).faces.length).foldl
    DCEL.createFaceHalfEdges (DCEL.readInput points loops)).edgeMap hc.records
  exact foldl_linkFaceChain_stable
    (P := fun d => Linking points loops (createdPairs points.length loops.length
        (loops.map (fun l => l.map DCEL.inputToInternal)))
      (DCEL.createHalfEdges (DCEL.readInput points loops)).1.edgeMap d)
    linking_modify fs _ ⟨hb, hr, rfl⟩

/-- The walk over one face on a state of the chain linking. -/
theorem linkFaceChain_walk {points : List Point} {loops : List (List Int)}
    {ps : List (Nat × Int × Int)} {m : List (EdgeKey × (Option Nat × Option Nat))} {d : DCEL}
    (hL : Linking points loops ps m d) (f start : Nat) (face : Face)
    (hface : d.faces[f]? = some face) (hstart : face.outerComponent = some start) :
    DCEL.linkFaceChain d f = (walkFaceEdges f start d.halfEdges.length start d []).1 ∧
    1 ≤ (walkFaceEdges f start d.halfEdges.length start d []).2.length ∧
    (walkFaceEdges f start d.halfEdges.length start d []).2.length ≤ DCEL.getHalfEdgeCount d ∧
    (walkFaceEdges f start d.halfEdges.length start d []).2[0]? = some start ∧
    ∀ k c, (walkFaceEdges f start d.halfEdges.length start d []).2[k]? = some c →
      (k + 1 < (walkFaceEdges f start d.halfEdges.length start d []).2.length →
        ∃ nx, DCEL.findNext (DCEL.linkFaceChain d f) f
            (DCEL.destinationAt (DCEL.linkFaceChain d f) c) = some nx ∧ nx ≠ start ∧
          (walkFaceEdges f start d.halfEdges.length start d []).2[k + 1]? = some nx ∧
          k + 1 < DCEL.getHalfEdgeCount d) ∧
      (k + 1 = (walkFaceEdges f start d.halfEdges.length start d []).2.length →
        DCEL.findNext (DCEL.linkFaceChain d f) f
            (DCEL.destinationAt (DCEL.linkFaceChain d f) c) = none ∨
        DCEL.findNext (DCEL.linkFaceChain d f) f
            (DCEL.destinationAt (DCEL.linkFaceChain d f) c) = some start ∨
        k + 1 = DCEL.getHalfEdgeCount d) := by
  have hin := outer_in_face hL.records hface hstart
  have hn : 1 ≤ d.halfEdges.length := by
    rw [hL.built.length]
    obtain ⟨p, hp, _⟩ := hin
    by_contra hcon
    rw [List.getElem?_eq_none (by omega)] at hp
    cases hp
  have hL' : Linking points loops ps m (DCEL.linkFaceChain d f) :=
    linkFaceChain_stable (P := fun d => Linking points loops ps m d) linking_modify d f hL
  have hfind : ∀ c, DCEL.findNext (DCEL.linkFaceChain d f) f
      (DCEL.destinationAt (DCEL.linkFaceChain d f) c) = nextOf ps m f c := by
    intro c
    rw [built_findNext hL'.built, hL'.edgeMap]
  obtain ⟨tr, h1, h2, h3, h4, h5⟩ := walkFaceEdges_trace f start d.halfEdges.length start d []
    hL hin
  rw [List.nil_append] at h1
  have hmax : max 1 d.halfEdges.length = d.halfEdges.length := by omega
  rw [hmax] at h3
  have heq : DCEL.linkFaceChain d f =
      (walkFaceEdges f start d.halfEdges.length start d []).1 := by
    rw [walkFaceEdges_fst]
    unfold DCEL.linkFaceChain
    rw [hface]
    simp only [hstart]
  refine ⟨heq, ?_⟩
  rw [h1]
  refine ⟨h2, h3, h4, ?_⟩
  intro k c hk
  obtain ⟨a1, a2⟩ := h5 k c hk
  refine ⟨fun h => ?_, fun h => ?_⟩
  · obtain ⟨nx, b1, b2, b3, b4⟩ := a1 h
    exact ⟨nx, by rw [hfind, b1], b2, b3, b4⟩
  · unfold DCEL.getHalfEdgeCount
    rcases a2 h with b | b | b
    · exact Or.inl (by rw [hfind, b])
    · exact Or.inr (Or.inl (by rw [hfind, b]))
    · exact Or.inr (Or.inr (by omega))

/-- C22: on the state the chain linking starts from and on every state it
reaches after the walks over some faces `fs`, the walk over a face `f` with an
`outerComponent` pushes at least one and at most `getHalfEdgeCount()` entries
into `faceEdges` (it makes that number of iterations), starting with
`outerComponent`; after every entry but the last a successor different from
`outerComponent` was found and the bound was not reached, and after the last
one no successor was found, or the successor is `outerComponent`, or the bound
is reached. -/
theorem chain_linking_terminates (points : List Point) (loops : List (List Int))
    (fs : List Nat) (d : DCEL) (f start : Nat) (face : Face)
    (hd : d = fs.foldl DCEL.linkFaceChain
      (DCEL.createHalfEdges (DCEL.readInput points loops)).1)
    (hface : d.faces[f]? = some face) (hstart : face.outerComponent = some start) :
    DCEL.linkFaceChain d f = (walkFaceEdges f start d.halfEdges.length start d []).1 ∧
    1 ≤ (walkFaceEdges f start d.halfEdges.length start d []).2.length ∧
    (walkFaceEdges f start d.halfEdges.length start d []).2.length ≤ DCEL.getHalfEdgeCount d ∧
    (walkFaceEdges f start d.halfEdges.length start d []).2[0]? = some start ∧
    ∀ k c, (walkFaceEdges f start d.halfEdges.length start d []).2[k]? = some c →
      (k + 1 < (walkFaceEdges f start d.halfEdges.length start d []).2.length →
        ∃ nx, DCEL.findNext (DCEL.linkFaceChain d f) f
            (DCEL.destinationAt (DCEL.linkFaceChain d f) c) = some nx ∧ nx ≠ start ∧
          (walkFaceEdges f start d.halfEdges.length start d []).2[k + 1]? = some nx ∧
          k + 1 < DCEL.getHalfEdgeCount d) ∧
      (k + 1 = (walkFaceEdges f start d.halfEdges.length start d []).2.length →
        DCEL.findNext (DCEL.linkFaceChain d f) f
            (DCEL.destinationAt (DCEL.linkFaceChain d f) c) = none ∨
        DCEL.findNext (DCEL.linkFaceChain d f) f
            (DCEL.destinationAt (DCEL.linkFaceChain d f) c) = some start ∨
        k + 1 = DCEL.getHalfEdgeCount d) := by
  have hL := linking_between_faces points loops fs
  rw [← hd] at hL
  exact linkFaceChain_walk hL f start face hface hstart

/-- C22 on the third face of the mesh with the loops `1 2 3`, `2 3 4` and
`1 3 4 2`, from the state before the first walk: the walk starts at the
half-edge 6, reaches the half-edge 7, whose successor is 7 itself, and stops
when `faceEdges` has the 10 entries the bound allows. -/
theorem chain_linking_terminates_witness :
    (walkFaceEdges 2 6
      (DCEL.createHalfEdges (DCEL.readInput [⟨0, 0⟩, ⟨2, 0⟩, ⟨1, 2⟩, ⟨3, 2⟩]
        [[1, 2, 3], [2, 3, 4], [1, 3, 4, 2]])).1.halfEdges.length 6
      (DCEL.createHalfEdges (DCEL.readInput [⟨0, 0⟩, ⟨2, 0⟩, ⟨1, 2⟩, ⟨3, 2⟩]
        [[1, 2, 3], [2, 3, 4], [1, 3, 4, 2]])).1 []).2 = [6, 7, 7, 7, 7, 7, 7, 7, 7, 7] ∧
    (walkFaceEdges 2 6
      (DCEL.createHalfEdges (DCEL.readInput [⟨0, 0⟩, ⟨2, 0⟩, ⟨1, 2⟩, ⟨3, 2⟩]
        [[1, 2, 3], [2, 3, 4], [1, 3, 4, 2]])).1.halfEdges.length 6
      (DCEL.createHalfEdges (DCEL.readInput [⟨0, 0⟩, ⟨2, 0⟩, ⟨1, 2⟩, ⟨3, 2⟩]
        [[1, 2, 3], [2, 3, 4], [1, 3, 4, 2]])).1 []).2.length ≤
      DCEL.getHalfEdgeCount (DCEL.createHalfEdges (DCEL.readInput
        [⟨0, 0⟩, ⟨2, 0⟩, ⟨1, 2⟩, ⟨3, 2⟩] [[1, 2, 3], [2, 3, 4], [1, 3, 4, 2]])).1 :=
  ⟨by decide,
    (chain_linking_terminates [⟨0, 0⟩, ⟨2, 0⟩, ⟨1, 2⟩, ⟨3, 2⟩]
      [[1, 2, 3], [2, 3, 4], [1, 3, 4, 2]] []
      (DCEL.createHalfEdges (DCEL.readInput [⟨0, 0⟩, ⟨2, 0⟩, ⟨1, 2⟩, ⟨3, 2⟩]
        [[1, 2, 3], [2, 3, 4], [1, 3, 4, 2]])).1 2 6 { index := 2, outerComponent := some 6 }
      rfl (by decide) rfl).2.2.1⟩

/-! ## The planarity check on consistently wound meshes (C24) -/

theorem count_eq_card_positions {α : Type} [DecidableEq α] (l : List α) (k : α) :
    l.count k = ((Finset.range l.length).filter (fun t => l[t]? = some k)).card := by
  induction l using List.reverseRecOn with
  | nil => simp
  | append_singleton l a ih =>
    rw [List.count_append, ih, List.length_append, List.length_singleton, Finset.range_succ,
      Finset.filter_insert]
    have hcongr : (Finset.range l.length).filter (fun t => (l ++ [a])[t]? = some k) =
        (Finset.range l.length).filter (fun t => l[t]? = some k) := by
      apply Finset.filter_congr
      intro t ht
      rw [List.getElem?_append_left (Finset.mem_range.mp ht)]
    have hlast : (l ++ [a])[l.length]? = some a := by
      rw [List.getElem?_append_right (le_refl _)]
      simp
    rw [hcongr, hlast]
    by_cases hak : a = k
    · subst hak
      rw [if_pos rfl, Finset.card_insert_of_not_mem (by simp)]
      simp
    · rw [if_neg (by simpa using hak), List.count_cons]
      simp [hak]

theorem count_eq_two {α : Type} [DecidableEq α] {l : List α} {k : α} {i j : Nat} (hne : i ≠ j)
    (h : ∀ t, l[t]? = some k ↔ (t = i ∨ t = j)) : l.count k = 2 := by
  have hlt : ∀ t, l[t]? = some k → t < l.length := by
    intro t ht
    by_contra hc
    rw [List.getElem?_eq_none (by omega)] at ht
    cases ht
  have hi := hlt i ((h i).mpr (Or.inl rfl))
  have hj := hlt j ((h j).mpr (Or.inr rfl))
  rw [count_eq_card_positions]
  have : (Finset.range l.length).filter (fun t => l[t]? = some k) = {i, j} := by
    ext t
    simp only [Finset.mem_filter, Finset.mem_range, Finset.mem_insert, Finset.mem_singleton]
    constructor
    · intro ht; exact (h t).mp ht.2
    · intro ht
      refine ⟨?_, (h t).mpr ht⟩
      rcases ht with rfl | rfl
      · exact hi
      · exact hj
  rw [this, Finset.card_pair hne]

/-- In a built DCEL that passes the closure check every key of a created
triple is the key of exactly two triples. -/
theorem closed_keys_twice {d : DCEL} {ps : List (Nat × Int × Int)} (hb : Built d ps)
    (hopen : DCEL.hasOpenEdges d = false) (k : EdgeKey) (hk : k ∈ ps.map pairKey) :
    (ps.map pairKey).count k = 2 := by
  have ho := (hasOpenEdges_false_iff d).mp hopen
  have htwin : ∀ (t : Nat) (q : Nat × Int × Int), ps[t]? = some q →
      ∃ j, lookupTwin d.edgeMap t = some j := by
    intro t q hq
    obtain ⟨he, h1, _, _, _, h5⟩ := hb.he t q hq
    obtain ⟨tw, h6, _, _⟩ := ho t he h1
    unfold DCEL.heAt at h6
    split at h6
    · cases h6
    · rename_i j hj
      exact ⟨j, by rw [← h5, hj]⟩
  obtain ⟨i, hi⟩ := List.getElem?_of_mem hk
  obtain ⟨p, hp, _⟩ := getElem?_map_some hi
  obtain ⟨j, hj⟩ := htwin i p hp
  obtain ⟨_, hne, k', hk1, hk2⟩ := built_twin_symm hb hj
  rw [hi] at hk1
  cases hk1
  apply count_eq_two hne
  intro t
  constructor
  · intro ht
    obtain ⟨q, hq, _⟩ := getElem?_map_some ht
    obtain ⟨j', hj'⟩ := htwin t q hq
    exact built_twin_same_key hb hj hj' hi ht
  · rintro (rfl | rfl)
    · exact hi
    · exact hk2

/-- The keys the planarity check counts when the destination of every
half-edge is the `to` vertex of its pair: the keys of the created triples. -/
theorem countedKeys_of_opposite {points : List Point} {loops : List (List Int)} {d : DCEL}
    {ps : List (Nat × Int × Int)} (hc : Constructed points loops d ps)
    (hopp : ∀ j, j < ps.length →
      DCEL.destinationAt d j = (ps[j]?).map (fun p => p.2.2.toNat)) :
    countedKeys d = ps.map pairKey := by
  have hfm : ∀ (l : List HalfEdge) (g : HalfEdge → Option EdgeKey) (r : HalfEdge → EdgeKey),
      (∀ he ∈ l, g he = some (r he)) → l.filterMap g = l.map r := by
    intro l g r h
    induction l with
    | nil => rfl
    | cons a l ih =>
      rw [List.filterMap_cons, h a (List.mem_cons_self _ _), List.map_cons,
        ih (fun he hhe => h he (List.mem_cons_of_mem _ hhe))]
  have hkey : ∀ (t : Nat) (he : HalfEdge), d.halfEdges[t]? = some he →
      ∃ p, ps[t]? = some p ∧ he.index = (t : Int) ∧ countedKey d he = some (pairKey p) := by
    intro t he hhe
    obtain ⟨p, hp, h2, h3, _⟩ := built_heAt hc.built hhe
    have hlt : t < ps.length := by
      by_contra hcon
      rw [List.getElem?_eq_none (by omega)] at hp
      cases hp
    have hd := hopp t hlt
    rw [hp] at hd
    unfold DCEL.destinationAt DCEL.heAt at hd
    simp only [hhe, Option.map_some'] at hd
    have hr := (hc.inRange p (List.getElem?_mem hp)).1
    unfold pairInRange at hr
    simp only [decide_eq_true_eq] at hr
    have hv1 := hc.records.vertices p.2.1.toNat
    have hv2 := hc.records.vertices p.2.2.toNat
    have hl1 : p.2.1.toNat < points.length := by omega
    have hl2 : p.2.2.toNat < points.length := by omega
    rw [List.getElem?_eq_getElem hl1] at hv1
    rw [List.getElem?_eq_getElem hl2] at hv2
    refine ⟨p, hp, h2, ?_⟩
    unfold countedKey DCEL.vertexAt
    simp only [h3, hd, hv1, hv2, Option.map_some']
    unfold pairKey
    rw [Int.toNat_of_nonneg hr.1, Int.toNat_of_nonneg hr.2.2.1]
  unfold countedKeys
  rw [hfm d.halfEdges (countedKey d) (fun he => pairKey (ps.getD he.index.toNat (0, 0, 0)))]
  · apply List.ext_getElem?
    intro i
    rw [List.getElem?_map, List.getElem?_map]
    cases hhe : d.halfEdges[i]? with
    | none =>
      have : ps[i]? = none := by
        apply List.getElem?_eq_none
        rw [← hc.built.length]
        by_contra hcon
        rw [List.getElem?_eq_getElem (by omega)] at hhe
        cases hhe
      rw [this]
      rfl
    | some he =>
      obtain ⟨p, hp, hidx, _⟩ := hkey i he hhe
      rw [hp]
      simp only [Option.map_some', hidx, Int.toNat_ofNat]
      rw [List.getD_eq_getElem?_getD, hp]
      rfl
  · intro he hhe
    obtain ⟨t, ht⟩ := List.getElem?_of_mem hhe
    obtain ⟨p, hp, hidx, hk⟩ := hkey t he ht
    rw [hk]
    simp only [hidx, Int.toNat_ofNat]
    rw [List.getD_eq_getElem?_getD, hp]
    rfl

/-- C24: for every DCEL the builder produces in which the closure check passes,
when the `destination()` of every half-edge (the origin of its twin) is the
`to` vertex of its pair, the planarity check passes; and when the planarity
check fails, some half-edge and its twin are created from the same pair
`(from, to)`: two half-edges of the same direction on one undirected edge. -/
theorem planarity_check_on_opposite_twins (points : List Point) (loops : List (List Int))
    (hclosed : DCEL.hasOpenEdges (DCEL.loadFromInput points loops).1 = false) :
    ((∀ j, j < (createdPairs points.length loops.length
          (loops.map (fun l => l.map DCEL.inputToInternal))).length →
        DCEL.destinationAt (DCEL.loadFromInput points loops).1 j =
          ((createdPairs points.length loops.length
            (loops.map (fun l => l.map DCEL.inputToInternal)))[j]?).map
            (fun p => p.2.2.toNat)) →
      DCEL.isNonPlanarSubdivision (DCEL.loadFromInput points loops).1 = false) ∧
    (DCEL.isNonPlanarSubdivision (DCEL.loadFromInput points loops).1 = true →
      ∃ (i j : Nat) (he : HalfEdge) (p q : Nat × Int × Int), i ≠ j ∧
        (DCEL.loadFromInput points loops).1.halfEdges[i]? = some he ∧ he.twin = some j ∧
        (createdPairs points.length loops.length
          (loops.map (fun l => l.map DCEL.inputToInternal)))[i]? = some p ∧
        (createdPairs points.length loops.length
          (loops.map (fun l => l.map DCEL.inputToInternal)))[j]? = some q ∧
        q.2.1 = p.2.1 ∧ q.2.2 = p.2.2) := by
  have hc := constructed_loadFromInput points loops
  have hpass : (∀ j, j < (createdPairs points.length loops.length
          (loops.map (fun l => l.map DCEL.inputToInternal))).length →
        DCEL.destinationAt (DCEL.loadFromInput points loops).1 j =
          ((createdPairs points.length loops.length
            (loops.map (fun l => l.map DCEL.inputToInternal)))[j]?).map
            (fun p => p.2.2.toNat)) →
      DCEL.isNonPlanarSubdivision (DCEL.loadFromInput points loops).1 = false := by
    intro hopp
    rw [← Bool.not_eq_true, isNonPlanarSubdivision_iff, countedKeys_of_opposite hc hopp]
    rintro ⟨k, hk, hne⟩
    exact hne (closed_keys_twice hc.built hclosed k hk)
  refine ⟨hpass, ?_⟩
  intro hnp
  by_contra hcon
  have hopp : ∀ j, j < (createdPairs points.length loops.length
        (loops.map (fun l => l.map DCEL.inputToInternal))).length →
      DCEL.destinationAt (DCEL.loadFromInput points loops).1 j =
        ((createdPairs points.length loops.length
          (loops.map (fun l => l.map DCEL.inputToInternal)))[j]?).map
          (fun p => p.2.2.toNat) := by
    intro i hi
    have hp := List.getElem?_eq_getElem hi
    obtain ⟨he, h1, _, _, _, _⟩ := hc.built.he i _ hp
    obtain ⟨tw, h6, _, _⟩ := (hasOpenEdges_false_iff _).mp hclosed i he h1
    have htw : ∃ j, he.twin = some j := by
      unfold DCEL.heAt at h6
      split at h6
      · cases h6
      · rename_i j hj
        exact ⟨j, hj⟩
    obtain ⟨j, hj⟩ := htw
    obtain ⟨q, hq, hne, hdir, hdest⟩ := built_twin_pair hc.built h1 hj hp
    rw [hdest, hp]
    rcases hdir with hsame | hrev
    · exact absurd ⟨i, j, he, _, q, fun h => hne h.symm, h1, hj, hp, hq, hsame.1, hsame.2⟩ hcon
    · simp only [Option.map_some', hrev.1]
  rw [hpass hopp] at hnp
  cases hnp

/-- C24 on the two-sided triangle with the loops `1 2 3` and `1 3 2`. -/
theorem planarity_check_on_opposite_twins_witness :
    DCEL.hasOpenEdges (DCEL.loadFromInput [⟨0, 0⟩, ⟨2, 0⟩, ⟨1, 2⟩] [[1, 2, 3], [1, 3, 2]]).1 =
      false ∧
    DCEL.isNonPlanarSubdivision
      (DCEL.loadFromInput [⟨0, 0⟩, ⟨2, 0⟩, ⟨1, 2⟩] [[1, 2, 3], [1, 3, 2]]).1 = false :=
  ⟨by decide,
    (planarity_check_on_opposite_twins [⟨0, 0⟩, ⟨2, 0⟩, ⟨1, 2⟩] [[1, 2, 3], [1, 3, 2]]
      (by decide)).1 (by decide)⟩

/-! ## A mesh without half-edges (C25) -/

/-- The state `loadFromInput` leaves when no half-edge is created: the vertex
and face records of the input, without references. -/
theorem loadFromInput_of_no_pairs (points : List Point) (loops : List (List Int))
    (h : createdPairs points.length loops.length
      (loops.map (fun l => l.map DCEL.inputToInternal)) = []) :
    (DCEL.loadFromInput points loops).1.halfEdges = [] ∧
    (DCEL.loadFromInput points loops).1.vertices = points.enum.map
      (fun p => { position := p.2, index := (p.1 : Int), incidentEdge := none }) ∧
    (DCEL.loadFromInput points loops).1.faces = loops.enum.map
      (fun p => { index := (p.1 : Int), outerComponent := none }) := by
  have hc := constructed_loadFromInput points loops
  rw [h] at hc
  refine ⟨?_, ?_, ?_⟩
  · have := hc.built.length
    simpa using this
  · apply List.ext_getElem?
    intro v
    rw [hc.records.vertices v, enum_map_getElem?]
    cases points[v]? <;> rfl
  · apply List.ext_getElem?
    intro f
    rw [hc.records.faces f, enum_map_getElem?]
    cases loops[f]? <;> rfl

/-- No half-edge is created when every loop has fewer than 3 entries or only
pairs with an index out of range. -/
theorem createdPairs_eq_nil (vertexCount : Nat) (loops : List (List Int))
    (h : ∀ loop ∈ loops, loop.length < 3 ∨ ∀ q ∈ consecutivePairs loop,
      ¬ (0 ≤ q.1 ∧ q.1 < (vertexCount : Int) ∧ 0 ≤ q.2 ∧ q.2 < (vertexCount : Int))) :
    createdPairs vertexCount loops.length loops = [] := by
  rw [createdPairs_eq_spec]
  unfold specHalfEdges
  rw [List.flatMap_eq_nil_iff]
  intro e he
  have hmem : e.2 ∈ loops := by
    obtain ⟨i, hi⟩ := List.getElem?_of_mem he
    rw [List.getElem?_enum] at hi
    cases hl : loops[i]? with
    | none => rw [hl] at hi; cases hi
    | some l =>
      rw [hl] at hi
      simp only [Option.map_some', Option.some.injEq] at hi
      rw [← hi]
      exact List.getElem?_mem hl
  rcases h e.2 hmem with h3 | hout
  · rw [if_neg (by omega)]
  · split_ifs
    · rw [List.map_eq_nil_iff, List.filter_eq_nil_iff]
      intro q hq
      simpa using hout q hq
    · rfl

/-- C25: when there are no faces, or every face loop has fewer than 3 entries
or only pairs with an index out of range, no half-edge is created, the three
checks pass, `isValidDCEL` returns `true` without a diagnostic, and `main`
emits the header with edge count 0, one row per vertex with its coordinates
and the code 1, and one row `1` per face. -/
theorem mesh_without_half_edges_accepted (points : List Point) (loops : List (List Int))
    (h : ∀ loop ∈ loops.map (fun l => l.map DCEL.inputToInternal),
      loop.length < 3 ∨ ∀ q ∈ consecutivePairs loop,
        ¬ (0 ≤ q.1 ∧ q.1 < (points.length : Int) ∧ 0 ≤ q.2 ∧ q.2 < (points.length : Int))) :
    (DCEL.loadFromInput points loops).1.halfEdges = [] ∧
    DCEL.hasOpenEdges (DCEL.loadFromInput points loops).1 = false ∧
    DCEL.isNonPlanarSubdivision (DCEL.loadFromInput points loops).1 = false ∧
    DCEL.hasIntersectingFaces (DCEL.loadFromInput points loops).1 = false ∧
    DCEL.isValidDCEL (DCEL.loadFromInput points loops).1 = (true, []) ∧
    DCEL.getEdgeCount (DCEL.loadFromInput points loops).1 = 0 ∧
    DCEL.main points loops =
      ([], some ([[(points.length : Int), 0, (loops.length : Int)]] ++
        points.map (fun p => [p.x, p.y, 1]) ++ loops.map (fun _ => [1]))) := by
  have hps := createdPairs_eq_nil points.length
    (loops.map (fun l => l.map DCEL.inputToInternal)) h
  rw [List.length_map] at hps
  obtain ⟨hh, hv, hf⟩ := loadFromInput_of_no_pairs points loops hps
  have hload := (built_loadFromInput points loops).1
  have h1 : DCEL.hasOpenEdges (DCEL.loadFromInput points loops).1 = false := by
    unfold DCEL.hasOpenEdges
    rw [hh]; rfl
  have h2 : DCEL.isNonPlanarSubdivision (DCEL.loadFromInput points loops).1 = false := by
    unfold DCEL.isNonPlanarSubdivision DCEL.edgeFaceCount
    rw [hh]; rfl
  have h3 : DCEL.hasIntersectingFaces (DCEL.loadFromInput points loops).1 = false := by
    unfold DCEL.hasIntersectingFaces
    rw [hh]; rfl
  have h4 : DCEL.isValidDCEL (DCEL.loadFromInput points loops).1 = (true, []) := by
    unfold DCEL.isValidDCEL
    rw [h1, h2, h3]; rfl
  have h5 : DCEL.printDCEL (DCEL.loadFromInput points loops).1 =
      [[(points.length : Int), 0, (loops.length : Int)]] ++
        points.map (fun p => [p.x, p.y, 1]) ++ loops.map (fun _ => [1]) := by
    have e1 : (points.enum.map (fun p =>
        ({ position := p.2, index := (p.1 : Int), incidentEdge := none } : Vertex))).map
        (fun vertex => [vertex.position.x, vertex.position.y,
          DCEL.outputIndex (((DCEL.loadFromInput points loops).1.heAt vertex.incidentEdge).map
            (fun he => he.index))]) = points.map (fun p => [p.x, p.y, 1]) := by
      apply List.ext_getElem?
      intro i
      rw [List.getElem?_map, enum_map_getElem?, List.getElem?_map]
      cases points[i]? <;> rfl
    have e2 : (loops.enum.map (fun p =>
        ({ index := (p.1 : Int), outerComponent := none } : Face))).map
        (fun face => [DCEL.outputIndex
          (((DCEL.loadFromInput points loops).1.heAt face.outerComponent).map
            (fun he => he.index))]) = loops.map (fun _ => [1]) := by
      apply List.ext_getElem?
      intro i
      rw [List.getElem?_map, enum_map_getElem?, List.getElem?_map]
      cases loops[i]? <;> rfl
    unfold DCEL.printDCEL DCEL.getVertexCount DCEL.getEdgeCount DCEL.getFaceCount
    rw [hv, hf, e1, e2, hh]
    simp
  refine ⟨hh, h1, h2, h3, h4, by unfold DCEL.getEdgeCount; rw [hh]; rfl, ?_⟩
  unfold DCEL.main
  simp only [hload, h4, h5]
  rfl

/-- C25 on three vertices with a face of two entries and a face whose indices
are all out of range. -/
theorem mesh_without_half_edges_accepted_witness :
    DCEL.isValidDCEL (DCEL.loadFromInput [⟨0, 0⟩, ⟨2, 0⟩, ⟨1, 2⟩] [[1, 2], [7, 8, 9]]).1 =
      (true, []) ∧
    DCEL.main [⟨0, 0⟩, ⟨2, 0⟩, ⟨1, 2⟩] [[1, 2], [7, 8, 9]] =
      ([], some [[3, 0, 2], [0, 0, 1], [2, 0, 1], [1, 2, 1], [1], [1]]) :=
  ⟨(mesh_without_half_edges_accepted [⟨0, 0⟩, ⟨2, 0⟩, ⟨1, 2⟩] [[1, 2], [7, 8, 9]]
      (by decide)).2.2.2.2.1,
   (mesh_without_half_edges_accepted [⟨0, 0⟩, ⟨2, 0⟩, ⟨1, 2⟩] [[1, 2], [7, 8, 9]]
      (by decide)).2.2.2.2.2.2⟩

/-! ## An overlap verdict caused by adjacent half-edges (C6) -/

/-- C6 fails on the code: for the vertices (0,0), (1,0), (2,0), (1,2) and the
loops `1 2 3 4`, `1 2 3` and `1 3 4` the closure and planarity checks pass, the
overlap check reports invalid and `main` prints "superposta", although no two
created half-edges that share no endpoint vertex have intersecting segments
(`specOverlap` is false). The verdict comes from the half-edges 1 (pair 2 → 3
of the first loop) and 6 (pair 3 → 1 of the second loop), which share the
vertex 3: the twin of the half-edge 1 has the same direction, so its
`destination()` is its own origin, none of the four adjacency tests of the
loop sees the shared vertex, and the point (1,0) is tested against the segment
from (2,0) to (0,0). Every pair the loop finds intersecting (1 or 5 with 6 or
7) is such a pair of half-edges that share the vertex 3. -/
theorem overlap_verdict_from_adjacent_half_edges :
    DCEL.hasOpenEdges (DCEL.loadFromInput [⟨0, 0⟩, ⟨1, 0⟩, ⟨2, 0⟩, ⟨1, 2⟩]
      [[1, 2, 3, 4], [1, 2, 3], [1, 3, 4]]).1 = false ∧
    DCEL.isNonPlanarSubdivision (DCEL.loadFromInput [⟨0, 0⟩, ⟨1, 0⟩, ⟨2, 0⟩, ⟨1, 2⟩]
      [[1, 2, 3, 4], [1, 2, 3], [1, 3, 4]]).1 = false ∧
    DCEL.hasIntersectingFaces (DCEL.loadFromInput [⟨0, 0⟩, ⟨1, 0⟩, ⟨2, 0⟩, ⟨1, 2⟩]
      [[1, 2, 3, 4], [1, 2, 3], [1, 3, 4]]).1 = true ∧
    DCEL.main [⟨0, 0⟩, ⟨1, 0⟩, ⟨2, 0⟩, ⟨1, 2⟩] [[1, 2, 3, 4], [1, 2, 3], [1, 3, 4]] =
      (["superposta"], none) ∧
    createdPairs 4 3 ([[1, 2, 3, 4], [1, 2, 3], [1, 3, 4]].map
      (fun l => l.map DCEL.inputToInternal)) =
      [(0, 0, 1), (0, 1, 2), (0, 2, 3), (0, 3, 0), (1, 0, 1), (1, 1, 2), (1, 2, 0),
       (2, 0, 2), (2, 2, 3), (2, 3, 0)] ∧
    specOverlap [⟨0, 0⟩, ⟨1, 0⟩, ⟨2, 0⟩, ⟨1, 2⟩]
      (createdPairs 4 3 ([[1, 2, 3, 4], [1, 2, 3], [1, 3, 4]].map
        (fun l => l.map DCEL.inputToInternal))) = false ∧
    (DCEL.loadFromInput [⟨0, 0⟩, ⟨1, 0⟩, ⟨2, 0⟩, ⟨1, 2⟩]
      [[1, 2, 3, 4], [1, 2, 3], [1, 3, 4]]).1.halfEdges[1]? =
      some { index := 1, origin := some 1, twin := some 5, incidentFace := some 0,
             next := none, prev := none } ∧
    (DCEL.loadFromInput [⟨0, 0⟩, ⟨1, 0⟩, ⟨2, 0⟩, ⟨1, 2⟩]
      [[1, 2, 3, 4], [1, 2, 3], [1, 3, 4]]).1.halfEdges[6]? =
      some { index := 6, origin := some 2, twin := some 7, incidentFace := some 1,
             next := none, prev := none } ∧
    DCEL.intersectAt (DCEL.loadFromInput [⟨0, 0⟩, ⟨1, 0⟩, ⟨2, 0⟩, ⟨1, 2⟩]
      [[1, 2, 3, 4], [1, 2, 3], [1, 3, 4]]).1 1 6
      { index := 1, origin := some 1, twin := some 5, incidentFace := some 0,
        next := none, prev := none }
      { index := 6, origin := some 2, twin := some 7, incidentFace := some 1,
        next := none, prev := none } = true ∧
    shareNoEndpoint (0, 1, 2) (1, 2, 0) = false ∧
    DCEL.destinationAt (DCEL.loadFromInput [⟨0, 0⟩, ⟨1, 0⟩, ⟨2, 0⟩, ⟨1, 2⟩]
      [[1, 2, 3, 4], [1, 2, 3], [1, 3, 4]]).1 1 = some 1 ∧
    (DCEL.loadFromInput [⟨0, 0⟩, ⟨1, 0⟩, ⟨2, 0⟩, ⟨1, 2⟩]
      [[1, 2, 3, 4], [1, 2, 3], [1, 3, 4]]).1.halfEdges.enum.all (fun a =>
        (DCEL.loadFromInput [⟨0, 0⟩, ⟨1, 0⟩, ⟨2, 0⟩, ⟨1, 2⟩]
          [[1, 2, 3, 4], [1, 2, 3], [1, 3, 4]]).1.halfEdges.enum.all (fun b =>
            !(decide (a.1 < b.1) &&
              DCEL.intersectAt (DCEL.loadFromInput [⟨0, 0⟩, ⟨1, 0⟩, ⟨2, 0⟩, ⟨1, 2⟩]
                [[1, 2, 3, 4], [1, 2, 3], [1, 3, 4]]).1 a.1 b.1 a.2 b.2) ||
            (decide (a.1 = 1 ∨ a.1 = 5) && decide (b.1 = 6 ∨ b.1 = 7)))) = true := by
  decide

end Subdivision
